import Mathlib

/-!
# Duration parsers of `audio_parser.c`

A shallow embedding of the four duration parsers (WAV, FLAC, OGG, MP3) of
`src/audio_parser.c`, followed by theorems about them.

Conventions of the embedding.

* A byte is a `Fin 256`.  An opened stream (`FILE`) is the byte content of the
  file together with the current position; a position may lie beyond the end
  of the content (`fseek` allows it), in which case `fread` delivers nothing.
* `fopen` is represented by its outcome: `none` when the file cannot be opened
  (or the file name is `NULL`), otherwise the bytes of the file.
* Integer types follow the common little-endian ABI with 32-bit `int` and
  `unsigned int`, 16-bit `unsigned short` and 64-bit `long`, `long long` and
  `size_t`.  Unsigned arithmetic that can exceed its type is reduced modulo
  `2 ^ 32`; a conversion of a wider integer to `int` wraps.
* A `double` is represented by the rational number it holds.  Every operation
  that produces a `double` from a value that need not be representable rounds
  it with `roundDouble` (binary64, round to nearest, ties to even; all values
  that occur are far inside the exponent range, which is therefore not
  modelled).
* Undefined behaviour (integer division by zero, conversion of a `double` whose
  integral part does not fit the target type, signed overflow of a
  subtraction) is the outer `none` of an `Option`.
* Loops are written with a fuel argument, supplied by the caller with a value
  that the loop cannot exhaust (one more than the number of bytes of the file,
  while every iteration that continues moves the position forward).
-/

namespace AudioParser

/-! ## C arithmetic -/

/-- One octet of a file. -/
abbrev Byte := Fin 256

/-- Conversion of an integer to `int`: reduction modulo `2 ^ 32` into the
signed range. -/
def to_int32 (v : ℤ) : ℤ := (v + 2 ^ 31) % 2 ^ 32 - 2 ^ 31

/-- Conversion of an integer to `unsigned int`: reduction modulo `2 ^ 32`. -/
def to_uint32 (v : ℤ) : ℕ := (v % 2 ^ 32).toNat

/-- Round to the nearest integer, ties to the even one. -/
def roundHalfEven (q : ℚ) : ℤ :=
  let f := ⌊q⌋
  let r := q - f
  if r < 1 / 2 then f
  else if 1 / 2 < r then f + 1
  else if f % 2 = 0 then f
  else f + 1

/-- Position of the leading binary digit of `n`, by repeated halving; `fuel` bounds the
number of halvings. -/
def ilog2_go : ℕ → ℕ → ℕ
  | 0, _ => 0
  | fuel + 1, n => if 2 ≤ n then ilog2_go fuel (n / 2) + 1 else 0

/-- Position of the leading binary digit of a positive integer: `2 ^ ilog2 n ≤ n`
and `n < 2 ^ (ilog2 n + 1)`. -/
def ilog2 (n : ℕ) : ℕ := ilog2_go n n

/-- Binary exponent of a non-zero rational: the `e` with `2 ^ e ≤ |q| < 2 ^ (e + 1)`. -/
def binade (q : ℚ) : ℤ :=
  let d : ℤ := (ilog2 q.num.natAbs : ℤ) - ilog2 q.den
  if (2 : ℚ) ^ d ≤ |q| then d else d - 1

/-- The binary64 value nearest to `q` (53-bit significand, ties to even). -/
def roundDouble (q : ℚ) : ℚ :=
  if q = 0 then 0
  else
    let e := binade q - 52
    (roundHalfEven (q / 2 ^ e) : ℚ) * 2 ^ e

/-- Integral part of a `double` (truncation toward zero). -/
def c_trunc (q : ℚ) : ℤ := if 0 ≤ q then ⌊q⌋ else ⌈q⌉

/-- The cast `(int)d` of a `double`: undefined when the integral part is not
representable in `int`. -/
def double_to_int (q : ℚ) : Option ℤ :=
  let t := c_trunc q
  if -2 ^ 31 ≤ t ∧ t < 2 ^ 31 then some t else none

/-- The cast `(long long)d` of a `double`: undefined when the integral part is
not representable in `long long`. -/
def double_to_int64 (q : ℚ) : Option ℤ :=
  let t := c_trunc q
  if -2 ^ 63 ≤ t ∧ t < 2 ^ 63 then some t else none

/-- Value of a little-endian byte sequence (the unsigned integer that
`fread(&x, n, 1, file)` stores in `x`). -/
def le_value (bs : List Byte) : ℕ := bs.foldr (fun b acc => b.val + 256 * acc) 0

/-! ## Stream accessor -/

/-- An opened binary stream. -/
structure FILE where
  data : List Byte
  pos : ℕ
deriving DecidableEq

/-- Successful `fopen(filename, "rb")`: position 0. -/
def fopen (bytes : List Byte) : FILE := ⟨bytes, 0⟩

/-- Reading `n` bytes: `fread(buf, 1, n, file)`.  The bytes delivered are those
available from the current position, at most `n`; the position advances by the
number delivered. -/
def fread (n : ℕ) (file : FILE) : List Byte × FILE :=
  let bs := (file.data.drop file.pos).take n
  (bs, { file with pos := file.pos + bs.length })

/-- Relative seek: `fseek(file, off, SEEK_CUR)`.  A seek to a negative position fails and
leaves the position unchanged. -/
def fseek_cur (off : ℤ) (file : FILE) : FILE :=
  if 0 ≤ (file.pos : ℤ) + off then { file with pos := ((file.pos : ℤ) + off).toNat } else file

/-- Absolute seek: `fseek(file, off, SEEK_SET)`. -/
def fseek_set (off : ℤ) (file : FILE) : FILE :=
  if 0 ≤ off then { file with pos := off.toNat } else file

/-- Seek relative to the end: `fseek(file, off, SEEK_END)`. -/
def fseek_end (off : ℤ) (file : FILE) : FILE :=
  if 0 ≤ (file.data.length : ℤ) + off then
    { file with pos := ((file.data.length : ℤ) + off).toNat }
  else file

/-- Current position: `ftell(file)`. -/
def ftell (file : FILE) : ℤ := file.pos

/-! ## WAV -/

/-- ASCII `RIFF`. -/
def WAV_RIFF_HEADER : List Byte := [0x52, 0x49, 0x46, 0x46]

/-- ASCII `WAVE`. -/
def WAV_WAVE_HEADER : List Byte := [0x57, 0x41, 0x56, 0x45]

/-- ASCII `fmt ` (with the trailing blank). -/
def WAV_FMT_HEADER : List Byte := [0x66, 0x6D, 0x74, 0x20]

/-- ASCII `data`. -/
def WAV_DATA_HEADER : List Byte := [0x64, 0x61, 0x74, 0x61]

/-- Fields of `WAVInfo`. -/
structure WAVInfo where
  sample_rate : ℕ
  channels : ℕ
  bits_per_sample : ℕ
  data_size : ℕ
  duration : ℚ
deriving DecidableEq

/-- Outcome of one of the two chunk-search loops of `parse_wav_file`. -/
inductive ChunkScan where
  /-- The 4 size bytes after a chunk id could not be read: the parser returns 0. -/
  | truncated : ChunkScan
  /-- The loop ended because no further chunk id could be read. -/
  | absent : ChunkScan
  /-- The loop left with `break` on the wanted chunk: its declared size, and the stream
  positioned after the 8-byte chunk header. -/
  | found (chunk_size : ℕ) (file : FILE) : ChunkScan
deriving DecidableEq

/-- The loop `while (fread(chunk_header, 1, 4, file) == 4) { ... }` of `parse_wav_file`,
which occurs twice, for `fmt ` and for `data`. -/
def scan_chunks (tag : List Byte) : ℕ → FILE → ChunkScan
  | 0, _ => .absent
  | fuel + 1, file =>
    let rd := fread 4 file
    let chunk_header := rd.1
    let file := rd.2
    if chunk_header.length ≠ 4 then .absent
    else
      let rd := fread 4 file
      let size_bytes := rd.1
      let file := rd.2
      if size_bytes.length ≠ 4 then .truncated
      else
        let chunk_size := le_value size_bytes
        if chunk_header = tag then .found chunk_size file
        else scan_chunks tag fuel (fseek_cur chunk_size file)

/-- The function `parse_wav_file`.  Outer `none`: undefined behaviour (division by
zero); `some none`: return value 0; `some (some info)`: return value 1. -/
def parse_wav_file (opened : Option (List Byte)) : Option (Option WAVInfo) :=
  match opened with
  | none => some none
  | some bytes =>
    let file := fopen bytes
    let rd := fread 4 file
    let riff_header := rd.1
    let file := rd.2
    if riff_header.length ≠ 4 then some none
    else if riff_header ≠ WAV_RIFF_HEADER then some none
    else
      let file := fseek_cur 4 file
      let rd := fread 4 file
      let wave_header := rd.1
      let file := rd.2
      if wave_header.length ≠ 4 then some none
      else if wave_header ≠ WAV_WAVE_HEADER then some none
      else
        match scan_chunks WAV_FMT_HEADER (bytes.length + 1) file with
        | .truncated => some none
        | .absent => some none
        | .found chunk_size file =>
          let rd := fread 2 file
          let file := rd.2
          if rd.1.length ≠ 2 then some none
          else
            let audio_format := le_value rd.1
            if audio_format ≠ 1 then some none
            else
              let rd := fread 2 file
              let file := rd.2
              if rd.1.length ≠ 2 then some none
              else
                let num_channels := le_value rd.1
                let rd := fread 4 file
                let file := rd.2
                if rd.1.length ≠ 4 then some none
                else
                  let sample_rate := le_value rd.1
                  let file := fseek_cur 6 file
                  let rd := fread 2 file
                  let file := rd.2
                  if rd.1.length ≠ 2 then some none
                  else
                    let bits_per_sample := le_value rd.1
                    let file := fseek_cur (to_uint32 ((chunk_size : ℤ) - 16)) file
                    match scan_chunks WAV_DATA_HEADER (bytes.length + 1) file with
                    | .truncated => some none
                    | .absent => some none
                    | .found data_size _ =>
                      if data_size = 0 then some none
                      else if sample_rate > 0 ∧ num_channels > 0 ∧ bits_per_sample > 0 then
                        let bytes_per_sample := bits_per_sample / 8
                        let divisor := to_uint32 ((bytes_per_sample * num_channels : ℕ) : ℤ)
                        if divisor = 0 then none
                        else
                          let total_samples := data_size / divisor
                          some (some
                            { sample_rate := sample_rate
                              channels := num_channels
                              bits_per_sample := bits_per_sample
                              data_size := data_size
                              duration := roundDouble ((total_samples : ℚ) / sample_rate) })
                      else some none

/-- The function `get_wav_duration`: `(int)info.duration` on success, else 0. -/
def get_wav_duration (opened : Option (List Byte)) : Option ℤ :=
  match parse_wav_file opened with
  | none => none
  | some none => some 0
  | some (some info) => double_to_int info.duration

/-! ## FLAC -/

/-- ASCII `fLaC`. -/
def FLAC_SIGNATURE : List Byte := [0x66, 0x4C, 0x61, 0x43]

/-- Fields of `FLACInfo`. -/
structure FLACInfo where
  sample_rate : ℕ
  channels : ℕ
  bits_per_sample : ℕ
  total_samples : ℕ
  duration : ℚ
deriving DecidableEq

/-- The function `check_flac_signature`: whether the next 4 bytes are `fLaC`, and the
stream after the read. -/
def check_flac_signature (file : FILE) : Bool × FILE :=
  let rd := fread 4 file
  if rd.1.length < 4 then (false, rd.2) else (decide (rd.1 = FLAC_SIGNATURE), rd.2)

/-- The function `parse_streaminfo_block`: the updated `info` and the stream after the
call. -/
def parse_streaminfo_block (file : FILE) (info : FLACInfo) (block_length : ℕ) :
    FLACInfo × FILE :=
  if block_length ≠ 34 then (info, file)
  else
    let rd := fread 34 file
    let block_data := rd.1
    if block_data.length ≠ 34 then (info, rd.2)
    else
      let sample_rate_channels_bps := [0, 1, 2, 3, 4, 5, 6, 7].foldl
        (fun acc i => acc ||| ((block_data.getD (10 + i) 0).val <<< ((7 - i) * 8))) 0
      let sample_rate := to_uint32 (((sample_rate_channels_bps >>> 44) &&& 0xFFFFF : ℕ) : ℤ)
      let channels := to_uint32 ((((sample_rate_channels_bps >>> 41) &&& 0x07) + 1 : ℕ) : ℤ)
      let bits_per_sample :=
        to_uint32 ((((sample_rate_channels_bps >>> 36) &&& 0x1F) + 1 : ℕ) : ℤ)
      let total_samples_high := (sample_rate_channels_bps >>> 4) &&& 0xFFFFFFFF
      let total_samples_low := sample_rate_channels_bps &&& 0x0F
      let total_samples := (total_samples_high <<< 4) ||| total_samples_low
      ({ sample_rate := sample_rate
         channels := channels
         bits_per_sample := bits_per_sample
         total_samples := total_samples
         duration :=
           if sample_rate > 0 ∧ total_samples > 0 then
             roundDouble ((total_samples : ℚ) / sample_rate)
           else info.duration }, rd.2)

/-- The loop `while (!last_block) { ... }` of `parse_flac_metadata`: the `info` at loop
exit. -/
def parse_flac_metadata_loop : ℕ → FILE → FLACInfo → FLACInfo
  | 0, _, info => info
  | fuel + 1, file, info =>
    let rd := fread 4 file
    let block_header := rd.1
    let file := rd.2
    if block_header.length < 4 then info
    else
      let block_info := block_header.foldl
        (fun acc b => to_uint32 ((acc <<< 8 : ℕ) : ℤ) ||| b.val) 0
      let is_last := (block_info >>> 31) &&& 0x01
      let block_type := (block_info >>> 24) &&& 0x7F
      let block_length := block_info &&& 0xFFFFFF
      let last_block := decide (is_last = 1)
      if block_type = 0 then (parse_streaminfo_block file info block_length).1
      else
        let file := fseek_cur block_length file
        if last_block then info else parse_flac_metadata_loop fuel file info

/-- The function `parse_flac_metadata`: the return value `info->duration > 0` and the
`info` filled in. -/
def parse_flac_metadata (file : FILE) (info : FLACInfo) : Bool × FLACInfo :=
  let info := parse_flac_metadata_loop (file.data.length + 1) file info
  (decide (info.duration > 0), info)

/-- The function `parse_flac_file`; `info` starts zeroed (`memset`). -/
def parse_flac_file (opened : Option (List Byte)) : Bool × FLACInfo :=
  let zeroed : FLACInfo := ⟨0, 0, 0, 0, 0⟩
  match opened with
  | none => (false, zeroed)
  | some bytes =>
    let sig := check_flac_signature (fopen bytes)
    if ¬ sig.1 then (false, zeroed) else parse_flac_metadata sig.2 zeroed

/-- The function `get_flac_duration`: `(int)info.duration` on success, else 0. -/
def get_flac_duration (opened : Option (List Byte)) : Option ℤ :=
  let r := parse_flac_file opened
  if r.1 then double_to_int r.2.duration else some 0

/-! ## OGG -/

/-- ASCII `OggS`. -/
def OGG_PAGE_HEADER : List Byte := [0x4F, 0x67, 0x67, 0x53]

/-- The 7 bytes `\x01vorbis`. -/
def VORBIS_ID_MAGIC : List Byte := [0x01, 0x76, 0x6F, 0x72, 0x62, 0x69, 0x73]

/-- ASCII `OpusHead`. -/
def OPUS_HEAD_MAGIC : List Byte := [0x4F, 0x70, 0x75, 0x73, 0x48, 0x65, 0x61, 0x64]

/-- Conversion of an integer to `long long`: reduction modulo `2 ^ 64` into the signed
range. -/
def to_int64 (v : ℤ) : ℤ := (v + 2 ^ 63) % 2 ^ 64 - 2 ^ 63

/-- Fields of `OGGPageHeader`. -/
structure OGGPageHeader where
  capture_pattern : List Byte
  version : ℕ
  header_type : ℕ
  granule_position : ℕ
  bitstream_serial : ℕ
  page_sequence : ℕ
  checksum : ℕ
  page_segments : ℕ
deriving DecidableEq

/-- Result of a successful `read_ogg_page_header`: the header, `*data_size`, and the stream
positioned after the segment table. -/
structure PageRead where
  header : OGGPageHeader
  data_size : ℕ
  file : FILE
deriving DecidableEq

/-- The function `read_ogg_page_header`; `none` is the return value 0.  The allocation of
the segment table is taken to succeed. -/
def read_ogg_page_header (file : FILE) : Option PageRead :=
  let rd := fread 27 file
  let header_data := rd.1
  let file := rd.2
  if header_data.length < 27 then none
  else if header_data.take 4 ≠ OGG_PAGE_HEADER then none
  else
    let granule_position := [0, 1, 2, 3, 4, 5, 6, 7].foldl
      (fun acc i => acc ||| ((header_data.getD (6 + i) 0).val <<< (i * 8))) 0
    let bitstream_serial := [0, 1, 2, 3].foldl
      (fun acc i => acc ||| ((header_data.getD (14 + i) 0).val <<< (i * 8))) 0
    let page_sequence := [0, 1, 2, 3].foldl
      (fun acc i => acc ||| ((header_data.getD (18 + i) 0).val <<< (i * 8))) 0
    let checksum := [0, 1, 2, 3].foldl
      (fun acc i => acc ||| ((header_data.getD (22 + i) 0).val <<< (i * 8))) 0
    let page_segments := (header_data.getD 26 0).val
    let rd := fread page_segments file
    let segment_table := rd.1
    let file := rd.2
    if segment_table.length < page_segments then none
    else
      let data_size := (segment_table.map Fin.val).sum
      some
        { header :=
            { capture_pattern := header_data.take 4
              version := (header_data.getD 4 0).val
              header_type := (header_data.getD 5 0).val
              granule_position := granule_position
              bitstream_serial := bitstream_serial
              page_sequence := page_sequence
              checksum := checksum
              page_segments := page_segments }
          data_size := data_size
          file := file }

/-- The loop `for (int i = 0; i < 10; i++)` of `find_first_audio_page`, with the number of
iterations left; `some r` when an iteration left with `found = 1` and `*sample_rate = r`.
The comparison of the first 7 (8) bytes of `page_data` is guarded by `read_size >= 23`
(`>= 12`), so only bytes just read are ever decisive. -/
def find_first_audio_page_loop : ℕ → FILE → Option ℕ
  | 0, _ => none
  | n + 1, file =>
    match read_ogg_page_header file with
    | none => none
    | some page =>
      let data_size := page.data_size
      let read_size := if data_size < 100 then data_size else 100
      let rd := fread read_size page.file
      let page_data := rd.1
      let file := rd.2
      if page_data.length = read_size ∧ page_data.take 7 = VORBIS_ID_MAGIC ∧ read_size ≥ 23 then
        some ((page_data.getD 12 0).val ||| ((page_data.getD 13 0).val <<< 8) |||
          ((page_data.getD 14 0).val <<< 16) ||| ((page_data.getD 15 0).val <<< 24))
      else if page_data.length = read_size ∧ page_data.take 8 = OPUS_HEAD_MAGIC ∧
          read_size ≥ 12 then
        some ((page_data.getD 8 0).val ||| ((page_data.getD 9 0).val <<< 8) |||
          ((page_data.getD 10 0).val <<< 16) ||| ((page_data.getD 11 0).val <<< 24))
      else
        let file := if data_size > read_size then fseek_cur ((data_size - read_size : ℕ) : ℤ) file
          else file
        find_first_audio_page_loop n file

/-- The function `find_first_audio_page`: the sample rate when found, and the stream with
its position restored. -/
def find_first_audio_page (file : FILE) : Option ℕ × FILE :=
  let original_pos := ftell file
  let found := find_first_audio_page_loop 10 (fseek_set 0 file)
  (found, fseek_set original_pos file)

/-- The variables `first_granule_found`, `first_granule`, `last_granule` of the sweep. -/
structure GranuleState where
  first_granule_found : Bool
  first_granule : ℤ
  last_granule : ℤ
deriving DecidableEq

/-- The loop `while (read_ogg_page_header(file, &header, &data_size))` of
`get_ogg_duration`. -/
def ogg_sweep : ℕ → FILE → GranuleState → GranuleState
  | 0, _, st => st
  | fuel + 1, file, st =>
    match read_ogg_page_header file with
    | none => st
    | some page =>
      let st :=
        if ¬ st.first_granule_found ∧ page.header.granule_position > 0 then
          { st with first_granule := to_int64 page.header.granule_position
                    first_granule_found := true }
        else st
      let st :=
        if page.header.granule_position > 0 then
          { st with last_granule := to_int64 page.header.granule_position }
        else st
      ogg_sweep fuel (fseek_cur (page.data_size : ℤ) page.file) st

/-- The function `get_ogg_duration`.  The subtraction `last_granule - first_granule` is
undefined when it overflows `long long`; the quotient truncates toward zero and is
converted to `int`. -/
def get_ogg_duration (opened : Option (List Byte)) : Option ℤ :=
  match opened with
  | none => some 0
  | some bytes =>
    let file := fopen bytes
    let probe := find_first_audio_page file
    match probe.1 with
    | none => some 0
    | some sample_rate =>
      if sample_rate = 0 then some 0
      else
        let file := fseek_set 0 probe.2
        let st := ogg_sweep (bytes.length + 1) file ⟨false, 0, 0⟩
        if ¬ st.first_granule_found ∨ st.last_granule = 0 then some 0
        else
          let total_samples := st.last_granule - st.first_granule
          if -2 ^ 63 ≤ total_samples ∧ total_samples < 2 ^ 63 then
            some (to_int32 (Int.tdiv total_samples (sample_rate : ℤ)))
          else none

/-! ## MP3 -/

/-- Fields of `MP3FrameHeader`. -/
structure MP3FrameHeader where
  mpeg_version : ℚ
  layer : ℤ
  bitrate : ℤ
  sample_rate : ℤ
  frame_size : ℤ
  padding : ℤ
  protection : ℤ
deriving DecidableEq

/-- The table `bitrate_table[2][3][16]` of `get_mp3_bitrate` (kbps). -/
def bitrate_table : List (List (List ℤ)) :=
  [[[0, 32, 64, 96, 128, 160, 192, 224, 256, 288, 320, 352, 384, 416, 448, 0],
    [0, 32, 48, 56, 64, 80, 96, 112, 128, 160, 192, 224, 256, 320, 384, 0],
    [0, 32, 40, 48, 56, 64, 80, 96, 112, 128, 160, 192, 224, 256, 320, 0]],
   [[0, 32, 48, 56, 64, 80, 96, 112, 128, 144, 160, 176, 192, 224, 256, 0],
    [0, 8, 16, 24, 32, 40, 48, 56, 64, 80, 96, 112, 128, 144, 160, 0],
    [0, 8, 16, 24, 32, 40, 48, 56, 64, 80, 96, 112, 128, 144, 160, 0]]]

/-- The table `sample_rate_table[3][4]` of `get_mp3_sample_rate`. -/
def sample_rate_table : List (List ℤ) :=
  [[44100, 48000, 32000, 0], [22050, 24000, 16000, 0], [11025, 12000, 8000, 0]]

/-- The function `get_mp3_bitrate`. -/
def get_mp3_bitrate (version layer index : ℤ) : ℤ :=
  let version_key : ℕ := if version = 1 then 0 else 1
  let layer_key : Option ℕ :=
    if layer = 1 then some 0
    else if layer = 2 then some 1
    else if layer = 3 then some 2
    else none
  match layer_key with
  | none => 0
  | some layer_key =>
    if index ≥ 0 ∧ index < 16 then
      (((bitrate_table.getD version_key []).getD layer_key []).getD index.toNat 0) * 1000
    else 0

/-- The function `get_mp3_sample_rate`. -/
def get_mp3_sample_rate (version : ℚ) (index : ℤ) : ℤ :=
  let version_key : Option ℕ :=
    if version = 1 then some 0
    else if version = 2 then some 1
    else if version = 5 / 2 then some 2
    else none
  match version_key with
  | none => 0
  | some version_key =>
    if index ≥ 0 ∧ index < 4 then (sample_rate_table.getD version_key []).getD index.toNat 0
    else 0

/-- The function `get_mp3_frame_size` (`int` arithmetic, division truncating). -/
def get_mp3_frame_size (layer bitrate sample_rate padding : ℤ) : ℤ :=
  if sample_rate = 0 then 0
  else if layer = 1 then (Int.tdiv (12 * bitrate) sample_rate + padding) * 4
  else Int.tdiv (144 * bitrate) sample_rate + padding

/-- The function `parse_mp3_header` on the 4 bytes of `header_bytes`; `none` is the return
value 0. -/
def parse_mp3_header (header_bytes : List Byte) : Option MP3FrameHeader :=
  let header_val := to_uint32 ((((header_bytes.getD 0 0).val <<< 24) |||
    ((header_bytes.getD 1 0).val <<< 16) ||| ((header_bytes.getD 2 0).val <<< 8) |||
    (header_bytes.getD 3 0).val : ℕ) : ℤ)
  if header_val &&& 0xFFE00000 ≠ 0xFFE00000 then none
  else
    let version_bits := (header_val >>> 19) &&& 0x3
    let mpeg_version : Option ℚ :=
      if version_bits = 0 then some (5 / 2)
      else if version_bits = 2 then some 2
      else if version_bits = 3 then some 1
      else none
    match mpeg_version with
    | none => none
    | some mpeg_version =>
      let layer_bits := (header_val >>> 17) &&& 0x3
      let layer : Option ℤ :=
        if layer_bits = 1 then some 3
        else if layer_bits = 2 then some 2
        else if layer_bits = 3 then some 1
        else none
      match layer with
      | none => none
      | some layer =>
        let protection : ℤ := (((header_val >>> 16) &&& 0x1 : ℕ) : ℤ)
        let bitrate_index : ℤ := (((header_val >>> 12) &&& 0xF : ℕ) : ℤ)
        let bitrate := get_mp3_bitrate (c_trunc mpeg_version) layer bitrate_index
        if bitrate = 0 then none
        else
          let sample_rate_index : ℤ := (((header_val >>> 10) &&& 0x3 : ℕ) : ℤ)
          let sample_rate := get_mp3_sample_rate mpeg_version sample_rate_index
          if sample_rate = 0 then none
          else
            let padding : ℤ := (((header_val >>> 9) &&& 0x1 : ℕ) : ℤ)
            let frame_size := get_mp3_frame_size layer bitrate sample_rate padding
            if frame_size > 0 then
              some
                { mpeg_version := mpeg_version
                  layer := layer
                  bitrate := bitrate
                  sample_rate := sample_rate
                  frame_size := frame_size
                  padding := padding
                  protection := protection }
            else none

/-- ASCII `ID3`. -/
def ID3_MAGIC : List Byte := [0x49, 0x44, 0x33]

/-- The function `skip_id3v2_tag`: return value and the stream after the call. -/
def skip_id3v2_tag (file : FILE) : Bool × FILE :=
  let original_pos := ftell file
  let rd := fread 10 file
  let header := rd.1
  let file := rd.2
  if header.length ≠ 10 then (false, fseek_set original_pos file)
  else if header.take 3 = ID3_MAGIC then
    let size : ℤ := [6, 7, 8, 9].foldl
      (fun size i => size * 128 + (((header.getD i 0).val &&& 0x7F : ℕ) : ℤ)) 0
    (true, fseek_cur size file)
  else (false, fseek_set original_pos file)

/-- ASCII `Xing`. -/
def XING_MAGIC : List Byte := [0x58, 0x69, 0x6E, 0x67]

/-- ASCII `Info`. -/
def INFO_MAGIC : List Byte := [0x49, 0x6E, 0x66, 0x6F]

/-- ASCII `VBRI`. -/
def VBRI_MAGIC : List Byte := [0x56, 0x42, 0x52, 0x49]

/-- The function `skip_xing_header`: return value and the stream after the call. -/
def skip_xing_header (file : FILE) (frame_size : ℤ) : Bool × FILE :=
  let original_pos := ftell file
  let rd := fread 12 file
  let header := rd.1
  let file := rd.2
  if header.length ≠ 12 then (false, fseek_set original_pos file)
  else if header.take 4 = XING_MAGIC ∨ header.take 4 = INFO_MAGIC then
    (true, fseek_cur (frame_size - 12 - 4) file)
  else if header.take 4 = VBRI_MAGIC then (true, fseek_cur (frame_size - 12 - 4) file)
  else (false, fseek_set original_pos file)

/-- The local variables of `get_mp3_duration_optimized` that live across iterations of the
frame-scan loop, with the stream. -/
structure ScanState where
  file : FILE
  total_frames : ℤ
  total_samples : ℤ
  first_valid_frame : Bool
  sample_rate : ℤ
  is_vbr : Bool
  first_bitrate : ℤ
  different_bitrates : Bool
deriving DecidableEq

/-- The value of `samples_per_frame` for a header. -/
def samples_per_frame (header : MP3FrameHeader) : ℤ :=
  if header.layer = 1 then 384
  else if header.mpeg_version = 1 then 1152
  else 576

/-- The loop `while (ftell(file) < file_size - 4) { ... }` of
`get_mp3_duration_optimized`: the state at loop exit.  Outer `none`: the conversion of the
extrapolated sample count to `long long` is undefined. -/
def mp3_scan : ℕ → ℤ → ScanState → Option ScanState
  | 0, _, st => some st
  | fuel + 1, file_size, st =>
    if ¬ (ftell st.file < file_size - 4) then some st
    else
      let current_pos := ftell st.file
      let rd := fread 4 st.file
      let buffer := rd.1
      let file := rd.2
      if buffer.length ≠ 4 then some { st with file := file }
      else
        match parse_mp3_header buffer with
        | some header =>
          let total_frames := st.total_frames + 1
          let sample_rate := if st.first_valid_frame then header.sample_rate else st.sample_rate
          let first_bitrate := if st.first_valid_frame then header.bitrate else st.first_bitrate
          let changed := decide (¬ st.first_valid_frame ∧ header.bitrate ≠ st.first_bitrate)
          let different_bitrates := if changed then true else st.different_bitrates
          let is_vbr := if changed then true else st.is_vbr
          let file := if total_frames = 1 then (skip_xing_header file header.frame_size).2 else file
          let total_samples := st.total_samples + samples_per_frame header
          let file :=
            if header.frame_size > 4 then fseek_set (current_pos + header.frame_size) file
            else file
          if total_frames ≥ 10 ∧ ¬ is_vbr then
            if sample_rate > 0 ∧ first_bitrate > 0 then
              let avg_frame_size : ℚ := header.frame_size
              let estimated_total_frames := roundDouble (roundDouble file_size / avg_frame_size)
              match double_to_int64
                (roundDouble (estimated_total_frames * samples_per_frame header)) with
              | none => none
              | some total_samples =>
                some
                  { file := file
                    total_frames := total_frames
                    total_samples := total_samples
                    first_valid_frame := false
                    sample_rate := sample_rate
                    is_vbr := is_vbr
                    first_bitrate := first_bitrate
                    different_bitrates := different_bitrates }
            else
              some
                { file := file
                  total_frames := total_frames
                  total_samples := total_samples
                  first_valid_frame := false
                  sample_rate := sample_rate
                  is_vbr := is_vbr
                  first_bitrate := first_bitrate
                  different_bitrates := different_bitrates }
          else
            mp3_scan fuel file_size
              { file := file
                total_frames := total_frames
                total_samples := total_samples
                first_valid_frame := false
                sample_rate := sample_rate
                is_vbr := is_vbr
                first_bitrate := first_bitrate
                different_bitrates := different_bitrates }
        | none =>
          mp3_scan fuel file_size { st with file := fseek_set (current_pos + 1) file }

/-- The statements of `get_mp3_duration_optimized` before the loop: the ID3v2 skip, the
determination of `file_size`, and the seek to offset 0. -/
def mp3_prologue (bytes : List Byte) : FILE × ℤ :=
  let file := fopen bytes
  let file := (skip_id3v2_tag file).2
  let file := fseek_end 0 file
  let file_size := ftell file
  let file := fseek_set 0 file
  (file, file_size)

/-- The function `get_mp3_duration_optimized`. -/
def get_mp3_duration_optimized (opened : Option (List Byte)) : Option ℤ :=
  match opened with
  | none => some 0
  | some bytes =>
    let pr := mp3_prologue bytes
    let file_size := pr.2
    if file_size ≤ 0 then some 0
    else
      match mp3_scan (bytes.length + 1) file_size
        { file := pr.1
          total_frames := 0
          total_samples := 0
          first_valid_frame := true
          sample_rate := 0
          is_vbr := false
          first_bitrate := 0
          different_bitrates := false } with
      | none => none
      | some st =>
        if st.sample_rate > 0 ∧ st.total_samples > 0 then
          some (to_int32 (Int.tdiv st.total_samples st.sample_rate))
        else some 0

/-- The function `get_mp3_duration_export`. -/
def get_mp3_duration_export (opened : Option (List Byte)) : Option ℤ :=
  get_mp3_duration_optimized opened

/-! ## Dispatch on the file extension

File names are C strings, modelled by the list of their bytes before the terminating NUL. -/

/-- The library function `tolower` in the C locale. -/
def tolower (c : Byte) : Byte := if 65 ≤ c.val ∧ c.val ≤ 90 then c + 32 else c

/-- The library function `strrchr(s, c)` for `c` other than NUL: the part of `s` from the
last occurrence of `c`; `none` is the null pointer. -/
def strrchr : List Byte → Byte → Option (List Byte)
  | [], _ => none
  | x :: xs, c =>
    match strrchr xs c with
    | some r => some r
    | none => if x = c then some (x :: xs) else none

/-- The library function `strcasecmp`: difference of the first pair of bytes that differ
after `tolower`, the end of a string counting as 0. -/
def strcasecmp : List Byte → List Byte → ℤ
  | [], [] => 0
  | [], y :: _ => 0 - ((tolower y).val : ℤ)
  | x :: _, [] => ((tolower x).val : ℤ)
  | x :: xs, y :: ys =>
    if tolower x = tolower y then strcasecmp xs ys
    else ((tolower x).val : ℤ) - ((tolower y).val : ℤ)

/-- ASCII `.mp3`. -/
def EXT_MP3 : List Byte := [0x2E, 0x6D, 0x70, 0x33]

/-- ASCII `.flac`. -/
def EXT_FLAC : List Byte := [0x2E, 0x66, 0x6C, 0x61, 0x63]

/-- ASCII `.ogg`. -/
def EXT_OGG : List Byte := [0x2E, 0x6F, 0x67, 0x67]

/-- ASCII `.wav`. -/
def EXT_WAV : List Byte := [0x2E, 0x77, 0x61, 0x76]

/-- The function `get_audio_duration`.  `filename = none` is the null pointer; `opened` is
the outcome of `fopen(filename, "rb")`. -/
def get_audio_duration (filename : Option (List Byte)) (opened : Option (List Byte)) :
    Option ℤ :=
  match filename with
  | none => some 0
  | some name =>
    match strrchr name 0x2E with
    | none => some 0
    | some ext =>
      if strcasecmp ext EXT_MP3 = 0 then get_mp3_duration_optimized opened
      else if strcasecmp ext EXT_FLAC = 0 then
        let r := parse_flac_file opened
        if r.1 then double_to_int r.2.duration else some 0
      else if strcasecmp ext EXT_OGG = 0 then
        match opened with
        | none => some 0
        | some bytes =>
          let file := fopen bytes
          let probe := find_first_audio_page file
          match probe.1 with
          | none => some 0
          | some sample_rate =>
            if sample_rate = 0 then some 0
            else
              let file := fseek_set 0 probe.2
              let st := ogg_sweep (bytes.length + 1) file ⟨false, 0, 0⟩
              if ¬ st.first_granule_found ∨ st.last_granule = 0 then some 0
              else
                let total_samples := st.last_granule - st.first_granule
                if -2 ^ 63 ≤ total_samples ∧ total_samples < 2 ^ 63 then
                  some (to_int32 (Int.tdiv total_samples (sample_rate : ℤ)))
                else none
      else if strcasecmp ext EXT_WAV = 0 then
        match parse_wav_file opened with
        | none => none
        | some none => some 0
        | some (some info) => double_to_int info.duration
      else some 0

/-! ## One iteration of the MP3 frame-scan loop -/

/-- Outcome of one pass through `while (ftell(file) < file_size - 4) { ... }`: the loop is
left with the given result (`none`: undefined conversion), or the body ran to its end. -/
inductive LoopStep where
  /-- The loop is left (condition false, or `break`). -/
  | exit (result : Option ScanState) : LoopStep
  /-- The body ran to its end with the given variables. -/
  | next (st : ScanState) : LoopStep
deriving DecidableEq

/-- The condition test and the body of the frame-scan loop of `get_mp3_duration_optimized`,
once. -/
def mp3_iteration (file_size : ℤ) (st : ScanState) : LoopStep :=
  if ¬ (ftell st.file < file_size - 4) then .exit (some st)
  else
    let current_pos := ftell st.file
    let rd := fread 4 st.file
    let buffer := rd.1
    let file := rd.2
    if buffer.length ≠ 4 then .exit (some { st with file := file })
    else
      match parse_mp3_header buffer with
      | some header =>
        let total_frames := st.total_frames + 1
        let sample_rate := if st.first_valid_frame then header.sample_rate else st.sample_rate
        let first_bitrate := if st.first_valid_frame then header.bitrate else st.first_bitrate
        let changed := decide (¬ st.first_valid_frame ∧ header.bitrate ≠ st.first_bitrate)
        let different_bitrates := if changed then true else st.different_bitrates
        let is_vbr := if changed then true else st.is_vbr
        let file := if total_frames = 1 then (skip_xing_header file header.frame_size).2 else file
        let total_samples := st.total_samples + samples_per_frame header
        let file :=
          if header.frame_size > 4 then fseek_set (current_pos + header.frame_size) file
          else file
        if total_frames ≥ 10 ∧ ¬ is_vbr then
          if sample_rate > 0 ∧ first_bitrate > 0 then
            let avg_frame_size : ℚ := header.frame_size
            let estimated_total_frames := roundDouble (roundDouble file_size / avg_frame_size)
            match double_to_int64
              (roundDouble (estimated_total_frames * samples_per_frame header)) with
            | none => .exit none
            | some total_samples =>
              .exit (some
                { file := file
                  total_frames := total_frames
                  total_samples := total_samples
                  first_valid_frame := false
                  sample_rate := sample_rate
                  is_vbr := is_vbr
                  first_bitrate := first_bitrate
                  different_bitrates := different_bitrates })
          else
            .exit (some
              { file := file
                total_frames := total_frames
                total_samples := total_samples
                first_valid_frame := false
                sample_rate := sample_rate
                is_vbr := is_vbr
                first_bitrate := first_bitrate
                different_bitrates := different_bitrates })
        else
          .next
            { file := file
              total_frames := total_frames
              total_samples := total_samples
              first_valid_frame := false
              sample_rate := sample_rate
              is_vbr := is_vbr
              first_bitrate := first_bitrate
              different_bitrates := different_bitrates }
      | none => .next { st with file := fseek_set (current_pos + 1) file }

/-- The frame-scan loop run for at most `n` passes: `none` when the loop has not been left
after `n` passes. -/
def mp3_iterate : ℕ → ℤ → ScanState → Option (Option ScanState)
  | 0, _, _ => none
  | n + 1, file_size, st =>
    match mp3_iteration file_size st with
    | .exit r => some r
    | .next st => mp3_iterate n file_size st

/-! ## The MP3 scanner without the VBR-tag check -/

/-- The frame-scan loop of `get_mp3_duration_optimized` with the statement
`if (total_frames == 1) { skip_xing_header(file, header.frame_size); }` removed, everything
else as in `mp3_scan`. -/
def mp3_scan_no_xing : ℕ → ℤ → ScanState → Option ScanState
  | 0, _, st => some st
  | fuel + 1, file_size, st =>
    if ¬ (ftell st.file < file_size - 4) then some st
    else
      let current_pos := ftell st.file
      let rd := fread 4 st.file
      let buffer := rd.1
      let file := rd.2
      if buffer.length ≠ 4 then some { st with file := file }
      else
        match parse_mp3_header buffer with
        | some header =>
          let total_frames := st.total_frames + 1
          let sample_rate := if st.first_valid_frame then header.sample_rate else st.sample_rate
          let first_bitrate := if st.first_valid_frame then header.bitrate else st.first_bitrate
          let changed := decide (¬ st.first_valid_frame ∧ header.bitrate ≠ st.first_bitrate)
          let different_bitrates := if changed then true else st.different_bitrates
          let is_vbr := if changed then true else st.is_vbr
          let total_samples := st.total_samples + samples_per_frame header
          let file :=
            if header.frame_size > 4 then fseek_set (current_pos + header.frame_size) file
            else file
          if total_frames ≥ 10 ∧ ¬ is_vbr then
            if sample_rate > 0 ∧ first_bitrate > 0 then
              let avg_frame_size : ℚ := header.frame_size
              let estimated_total_frames := roundDouble (roundDouble file_size / avg_frame_size)
              match double_to_int64
                (roundDouble (estimated_total_frames * samples_per_frame header)) with
              | none => none
              | some total_samples =>
                some
                  { file := file
                    total_frames := total_frames
                    total_samples := total_samples
                    first_valid_frame := false
                    sample_rate := sample_rate
                    is_vbr := is_vbr
                    first_bitrate := first_bitrate
                    different_bitrates := different_bitrates }
            else
              some
                { file := file
                  total_frames := total_frames
                  total_samples := total_samples
                  first_valid_frame := false
                  sample_rate := sample_rate
                  is_vbr := is_vbr
                  first_bitrate := first_bitrate
                  different_bitrates := different_bitrates }
          else
            mp3_scan_no_xing fuel file_size
              { file := file
                total_frames := total_frames
                total_samples := total_samples
                first_valid_frame := false
                sample_rate := sample_rate
                is_vbr := is_vbr
                first_bitrate := first_bitrate
                different_bitrates := different_bitrates }
        | none =>
          mp3_scan_no_xing fuel file_size { st with file := fseek_set (current_pos + 1) file }

/-- The function `get_mp3_duration_optimized` with the `skip_xing_header` call removed from
its loop. -/
def get_mp3_duration_no_xing (opened : Option (List Byte)) : Option ℤ :=
  match opened with
  | none => some 0
  | some bytes =>
    let pr := mp3_prologue bytes
    let file_size := pr.2
    if file_size ≤ 0 then some 0
    else
      match mp3_scan_no_xing (bytes.length + 1) file_size
        { file := pr.1
          total_frames := 0
          total_samples := 0
          first_valid_frame := true
          sample_rate := 0
          is_vbr := false
          first_bitrate := 0
          different_bitrates := false } with
      | none => none
      | some st =>
        if st.sample_rate > 0 ∧ st.total_samples > 0 then
          some (to_int32 (Int.tdiv st.total_samples st.sample_rate))
        else some 0

/-! ## Shape of a well-formed WAV stream -/

/-- A RIFF chunk as it lies in the file: 4 id bytes, 4 size bytes, payload. -/
structure Chunk where
  id : List Byte
  size : List Byte
  payload : List Byte

/-- The bytes of a chunk. -/
def Chunk.bytes (c : Chunk) : List Byte := c.id ++ c.size ++ c.payload

/-- A complete chunk: the payload has exactly the declared little-endian length. -/
def Chunk.complete (c : Chunk) : Prop :=
  c.id.length = 4 ∧ c.size.length = 4 ∧ c.payload.length = le_value c.size

instance (c : Chunk) : Decidable c.complete := by
  unfold Chunk.complete
  infer_instance

/-- Concatenation of the bytes of a sequence of chunks. -/
def chunks_bytes : List Chunk → List Byte
  | [] => []
  | c :: cs => c.bytes ++ chunks_bytes cs

/-- The pieces of a WAV stream of the form `RIFF`, size, `WAVE`, chunks, a `fmt ` chunk,
chunks, a `data` chunk header, anything. -/
structure WavLayout where
  riff_size : List Byte
  before_fmt : List Chunk
  fmt_size : List Byte
  audio_format : List Byte
  num_channels : List Byte
  sample_rate : List Byte
  rate_align : List Byte
  bits_per_sample : List Byte
  fmt_extra : List Byte
  before_data : List Chunk
  data_size : List Byte
  rest : List Byte

/-- The bytes of the stream. -/
def WavLayout.bytes (w : WavLayout) : List Byte :=
  WAV_RIFF_HEADER ++ (w.riff_size ++ (WAV_WAVE_HEADER ++ (chunks_bytes w.before_fmt ++
    (WAV_FMT_HEADER ++ (w.fmt_size ++ (w.audio_format ++ (w.num_channels ++ (w.sample_rate ++
      (w.rate_align ++ (w.bits_per_sample ++ (w.fmt_extra ++ (chunks_bytes w.before_data ++
        (WAV_DATA_HEADER ++ (w.data_size ++ w.rest))))))))))))))

/-- Well-formedness of the pieces: field widths, complete chunks that are not the one
searched for, a `fmt ` chunk of declared length at least 16 holding PCM format 1. -/
def WavLayout.wellformed (w : WavLayout) : Prop :=
  w.riff_size.length = 4 ∧
  (∀ c ∈ w.before_fmt, c.complete ∧ c.id ≠ WAV_FMT_HEADER) ∧
  w.fmt_size.length = 4 ∧ 16 ≤ le_value w.fmt_size ∧
  w.audio_format.length = 2 ∧ le_value w.audio_format = 1 ∧
  w.num_channels.length = 2 ∧
  w.sample_rate.length = 4 ∧
  w.rate_align.length = 6 ∧
  w.bits_per_sample.length = 2 ∧
  w.fmt_extra.length = le_value w.fmt_size - 16 ∧
  (∀ c ∈ w.before_data, c.complete ∧ c.id ≠ WAV_DATA_HEADER) ∧
  w.data_size.length = 4

instance (w : WavLayout) : Decidable w.wellformed := by
  unfold WavLayout.wellformed
  infer_instance


/-- A WAV stream: 44100 Hz, 2 channels, 16 bits, 176400 data bytes declared. -/
def wav_one_second : WavLayout where
  riff_size := [0x24, 0xB1, 0x02, 0x00]
  before_fmt := []
  fmt_size := [16, 0, 0, 0]
  audio_format := [1, 0]
  num_channels := [2, 0]
  sample_rate := [0x44, 0xAC, 0x00, 0x00]
  rate_align := [0x10, 0xB1, 0x02, 0x00, 4, 0]
  bits_per_sample := [16, 0]
  fmt_extra := []
  before_data := [⟨[0x4C, 0x49, 0x53, 0x54], [2, 0, 0, 0], [7, 7]⟩]
  data_size := [0x10, 0xB1, 0x02, 0x00]
  rest := [1, 2, 3, 4]

/-- A WAV stream: 1 Hz, 1 channel, 8 bits, a data chunk header declaring
`4294967295` bytes. -/
def wav_long : WavLayout where
  riff_size := [0xFF, 0xFF, 0xFF, 0xFF]
  before_fmt := []
  fmt_size := [16, 0, 0, 0]
  audio_format := [1, 0]
  num_channels := [1, 0]
  sample_rate := [1, 0, 0, 0]
  rate_align := [1, 0, 0, 0, 1, 0]
  bits_per_sample := [8, 0]
  fmt_extra := []
  before_data := []
  data_size := [0xFF, 0xFF, 0xFF, 0xFF]
  rest := []

/-! ## Shape of a FLAC stream -/

/-- Value of a big-endian byte sequence. -/
def be_value (bs : List Byte) : ℕ := bs.foldl (fun acc b => acc * 256 + b.val) 0

/-- A metadata block as it lies in the file: 4 header bytes, payload. -/
structure MetaBlock where
  h0 : Byte
  h1 : Byte
  h2 : Byte
  h3 : Byte
  payload : List Byte

/-- The 32-bit big-endian header word of a block. -/
def MetaBlock.word (b : MetaBlock) : ℕ := be_value [b.h0, b.h1, b.h2, b.h3]

/-- The bytes of a metadata block. -/
def MetaBlock.bytes (b : MetaBlock) : List Byte := [b.h0, b.h1, b.h2, b.h3] ++ b.payload

/-- A block that the scan skips: last-block flag (bit 31) clear, block type (bits 30-24)
not 0, and a payload of exactly the declared 24-bit length (bits 23-0). -/
def MetaBlock.skipped (b : MetaBlock) : Prop :=
  b.word / 2 ^ 31 = 0 ∧ b.word / 2 ^ 24 % 128 ≠ 0 ∧ b.payload.length = b.word % 2 ^ 24

instance (b : MetaBlock) : Decidable b.skipped := by
  unfold MetaBlock.skipped
  infer_instance

/-- Concatenation of the bytes of a sequence of metadata blocks. -/
def blocks_bytes : List MetaBlock → List Byte
  | [] => []
  | b :: bs => b.bytes ++ blocks_bytes bs

/-- A 34-byte STREAMINFO payload: 10 bytes, the 8 bytes of the packed 64-bit field,
16 bytes. -/
structure StreamInfoPayload where
  head : List Byte
  b0 : Byte
  b1 : Byte
  b2 : Byte
  b3 : Byte
  b4 : Byte
  b5 : Byte
  b6 : Byte
  b7 : Byte
  tail : List Byte

/-- The bytes of the payload. -/
def StreamInfoPayload.bytes (p : StreamInfoPayload) : List Byte :=
  p.head ++ ([p.b0, p.b1, p.b2, p.b3, p.b4, p.b5, p.b6, p.b7] ++ p.tail)

/-- The payload has 34 bytes, the packed field being bytes 10..17. -/
def StreamInfoPayload.wellformed (p : StreamInfoPayload) : Prop :=
  p.head.length = 10 ∧ p.tail.length = 16

instance (p : StreamInfoPayload) : Decidable p.wellformed := by
  unfold StreamInfoPayload.wellformed
  infer_instance

/-- The unsigned 64-bit big-endian value `X` of payload bytes 10..17. -/
def StreamInfoPayload.packed (p : StreamInfoPayload) : ℕ :=
  be_value [p.b0, p.b1, p.b2, p.b3, p.b4, p.b5, p.b6, p.b7]

/-- A STREAMINFO payload with every bit of the packed field set. -/
def streaminfo_all_ones : StreamInfoPayload where
  head := [0x10, 0x00, 0x10, 0x00, 0, 0, 0x0E, 0, 0x10, 0x00]
  b0 := 0xFF
  b1 := 0xFF
  b2 := 0xFF
  b3 := 0xFF
  b4 := 0xFF
  b5 := 0xFF
  b6 := 0xFF
  b7 := 0xFF
  tail := [0, 1, 2, 3, 4, 5, 6, 7, 8, 9, 10, 11, 12, 13, 14, 15]

/-- A STREAMINFO payload encoding sample rate 48000, 2 channels, 16 bits per sample and
48000 samples: `X = 48000 * 2 ^ 44 + 1 * 2 ^ 41 + 15 * 2 ^ 36 + 48000`. -/
def streaminfo_one_second : StreamInfoPayload where
  head := [0x10, 0x00, 0x10, 0x00, 0, 0, 0x0E, 0, 0x10, 0x00]
  b0 := 0x0B
  b1 := 0xB8
  b2 := 0x02
  b3 := 0xF0
  b4 := 0x00
  b5 := 0x00
  b6 := 0xBB
  b7 := 0x80
  tail := [0, 0, 0, 0, 0, 0, 0, 0, 0, 0, 0, 0, 0, 0, 0, 0]

/-- The pieces of a FLAC stream of the form `fLaC`, skipped blocks, a STREAMINFO block
header of length 34, its payload, anything. -/
structure FlacLayout where
  before : List MetaBlock
  last_flag : Bool
  info : StreamInfoPayload
  rest : List Byte

/-- The 4 header bytes of a type-0 block of length 34. -/
def streaminfo_header (last_flag : Bool) : List Byte :=
  [if last_flag then 0x80 else 0x00, 0, 0, 34]

/-- The bytes of the stream. -/
def FlacLayout.bytes (l : FlacLayout) : List Byte :=
  FLAC_SIGNATURE ++ (blocks_bytes l.before ++ (streaminfo_header l.last_flag ++
    (l.info.bytes ++ l.rest)))

/-- Well-formedness of the pieces. -/
def FlacLayout.wellformed (l : FlacLayout) : Prop :=
  (∀ b ∈ l.before, b.skipped) ∧ l.info.wellformed

instance (l : FlacLayout) : Decidable l.wellformed := by
  unfold FlacLayout.wellformed
  infer_instance

/-- A FLAC stream: a padding block and a comment block, then the STREAMINFO block of
`streaminfo_one_second`, then frame data. -/
def flac_one_second : FlacLayout where
  before := [⟨0x01, 0, 0, 3, [0, 0, 0]⟩, ⟨0x04, 0, 0, 2, [9, 9]⟩]
  last_flag := true
  info := streaminfo_one_second
  rest := [0xFF, 0xF8, 1, 2, 3]

/-! ## Shape of an OGG stream -/

/-- An OGG page as it lies in the file. -/
structure OggPage where
  version : Byte
  header_type : Byte
  g0 : Byte
  g1 : Byte
  g2 : Byte
  g3 : Byte
  g4 : Byte
  g5 : Byte
  g6 : Byte
  g7 : Byte
  serial : List Byte
  sequence : List Byte
  checksum : List Byte
  segments : List Byte
  payload : List Byte

/-- The granule position of a page: little-endian 64-bit value of header bytes 6..13. -/
def OggPage.granule (p : OggPage) : ℕ :=
  le_value [p.g0, p.g1, p.g2, p.g3, p.g4, p.g5, p.g6, p.g7]

/-- The bytes of a page: 27-byte header, segment table, payload. -/
def OggPage.bytes (p : OggPage) : List Byte :=
  (OGG_PAGE_HEADER ++ [p.version, p.header_type] ++
    [p.g0, p.g1, p.g2, p.g3, p.g4, p.g5, p.g6, p.g7] ++ p.serial ++ p.sequence ++ p.checksum ++
    [Fin.ofNat p.segments.length]) ++ (p.segments ++ p.payload)

/-- A well-formed page: field widths, at most 255 segments, and a payload of exactly the
summed segment sizes. -/
def OggPage.wellformed (p : OggPage) : Prop :=
  p.serial.length = 4 ∧ p.sequence.length = 4 ∧ p.checksum.length = 4 ∧
    p.segments.length < 256 ∧ p.payload.length = (p.segments.map Fin.val).sum

instance (p : OggPage) : Decidable p.wellformed := by
  unfold OggPage.wellformed
  infer_instance

/-- Concatenation of the bytes of a sequence of pages. -/
def pages_bytes : List OggPage → List Byte
  | [] => []
  | p :: ps => p.bytes ++ pages_bytes ps

/-- The payload is one that the codec probe recognises: it begins with `\x01vorbis` and has
at least 23 bytes, or it begins with `OpusHead` and has at least 12 bytes. -/
def OggPage.recognised (p : OggPage) : Prop :=
  (p.payload.take 7 = VORBIS_ID_MAGIC ∧ 23 ≤ p.payload.length) ∨
    (p.payload.take 8 = OPUS_HEAD_MAGIC ∧ 12 ≤ p.payload.length)

instance (p : OggPage) : Decidable p.recognised := by
  unfold OggPage.recognised
  infer_instance

/-- The page carries a standard Vorbis identification header (30-byte payload, sample rate
at payload offset 12) or an OpusHead payload (sample rate read at payload offset 8)
declaring sample rate `r`. -/
def OggPage.declares (p : OggPage) (r : ℕ) : Prop :=
  (p.payload.take 7 = VORBIS_ID_MAGIC ∧ p.payload.length = 30 ∧
      le_value ((p.payload.drop 12).take 4) = r) ∨
    (p.payload.take 8 = OPUS_HEAD_MAGIC ∧ 12 ≤ p.payload.length ∧
      le_value ((p.payload.drop 8).take 4) = r)

instance (p : OggPage) (r : ℕ) : Decidable (p.declares r) := by
  unfold OggPage.declares
  infer_instance

/-- The granule positions greater than zero, in page order. -/
def nonzero_granules (ps : List OggPage) : List ℕ :=
  (ps.map OggPage.granule).filter (fun g => 0 < g)

/-- The update of the sweep variables by one page with granule position `g`. -/
def page_update (st : GranuleState) (g : ℕ) : GranuleState :=
  let st :=
    if ¬ st.first_granule_found ∧ g > 0 then
      { st with first_granule := to_int64 g
                first_granule_found := true }
    else st
  if g > 0 then { st with last_granule := to_int64 g } else st

/-- The sweep variables after a sequence of pages. -/
def sweep_pages (ps : List OggPage) (st : GranuleState) : GranuleState :=
  ps.foldl (fun st p => page_update st p.granule) st

/-- A page with the given granule position bytes and a single segment holding `payload`. -/
def ogg_page (g0 g1 g2 g3 g4 : Byte) (seq : Byte) (payload : List Byte) : OggPage where
  version := 0
  header_type := 0
  g0 := g0
  g1 := g1
  g2 := g2
  g3 := g3
  g4 := g4
  g5 := 0
  g6 := 0
  g7 := 0
  serial := [0x2A, 0, 0, 0]
  sequence := [seq, 0, 0, 0]
  checksum := [0, 0, 0, 0]
  segments := [Fin.ofNat payload.length]
  payload := payload

/-- A standard 30-byte Vorbis identification header: 2 channels, the given 4 sample-rate
bytes at offset 12. -/
def vorbis_id_payload (r0 r1 r2 r3 : Byte) : List Byte :=
  VORBIS_ID_MAGIC ++ [0, 0, 0, 0, 2, r0, r1, r2, r3, 0, 0, 0, 0, 0, 0xEE, 0x02, 0, 0, 0, 0, 0,
    0xB8, 0x01]

/-- Pages: a Vorbis identification header declaring 48000 Hz with granule 0, and one
further page with granule 48000. -/
def ogg_two_pages : List OggPage :=
  [ogg_page 0 0 0 0 0 0 (vorbis_id_payload 0x80 0xBB 0 0),
   ogg_page 0x80 0xBB 0 0 0 1 [1, 2, 3]]

/-! ## MP3 header fields and frame sequences -/

/-- The header decoding of `parse_mp3_header` after the sync check, as a function of the six
bit fields: version bits (20-19), layer bits (18-17), protection bit (16), bitrate index
(15-12), sample-rate index (11-10), padding bit (9). -/
def decode_fields (version_bits layer_bits protection_bit bitrate_index sample_rate_index
    padding_bit : ℕ) : Option MP3FrameHeader :=
  let mpeg_version : Option ℚ :=
    if version_bits = 0 then some (5 / 2)
    else if version_bits = 2 then some 2
    else if version_bits = 3 then some 1
    else none
  match mpeg_version with
  | none => none
  | some mpeg_version =>
    let layer : Option ℤ :=
      if layer_bits = 1 then some 3
      else if layer_bits = 2 then some 2
      else if layer_bits = 3 then some 1
      else none
    match layer with
    | none => none
    | some layer =>
      let protection : ℤ := (protection_bit : ℤ)
      let bitrate_index : ℤ := (bitrate_index : ℤ)
      let bitrate := get_mp3_bitrate (c_trunc mpeg_version) layer bitrate_index
      if bitrate = 0 then none
      else
        let sample_rate_index : ℤ := (sample_rate_index : ℤ)
        let sample_rate := get_mp3_sample_rate mpeg_version sample_rate_index
        if sample_rate = 0 then none
        else
          let padding : ℤ := (padding_bit : ℤ)
          let frame_size := get_mp3_frame_size layer bitrate sample_rate padding
          if frame_size > 0 then
            some
              { mpeg_version := mpeg_version
                layer := layer
                bitrate := bitrate
                sample_rate := sample_rate
                frame_size := frame_size
                padding := padding
                protection := protection }
          else none

/-- The decoded header agrees with the bit fields as C5 states. -/
def fields_spec (version_bits layer_bits protection_bit bitrate_index sample_rate_index
    padding_bit : ℕ) (h : MP3FrameHeader) : Prop :=
  (h.mpeg_version =
      if version_bits = 0 then 5 / 2 else if version_bits = 2 then 2 else 1) ∧
    version_bits ≠ 1 ∧
    (h.layer = if layer_bits = 1 then 3 else if layer_bits = 2 then 2 else 1) ∧
    layer_bits ≠ 0 ∧
    h.bitrate = 1000 * ((bitrate_table.getD (if h.mpeg_version = 1 then 0 else 1) []).getD
      (h.layer - 1).toNat []).getD bitrate_index 0 ∧
    h.sample_rate = (sample_rate_table.getD
      (if h.mpeg_version = 1 then 0 else if h.mpeg_version = 2 then 1 else 2) []).getD
        sample_rate_index 0 ∧
    h.padding = padding_bit ∧
    h.protection = protection_bit ∧
    h.frame_size =
      if h.layer = 1 then (12 * h.bitrate / h.sample_rate + h.padding) * 4
      else 144 * h.bitrate / h.sample_rate + h.padding

instance (a b c d e f : ℕ) (h : MP3FrameHeader) : Decidable (fields_spec a b c d e f h) := by
  unfold fields_spec
  infer_instance

/-- Ranges of the fields of an accepted header. -/
def MP3FrameHeader.in_range (h : MP3FrameHeader) : Prop :=
  32 ≤ h.frame_size ∧ h.frame_size ≤ 2881 ∧ 8000 ≤ h.sample_rate ∧ h.sample_rate ≤ 48000 ∧
    8000 ≤ h.bitrate ∧ (h.layer = 1 ∨ h.layer = 2 ∨ h.layer = 3) ∧
    (h.mpeg_version = 1 ∨ h.mpeg_version = 2 ∨ h.mpeg_version = 5 / 2)

instance (h : MP3FrameHeader) : Decidable h.in_range := by
  unfold MP3FrameHeader.in_range
  infer_instance

/-- The local variables at the start of the frame-scan loop. -/
def scan_init (data : List Byte) : ScanState :=
  { file := ⟨data, 0⟩
    total_frames := 0
    total_samples := 0
    first_valid_frame := true
    sample_rate := 0
    is_vbr := false
    first_bitrate := 0
    different_bitrates := false }

/-! ## MP3 frame sequences and scan traces -/

/-- A frame as it lies in the file: 4 header bytes and the rest of the frame. -/
structure Mp3Frame where
  b0 : Byte
  b1 : Byte
  b2 : Byte
  b3 : Byte
  body : List Byte

/-- The decoded header of a frame, if `parse_mp3_header` accepts its first 4 bytes. -/
def Mp3Frame.header (f : Mp3Frame) : Option MP3FrameHeader :=
  parse_mp3_header [f.b0, f.b1, f.b2, f.b3]

/-- The bytes of a frame. -/
def Mp3Frame.bytes (f : Mp3Frame) : List Byte := [f.b0, f.b1, f.b2, f.b3] ++ f.body

/-- A frame with a valid header, followed by `frame_size - 4` bytes. -/
def Mp3Frame.wellformed (f : Mp3Frame) : Prop :=
  match f.header with
  | some h => (f.body.length : ℤ) = h.frame_size - 4
  | none => False

instance (f : Mp3Frame) : Decidable f.wellformed := by
  unfold Mp3Frame.wellformed
  split <;> infer_instance

/-- The concatenation of a sequence of frames. -/
def frames_bytes : List Mp3Frame → List Byte
  | [] => []
  | f :: fs => f.bytes ++ frames_bytes fs

/-- The frame headers met by a byte-granular scan of `data` from offset `pos`:
`scan_finds data pos tr` says that `tr` lists, in order, the offset and the decoded header
of the next `tr.length` valid frame headers.  Each listed header lies at an offset `p` with
more than 4 bytes left (`p + 4 < data.length`), no offset between the scan position and `p`
holds a valid header, and the scan resumes at `p + frame_size`. -/
def scan_finds (data : List Byte) : ℕ → List (ℕ × MP3FrameHeader) → Prop
  | _, [] => True
  | pos, x :: tr =>
    pos ≤ x.1 ∧ x.1 + 4 < data.length ∧
      (∀ i, i < x.1 - pos → parse_mp3_header ((data.drop (pos + i)).take 4) = none) ∧
      parse_mp3_header ((data.drop x.1).take 4) = some x.2 ∧
      scan_finds data (x.1 + x.2.frame_size.toNat) tr

/-- Decision procedure for `scan_finds`. -/
def scan_finds_dec (data : List Byte) :
    ∀ (tr : List (ℕ × MP3FrameHeader)) (pos : ℕ), Decidable (scan_finds data pos tr)
  | [], _ => isTrue trivial
  | x :: tr, pos =>
    have := scan_finds_dec data tr (x.1 + x.2.frame_size.toNat)
    inferInstanceAs (Decidable (pos ≤ x.1 ∧ x.1 + 4 < data.length ∧
      (∀ i, i < x.1 - pos → parse_mp3_header ((data.drop (pos + i)).take 4) = none) ∧
      parse_mp3_header ((data.drop x.1).take 4) = some x.2 ∧
      scan_finds data (x.1 + x.2.frame_size.toNat) tr))

instance (data : List Byte) (pos : ℕ) (tr : List (ℕ × MP3FrameHeader)) :
    Decidable (scan_finds data pos tr) := scan_finds_dec data tr pos

/-- Offset at which the scan resumes after a trace. -/
def trace_end : List (ℕ × MP3FrameHeader) → ℕ → ℕ
  | [], pos => pos
  | x :: tr, _ => trace_end tr (x.1 + x.2.frame_size.toNat)

/-- A 32-byte layer-1 frame at 32 kbps, 48000 Hz. -/
def frame_l1_32k : Mp3Frame := ⟨0xFF, 0xFF, 0x14, 0x00, List.replicate 28 0⟩

/-- The header `FF FB 90 00`: MPEG-1 layer 3, 128 kbps, 44100 Hz, no padding, frame size
417. -/
def header_l3_128k : MP3FrameHeader := ⟨1, 3, 128000, 44100, 417, 0, 1⟩

/-- An ID3v2 tag of declared size 144 (`00 00 01 10` as 7-bit digits) whose content starts
with the bytes `FF E3 18 00` (a valid MPEG-2.5 layer-3 header, 8 kbps, 8000 Hz, frame size
144), followed at offset 154 by 20 layer-1 frames of 32 bytes at 48000 Hz. -/
def id3_file : List Byte :=
  [0x49, 0x44, 0x33, 0x03, 0x00, 0x00, 0x00, 0x00, 0x01, 0x10] ++
    ([0xFF, 0xE3, 0x18, 0x00] ++ List.replicate 140 0) ++
    frames_bytes (List.replicate 20 frame_l1_32k)

/-! ## Further example streams -/

/-- A WAV stream: 44100 Hz, 2 channels, 4 bits per sample, 176400 data bytes declared. -/
def wav_four_bit : WavLayout where
  riff_size := [0x24, 0xB1, 0x02, 0x00]
  before_fmt := []
  fmt_size := [16, 0, 0, 0]
  audio_format := [1, 0]
  num_channels := [2, 0]
  sample_rate := [0x44, 0xAC, 0x00, 0x00]
  rate_align := [0x10, 0xB1, 0x02, 0x00, 4, 0]
  bits_per_sample := [4, 0]
  fmt_extra := []
  before_data := []
  data_size := [0x10, 0xB1, 0x02, 0x00]
  rest := [1, 2, 3, 4]

/-- A WAV stream head: a `LIST` chunk, then a `fmt ` chunk whose audio-format field is 3
(IEEE float), then a complete PCM-looking remainder. -/
def wav_float_bytes : List Byte :=
  WAV_RIFF_HEADER ++ ([0x24, 0xB1, 0x02, 0x00] ++ (WAV_WAVE_HEADER ++
    (chunks_bytes [⟨[0x4C, 0x49, 0x53, 0x54], [2, 0, 0, 0], [7, 7]⟩] ++
      (WAV_FMT_HEADER ++ ([16, 0, 0, 0] ++ ([3, 0] ++
        [2, 0, 0x44, 0xAC, 0, 0, 0x10, 0xB1, 2, 0, 4, 0, 16, 0,
          0x64, 0x61, 0x74, 0x61, 0x10, 0xB1, 0x02, 0x00, 1, 2, 3, 4]))))))

/-! ## Reference descriptions of the OGG codec probe -/

/-- The codec probe as C16 words it, over `pages` pages from offset `pos`: decode the page
(failure if it does not decode); with `payload` the bytes of the page's payload, if it begins
with `\x01vorbis` and contains offsets 12..15, report the little-endian value at offset 12;
if it begins with `OpusHead` and contains offsets 8..11, report the little-endian value at
offset 8; otherwise go on with the next page. -/
def probe_reference : ℕ → List Byte → ℕ → Option ℕ
  | 0, _, _ => none
  | pages + 1, data, pos =>
    match read_ogg_page_header ⟨data, pos⟩ with
    | none => none
    | some page =>
      let payload := (data.drop page.file.pos).take page.data_size
      if payload.take 7 = VORBIS_ID_MAGIC ∧ 16 ≤ payload.length then
        some (le_value ((payload.drop 12).take 4))
      else if payload.take 8 = OPUS_HEAD_MAGIC ∧ 12 ≤ payload.length then
        some (le_value ((payload.drop 8).take 4))
      else probe_reference pages data (page.file.pos + page.data_size)

/-- The codec probe with the guards of the code: with `size` the declared payload size and
`head` the first `min size 100` payload bytes, a page matches when all of `head` is present
in the file and either `head` begins with `\x01vorbis` and `size ≥ 23`, or `head` begins
with `OpusHead` and `size ≥ 12`. -/
def probe_reference_guarded : ℕ → List Byte → ℕ → Option ℕ
  | 0, _, _ => none
  | pages + 1, data, pos =>
    match read_ogg_page_header ⟨data, pos⟩ with
    | none => none
    | some page =>
      let size := page.data_size
      let head := (data.drop page.file.pos).take (min size 100)
      if head.length = min size 100 ∧ head.take 7 = VORBIS_ID_MAGIC ∧ 23 ≤ size then
        some (le_value ((head.drop 12).take 4))
      else if head.length = min size 100 ∧ head.take 8 = OPUS_HEAD_MAGIC ∧ 12 ≤ size then
        some (le_value ((head.drop 8).take 4))
      else probe_reference_guarded pages data (page.file.pos + page.data_size)

/-- One page whose 16-byte payload is `\x01vorbis`, 5 bytes, and the rate 48000 at offsets
12..15. -/
def ogg_short_vorbis : List Byte :=
  (ogg_page 0 0 0 0 0 0 (VORBIS_ID_MAGIC ++ [0, 0, 0, 0, 2, 0x80, 0xBB, 0, 0])).bytes

/-- One page whose segment table declares 200 payload bytes, of which only the 30 bytes of
a Vorbis identification header (48000 Hz) are present in the file. -/
def ogg_truncated_vorbis : List Byte :=
  ({ ogg_page 0 0 0 0 0 0 (vorbis_id_payload 0x80 0xBB 0 0) with segments := [200] }).bytes

/-- Pages: a Vorbis identification header declaring 1 Hz with granule position 2, then a
page with granule position 1. -/
def ogg_decreasing_pages : List OggPage :=
  [ogg_page 2 0 0 0 0 0 (vorbis_id_payload 1 0 0 0),
   ogg_page 1 0 0 0 0 1 [1, 2, 3]]

/-! ## Streams at the limits of `int` -/

/-- Pages: a Vorbis identification header declaring 48000 Hz (granule position 0), a page
with granule position 96000, and a page with granule position `2 ^ 64 - 1` (every bit
set). -/
def ogg_top_bit_pages : List OggPage :=
  [ogg_page 0 0 0 0 0 0 (vorbis_id_payload 0x80 0xBB 0 0),
   ogg_page 0x00 0x77 0x01 0 0 1 [1, 2, 3],
   { ogg_page 0xFF 0xFF 0xFF 0xFF 0xFF 2 [4, 5] with g5 := 0xFF, g6 := 0xFF, g7 := 0xFF }]

attribute [irreducible] to_uint32 to_int32 to_int64 fread fseek_cur fseek_set fseek_end scan_chunks roundDouble

/-! ## Rounding lemmas -/

theorem roundHalfEven_sub_le (q : ℚ) : |(roundHalfEven q : ℚ) - q| ≤ 1 / 2 := by
  have h1 := Int.floor_le q
  have h2 := Int.lt_floor_add_one q
  unfold roundHalfEven
  simp only
  split_ifs <;> push_cast <;> rw [abs_le] <;> constructor <;> linarith

theorem le_roundHalfEven {n : ℤ} {q : ℚ} (h : (n : ℚ) ≤ q) : n ≤ roundHalfEven q := by
  have h1 : n ≤ ⌊q⌋ := Int.le_floor.mpr h
  unfold roundHalfEven
  simp only
  split_ifs <;> omega

theorem ilog2_go_spec : ∀ (fuel n : ℕ), n ≤ fuel → 0 < n →
    2 ^ ilog2_go fuel n ≤ n ∧ n < 2 ^ (ilog2_go fuel n + 1) := by
  intro fuel
  induction fuel with
  | zero => intro n h1 h2; omega
  | succ fuel ih =>
    intro n h1 h2
    by_cases h : 2 ≤ n
    · have := ih (n / 2) (by omega) (by omega)
      simp only [ilog2_go, h, if_true]
      rw [pow_succ, pow_succ]
      rw [pow_succ] at this
      omega
    · simp only [ilog2_go, h, if_false]
      omega

theorem ilog2_spec {n : ℕ} (h : 0 < n) : 2 ^ ilog2 n ≤ n ∧ n < 2 ^ (ilog2 n + 1) :=
  ilog2_go_spec n n (le_refl n) h

theorem binade_spec {q : ℚ} (hq : 0 < q) :
    (2 : ℚ) ^ binade q ≤ q ∧ q < (2 : ℚ) ^ (binade q + 1) := by
  have hnum : 0 < q.num := Rat.num_pos.mpr hq
  have hden : 0 < q.den := q.den_pos
  have ha : 0 < q.num.natAbs := Int.natAbs_pos.mpr (ne_of_gt hnum)
  obtain ⟨a1, a2⟩ := ilog2_spec ha
  obtain ⟨b1, b2⟩ := ilog2_spec hden
  have hqa : q = (q.num.natAbs : ℚ) / (q.den : ℚ) := by
    have h1 : ((q.num.natAbs : ℤ) : ℚ) = (q.num : ℚ) := by
      rw [Int.natAbs_of_nonneg (le_of_lt hnum)]
    have h2 : ((q.num.natAbs : ℤ) : ℚ) = (q.num.natAbs : ℚ) := Int.cast_natCast _
    rw [← h2, h1]
    exact (Rat.num_div_den q).symm
  have a1q : (2 : ℚ) ^ ilog2 q.num.natAbs ≤ (q.num.natAbs : ℚ) := by exact_mod_cast a1
  have a2q : (q.num.natAbs : ℚ) < (2 : ℚ) ^ (ilog2 q.num.natAbs + 1) := by exact_mod_cast a2
  have b1q : (2 : ℚ) ^ ilog2 q.den ≤ (q.den : ℚ) := by exact_mod_cast b1
  have b2q : (q.den : ℚ) < (2 : ℚ) ^ (ilog2 q.den + 1) := by exact_mod_cast b2
  have hdq : (0 : ℚ) < q.den := by exact_mod_cast hden
  have hpb : (0 : ℚ) < (2 : ℚ) ^ ilog2 q.den := by positivity
  set la := ilog2 q.num.natAbs
  set lb := ilog2 q.den
  have two_ne : (2 : ℚ) ≠ 0 := by norm_num
  have e1 : (2 : ℚ) ^ ((la : ℤ) - lb + 1) = (2 : ℚ) ^ (la + 1) / (2 : ℚ) ^ lb := by
    have : ((la : ℤ) - lb + 1) = ((la + 1 : ℕ) : ℤ) - (lb : ℕ) := by push_cast; ring
    rw [this, zpow_sub₀ two_ne, zpow_natCast, zpow_natCast]
  have e2 : (2 : ℚ) ^ ((la : ℤ) - lb - 1) = (2 : ℚ) ^ la / (2 : ℚ) ^ (lb + 1) := by
    have : ((la : ℤ) - lb - 1) = ((la : ℕ) : ℤ) - ((lb + 1 : ℕ) : ℤ) := by push_cast; ring
    rw [this, zpow_sub₀ two_ne, zpow_natCast, zpow_natCast]
  have up : q < (2 : ℚ) ^ ((la : ℤ) - lb + 1) := by
    rw [e1, hqa, div_lt_div_iff₀ hdq hpb]
    calc (q.num.natAbs : ℚ) * 2 ^ lb ≤ (q.num.natAbs : ℚ) * q.den :=
          mul_le_mul_of_nonneg_left b1q (by positivity)
      _ < 2 ^ (la + 1) * q.den := mul_lt_mul_of_pos_right a2q hdq
  have low : (2 : ℚ) ^ ((la : ℤ) - lb - 1) ≤ q := by
    rw [e2, hqa, div_le_div_iff₀ (by positivity) hdq]
    calc (2 : ℚ) ^ la * q.den ≤ (q.num.natAbs : ℚ) * q.den :=
          mul_le_mul_of_nonneg_right a1q (le_of_lt hdq)
      _ ≤ (q.num.natAbs : ℚ) * 2 ^ (lb + 1) :=
          mul_le_mul_of_nonneg_left (le_of_lt b2q) (by positivity)
  unfold binade
  simp only [abs_of_pos hq]
  split_ifs with h
  · exact ⟨h, up⟩
  · push_neg at h
    refine ⟨low, ?_⟩
    have : ((la : ℤ) - lb - 1 + 1) = (la : ℤ) - lb := by ring
    rw [this]
    exact h

theorem binade_lt {q : ℚ} (hq : 0 < q) {k : ℤ} (h : q < (2 : ℚ) ^ k) : binade q < k := by
  by_contra hc
  push_neg at hc
  have h1 := (binade_spec hq).1
  have h2 : (2 : ℚ) ^ k ≤ (2 : ℚ) ^ binade q := zpow_le_zpow_right₀ (by norm_num) hc
  linarith

theorem zpow_binade_sub_le {q : ℚ} (hq : 0 < q) : (2 : ℚ) ^ (binade q - 52) * 2 ^ 52 ≤ q := by
  have h := (binade_spec hq).1
  have h2 : (2 : ℚ) ^ (binade q - 52) * 2 ^ 52 = (2 : ℚ) ^ binade q := by
    rw [zpow_sub₀ (by norm_num)]
    norm_num
  rw [h2]
  exact h

theorem roundDouble_sub_le {q : ℚ} (hq : 0 < q) : |roundDouble q - q| ≤ q / 2 ^ 53 := by
  have hne : q ≠ 0 := ne_of_gt hq
  have hp : (0 : ℚ) < 2 ^ (binade q - 52) := zpow_pos (by norm_num) _
  have hr := roundHalfEven_sub_le (q / 2 ^ (binade q - 52))
  have hle := zpow_binade_sub_le hq
  unfold roundDouble
  rw [if_neg hne]
  simp only
  set p : ℚ := 2 ^ (binade q - 52) with hpdef
  have key : (roundHalfEven (q / p) : ℚ) * p - q = ((roundHalfEven (q / p) : ℚ) - q / p) * p := by
    field_simp
  rw [key, abs_mul, abs_of_pos hp]
  calc |(roundHalfEven (q / p) : ℚ) - q / p| * p ≤ 1 / 2 * p :=
        mul_le_mul_of_nonneg_right hr (le_of_lt hp)
    _ = p * 2 ^ 52 / 2 ^ 53 := by ring
    _ ≤ q / 2 ^ 53 := by
        apply div_le_div_of_nonneg_right hle (by norm_num)

theorem natCast_le_roundDouble {n : ℕ} {q : ℚ} (hq : q < 2 ^ 53) (h : (n : ℚ) ≤ q) :
    (n : ℚ) ≤ roundDouble q := by
  rcases Nat.eq_zero_or_pos n with hn | hn
  · subst hn
    by_cases h0 : q = 0
    · simp [roundDouble, h0]
    · have hpos : 0 < q := lt_of_le_of_ne (by simpa using h) (Ne.symm h0)
      have := roundDouble_sub_le hpos
      rw [abs_le] at this
      have h53 : q / 2 ^ 53 ≤ q := div_le_self (le_of_lt hpos) (by norm_num)
      push_cast
      linarith [this.1]
  · have hpos : 0 < q := lt_of_lt_of_le (by exact_mod_cast hn) h
    have hne : q ≠ 0 := ne_of_gt hpos
    have hlog : binade q < 53 := binade_lt hpos (by exact_mod_cast hq)
    unfold roundDouble
    rw [if_neg hne]
    simp only
    obtain ⟨k, hk⟩ : ∃ k : ℕ, binade q - 52 = -(k : ℤ) := ⟨(52 - binade q).toNat, by omega⟩
    rw [hk, zpow_neg, zpow_natCast, div_inv_eq_mul]
    have hp : (0 : ℚ) < 2 ^ k := by positivity
    have hint : (((n * 2 ^ k : ℕ) : ℤ) : ℚ) ≤ q * 2 ^ k := by
      push_cast
      exact mul_le_mul_of_nonneg_right h (le_of_lt hp)
    have := le_roundHalfEven hint
    have h2 : ((n * 2 ^ k : ℕ) : ℚ) ≤ (roundHalfEven (q * 2 ^ k) : ℚ) := by exact_mod_cast this
    rw [le_mul_inv_iff₀ hp]
    push_cast at h2
    exact h2

theorem floor_roundDouble_div (t r : ℕ) (hr : 0 < r) (ht : t < 2 ^ 53) :
    ⌊roundDouble ((t : ℚ) / r)⌋ = ((t / r : ℕ) : ℤ) := by
  have hrq : (0 : ℚ) < r := by exact_mod_cast hr
  have hlow : ((t / r : ℕ) : ℚ) ≤ (t : ℚ) / r := Nat.cast_div_le
  have hxt : (t : ℚ) / r ≤ t := div_le_self (by positivity) (by exact_mod_cast hr)
  have htq : (t : ℚ) < 2 ^ 53 := by exact_mod_cast ht
  have hx53 : (t : ℚ) / r < 2 ^ 53 := lt_of_le_of_lt hxt htq
  have hge := natCast_le_roundDouble hx53 hlow
  have hup : (t : ℚ) / r + 1 / r ≤ ((t / r : ℕ) : ℚ) + 1 := by
    have h1 : t + 1 ≤ (t / r + 1) * r := by
      have := Nat.lt_succ_iff.mpr (le_refl t)
      have h2 := Nat.div_add_mod t r
      have h3 := Nat.mod_lt t hr
      nlinarith
    have h2 : ((t + 1 : ℕ) : ℚ) ≤ (((t / r + 1) * r : ℕ) : ℚ) := by exact_mod_cast h1
    push_cast at h2
    rw [← add_div, div_le_iff₀ hrq]
    exact h2
  rw [Int.floor_eq_iff, Int.cast_natCast]
  refine ⟨hge, ?_⟩
  rcases Nat.eq_zero_or_pos t with h0 | h0
  · subst h0
    simp [roundDouble]
  · have hpos : (0 : ℚ) < (t : ℚ) / r := div_pos (by exact_mod_cast h0) hrq
    have herr := roundDouble_sub_le hpos
    rw [abs_le] at herr
    have hsmall : (t : ℚ) / r / 2 ^ 53 < 1 / r := by
      rw [div_div, div_lt_div_iff₀ (by positivity) hrq]
      nlinarith
    linarith [herr.2]

theorem c_trunc_of_nonneg {q : ℚ} (h : 0 ≤ q) : c_trunc q = ⌊q⌋ := by
  simp [c_trunc, h]

/-! ## Stream lemmas -/

theorem drop_step {data : List Byte} {pos n : ℕ} {xs rest : List Byte}
    (h : data.drop pos = xs ++ rest) (hn : xs.length = n) : data.drop (pos + n) = rest := by
  rw [← List.drop_drop, h, ← hn, List.drop_left]

theorem fread_eq {data : List Byte} {pos n : ℕ} {xs rest : List Byte}
    (h : data.drop pos = xs ++ rest) (hn : xs.length = n) :
    fread n ⟨data, pos⟩ = (xs, ⟨data, pos + n⟩) := by
  simp only [fread, h, ← hn, List.take_left]

theorem fseek_cur_natCast (data : List Byte) (pos n : ℕ) :
    fseek_cur (n : ℤ) ⟨data, pos⟩ = ⟨data, pos + n⟩ := by
  have h : 0 ≤ (pos : ℤ) + n := by positivity
  simp only [fseek_cur, h, if_true]
  congr 1

theorem le_value_lt (bs : List Byte) : le_value bs < 256 ^ bs.length := by
  induction bs with
  | nil => simp [le_value]
  | cons b bs ih =>
    have hb := b.isLt
    simp only [le_value, List.foldr_cons, List.length_cons] at ih ⊢
    rw [pow_succ]
    omega

theorem scan_chunks_found {tag size rest : List Byte} {data : List Byte} {pos : ℕ} (fuel : ℕ)
    (ht : tag.length = 4) (hs : size.length = 4)
    (h : data.drop pos = tag ++ (size ++ rest)) :
    scan_chunks tag (fuel + 1) ⟨data, pos⟩ = .found (le_value size) ⟨data, pos + 4 + 4⟩ := by
  have h2 := drop_step h ht
  simp only [scan_chunks, fread_eq h ht, fread_eq h2 hs, ht, hs, ne_eq, not_true_eq_false,
    if_false, if_true]

theorem scan_chunks_skip (tag : List Byte) (cs : List Chunk)
    (hcs : ∀ c ∈ cs, c.complete ∧ c.id ≠ tag) :
    ∀ (fuel : ℕ) (data : List Byte) (pos : ℕ) (rest : List Byte),
      data.drop pos = chunks_bytes cs ++ rest →
      scan_chunks tag (cs.length + fuel) ⟨data, pos⟩ =
        scan_chunks tag fuel ⟨data, pos + (chunks_bytes cs).length⟩ := by
  induction cs with
  | nil => intro fuel data pos rest _; simp [chunks_bytes]
  | cons c cs ih =>
    intro fuel data pos rest h
    obtain ⟨⟨hid, hsz, hpl⟩, hne⟩ := hcs c (List.mem_cons_self _ _)
    have h1 : data.drop pos = c.id ++ (c.size ++ (c.payload ++ (chunks_bytes cs ++ rest))) := by
      rw [h]; simp [chunks_bytes, Chunk.bytes, List.append_assoc]
    have h2 := drop_step h1 hid
    have h3 := drop_step h2 hsz
    have h4 := drop_step h3 hpl
    have hlen : cs.length + 1 + fuel = (cs.length + fuel) + 1 := by omega
    rw [List.length_cons, hlen]
    simp only [scan_chunks, fread_eq h1 hid, fread_eq h2 hsz, hid, hsz, ne_eq, not_true_eq_false,
      if_false, hne, fseek_cur_natCast]
    rw [ih (fun c hc => hcs c (List.mem_cons_of_mem _ hc)) fuel data _ rest h4]
    congr 2
    simp only [chunks_bytes, Chunk.bytes, List.length_append, hid, hsz, hpl]
    omega

theorem chunks_length_le (tag : List Byte) (cs : List Chunk)
    (hcs : ∀ c ∈ cs, c.complete ∧ c.id ≠ tag) : cs.length ≤ (chunks_bytes cs).length := by
  induction cs with
  | nil => simp
  | cons c cs ih =>
    obtain ⟨⟨hid, _, _⟩, _⟩ := hcs c (List.mem_cons_self _ _)
    have := ih (fun c hc => hcs c (List.mem_cons_of_mem _ hc))
    simp only [chunks_bytes, Chunk.bytes, List.length_append, List.length_cons, hid]
    omega

theorem fseek_cur_four (data : List Byte) (pos : ℕ) :
    fseek_cur 4 ⟨data, pos⟩ = ⟨data, pos + 4⟩ := by
  exact_mod_cast fseek_cur_natCast data pos 4

theorem fseek_cur_six (data : List Byte) (pos : ℕ) :
    fseek_cur 6 ⟨data, pos⟩ = ⟨data, pos + 6⟩ := by
  exact_mod_cast fseek_cur_natCast data pos 6

set_option maxRecDepth 4000 in
/-- What `parse_wav_file` computes on a stream of the well-formed shape. -/
theorem parse_wav_file_wellformed (w : WavLayout) (hw : w.wellformed) :
    parse_wav_file (some w.bytes) =
      if le_value w.data_size = 0 then some none
      else if le_value w.sample_rate > 0 ∧ le_value w.num_channels > 0 ∧
          le_value w.bits_per_sample > 0 then
        if to_uint32 ((le_value w.bits_per_sample / 8 * le_value w.num_channels : ℕ) : ℤ) = 0 then none
        else some (some
          { sample_rate := le_value w.sample_rate
            channels := le_value w.num_channels
            bits_per_sample := le_value w.bits_per_sample
            data_size := le_value w.data_size
            duration := roundDouble
              (((le_value w.data_size /
                to_uint32 ((le_value w.bits_per_sample / 8 * le_value w.num_channels : ℕ) : ℤ) : ℕ) : ℚ) /
                  le_value w.sample_rate) })
      else some none := by
  obtain ⟨hrs, hpre, hfs, h16, haf, hpcm, hnc, hsr, hra, hbp, hfe, hpost, hds⟩ := hw
  have hRIFF : WAV_RIFF_HEADER.length = 4 := rfl
  have hWAVE : WAV_WAVE_HEADER.length = 4 := rfl
  have hFMT : WAV_FMT_HEADER.length = 4 := rfl
  have hDATA : WAV_DATA_HEADER.length = 4 := rfl
  have d0 : w.bytes.drop 0 = w.bytes := List.drop_zero _
  conv at d0 => rhs; unfold WavLayout.bytes
  have d1 := drop_step d0 hRIFF
  have d2 := drop_step d1 hrs
  have d3 := drop_step d2 hWAVE
  have d4 := drop_step d3 (rfl : (chunks_bytes w.before_fmt).length = _)
  have d5 := drop_step d4 hFMT
  have d6 := drop_step d5 hfs
  have d7 := drop_step d6 haf
  have d8 := drop_step d7 hnc
  have d9 := drop_step d8 hsr
  have d10 := drop_step d9 hra
  have d11 := drop_step d10 hbp
  have d12 := drop_step d11 hfe
  have d13 := drop_step d12 (rfl : (chunks_bytes w.before_data).length = _)
  -- fuel of the two loops
  have hlen1 : (chunks_bytes w.before_fmt).length ≤ w.bytes.length := by
    simp only [WavLayout.bytes, List.length_append]; omega
  have hlen2 : (chunks_bytes w.before_data).length ≤ w.bytes.length := by
    simp only [WavLayout.bytes, List.length_append]; omega
  obtain ⟨m1, hm1⟩ : ∃ m, w.bytes.length + 1 = w.before_fmt.length + (m + 1) :=
    ⟨w.bytes.length - w.before_fmt.length, by
      have := chunks_length_le _ _ hpre; omega⟩
  obtain ⟨m2, hm2⟩ : ∃ m, w.bytes.length + 1 = w.before_data.length + (m + 1) :=
    ⟨w.bytes.length - w.before_data.length, by
      have := chunks_length_le _ _ hpost; omega⟩
  have s1 := scan_chunks_skip _ _ hpre (m1 + 1) _ _ _ d3
  have s2 := scan_chunks_found m1 hFMT hfs d4
  have s3 := scan_chunks_skip _ _ hpost (m2 + 1) _ _ _ d12
  have s4 := scan_chunks_found m2 hDATA hds d13
  have hsz := le_value_lt w.fmt_size
  rw [hfs] at hsz
  have hmod : to_uint32 ((le_value w.fmt_size : ℤ) - 16) = le_value w.fmt_size - 16 := by
    unfold to_uint32
    omega
  rw [← hm1] at s1
  rw [← hm2] at s3
  unfold parse_wav_file
  simp only [fopen, fread_eq d0 hRIFF]
  simp only [fread_eq d2 hWAVE, fseek_cur_four, hRIFF, hWAVE, ne_eq, not_true_eq_false,
    if_false]
  simp only [s1, s2]
  simp only [fread_eq d6 haf, haf, hpcm, ne_eq, not_true_eq_false, if_false]
  simp only [fread_eq d7 hnc, hnc, ne_eq, not_true_eq_false, if_false]
  simp only [fread_eq d8 hsr, hsr, ne_eq, not_true_eq_false, if_false]
  simp only [fseek_cur_six]
  simp only [fread_eq d10 hbp, hbp, ne_eq, not_true_eq_false, if_false]
  simp only [hmod, fseek_cur_natCast]
  rw [s3, s4]


theorem to_uint32_of_lt {n : ℕ} (h : n < 4294967296) : to_uint32 (n : ℤ) = n := by
  unfold to_uint32
  omega

theorem double_to_int_roundDouble_div (t r : ℕ) (hr : 0 < r) (ht : t < 2 ^ 53)
    (hfit : t / r < 2 ^ 31) :
    double_to_int (roundDouble ((t : ℚ) / r)) = some ((t / r : ℕ) : ℤ) := by
  have hfl := floor_roundDouble_div t r hr ht
  have hnn : (0 : ℚ) ≤ roundDouble ((t : ℚ) / r) := by
    have := natCast_le_roundDouble (n := 0) (q := (t : ℚ) / r)
      (lt_of_le_of_lt (div_le_self (by positivity) (by exact_mod_cast hr)) (by exact_mod_cast ht))
      (by simp only [Nat.cast_zero]; positivity)
    simpa using this
  have h1 : (-2 ^ 31 : ℤ) ≤ ((t / r : ℕ) : ℤ) := by
    have : (0 : ℤ) ≤ ((t / r : ℕ) : ℤ) := Int.natCast_nonneg _
    omega
  have h2 : ((t / r : ℕ) : ℤ) < 2 ^ 31 := by exact_mod_cast hfit
  simp only [double_to_int, c_trunc_of_nonneg hnn, hfl, h1, h2, and_self, if_true]

/-- C1 (as amended): for a WAV stream of the well-formed shape with channel count
`c > 0`, sample rate `r > 0`, bits per sample `b ≥ 8` and declared data length `d > 0`,
`get_wav_duration` returns `⌊⌊d / (⌊b / 8⌋ * c)⌋ / r⌋`, provided that this number is below
`2 ^ 31` (representable in `int`). -/
theorem wav_duration_formula (w : WavLayout) (hw : w.wellformed)
    (hc : 0 < le_value w.num_channels) (hr : 0 < le_value w.sample_rate)
    (hb : 8 ≤ le_value w.bits_per_sample) (hd : 0 < le_value w.data_size)
    (hfit : le_value w.data_size / (le_value w.bits_per_sample / 8 * le_value w.num_channels) /
      le_value w.sample_rate < 2 ^ 31) :
    get_wav_duration (some w.bytes) =
      some ((le_value w.data_size / (le_value w.bits_per_sample / 8 * le_value w.num_channels) /
        le_value w.sample_rate : ℕ) : ℤ) := by
  have hw2 := hw
  obtain ⟨_, _, _, _, _, _, hnc, _, _, hbp, _, _, hds⟩ := hw2
  have hcl := le_value_lt w.num_channels
  have hbl := le_value_lt w.bits_per_sample
  have hdl := le_value_lt w.data_size
  rw [hnc] at hcl
  rw [hbp] at hbl
  rw [hds] at hdl
  have hb8 : 1 ≤ le_value w.bits_per_sample / 8 := by omega
  have hb9 : le_value w.bits_per_sample / 8 < 8192 := by omega
  have hpos : 0 < le_value w.bits_per_sample / 8 * le_value w.num_channels :=
    Nat.mul_pos hb8 hc
  have hlt : le_value w.bits_per_sample / 8 * le_value w.num_channels < 4294967296 := by
    have : le_value w.bits_per_sample / 8 * le_value w.num_channels < 8192 * 65536 :=
      Nat.mul_lt_mul'' hb9 (by omega)
    omega
  have hu := to_uint32_of_lt hlt
  have hcond : le_value w.sample_rate > 0 ∧ le_value w.num_channels > 0 ∧
      le_value w.bits_per_sample > 0 := ⟨hr, hc, by omega⟩
  have ht53 : le_value w.data_size /
      (le_value w.bits_per_sample / 8 * le_value w.num_channels) < 2 ^ 53 := by
    have := Nat.div_le_self (le_value w.data_size)
      (le_value w.bits_per_sample / 8 * le_value w.num_channels)
    have h2 : (256 : ℕ) ^ 4 < 2 ^ 53 := by norm_num
    omega
  unfold get_wav_duration
  rw [parse_wav_file_wellformed w hw, if_neg (Nat.pos_iff_ne_zero.mp hd), if_pos hcond, hu,
    if_neg (Nat.pos_iff_ne_zero.mp hpos)]
  exact double_to_int_roundDouble_div _ _ hr ht53 hfit

/-- Witness for `wav_duration_formula`: 44100 Hz, 2 channels, 16 bits, 176400 data bytes
give 1 second. -/
theorem wav_duration_formula_witness :
    wav_one_second.wellformed ∧ get_wav_duration (some wav_one_second.bytes) = some 1 :=
  ⟨by decide!, wav_duration_formula wav_one_second (by decide!) (by decide!) (by decide!)
    (by decide!) (by decide!) (by decide!)⟩

/-- C1 as stated fails: the stream `wav_long` has the well-formed shape with `c = 1`, `r = 1`,
`b = 8`, `d = 4294967295`, the claimed value is `4294967295`, but the conversion of the
duration to `int` is undefined. -/
theorem wav_duration_formula_counterexample :
    wav_long.wellformed ∧ 0 < le_value wav_long.num_channels ∧
      0 < le_value wav_long.sample_rate ∧ 8 ≤ le_value wav_long.bits_per_sample ∧
      0 < le_value wav_long.data_size ∧
      le_value wav_long.data_size /
        (le_value wav_long.bits_per_sample / 8 * le_value wav_long.num_channels) /
          le_value wav_long.sample_rate = 4294967295 ∧
      get_wav_duration (some wav_long.bytes) = none := by
  decide!

theorem and_mask (x n m : ℕ) (h : m = 2 ^ n - 1) : x &&& m = x % 2 ^ n := by
  rw [h, Nat.and_pow_two_sub_one_eq_mod]

theorem shl_or_byte (A : ℕ) (b : Byte) (i : ℕ) :
    (2 ^ (i + 8) * A) ||| (b.val <<< i) = 2 ^ i * (256 * A + b.val) := by
  have hb : b.val * 2 ^ i < 2 ^ (i + 8) := by
    rw [pow_add]
    have := b.isLt
    have hp : 0 < 2 ^ i := by positivity
    nlinarith
  rw [Nat.shiftLeft_eq, ← Nat.mul_add_lt_is_or hb, pow_add]
  ring

theorem packed_fold (p : StreamInfoPayload) (hp : p.wellformed) :
    [0, 1, 2, 3, 4, 5, 6, 7].foldl
      (fun acc i => acc ||| ((p.bytes.getD (10 + i) 0).val <<< ((7 - i) * 8))) 0 = p.packed := by
  obtain ⟨h1, h2⟩ := hp
  have g : ∀ i, p.bytes.getD (10 + i) 0 =
      ([p.b0, p.b1, p.b2, p.b3, p.b4, p.b5, p.b6, p.b7] ++ p.tail).getD i 0 := by
    intro i
    unfold StreamInfoPayload.bytes
    rw [List.getD_append_right _ _ _ _ (by omega), h1]
    congr 1
    omega
  simp only [List.foldl_cons, List.foldl_nil, g]
  simp only [List.cons_append, List.getD_cons_zero, List.getD_cons_succ, Nat.reduceSub,
    Nat.reduceMul, StreamInfoPayload.packed, be_value, Nat.zero_or]
  have e0 : p.b0.val <<< 56 = 2 ^ (48 + 8) * p.b0.val := by
    rw [Nat.shiftLeft_eq]; ring
  rw [e0, shl_or_byte _ p.b1 48, shl_or_byte _ p.b2 40, shl_or_byte _ p.b3 32,
    shl_or_byte _ p.b4 24, shl_or_byte _ p.b5 16, shl_or_byte _ p.b6 8,
    shl_or_byte _ p.b7 0]
  simp only [List.foldl_cons, List.foldl_nil]
  omega

theorem header_fold (h0 h1 h2 h3 : Byte) :
    [h0, h1, h2, h3].foldl (fun acc b => to_uint32 ((acc <<< 8 : ℕ) : ℤ) ||| b.val) 0 =
      be_value [h0, h1, h2, h3] := by
  have b0 := h0.isLt
  have b1 := h1.isLt
  have b2 := h2.isLt
  have b3 := h3.isLt
  have step : ∀ (A : ℕ) (b : Byte), A < 2 ^ 24 →
      to_uint32 ((A <<< 8 : ℕ) : ℤ) ||| b.val = 256 * A + b.val := by
    intro A b hA
    have hb := b.isLt
    rw [Nat.shiftLeft_eq, to_uint32_of_lt (by omega)]
    have := Nat.mul_add_lt_is_or (i := 8) (b := b.val) (by omega) A
    rw [show A * 2 ^ 8 = 2 ^ 8 * A by ring, ← this]
  simp only [List.foldl_cons, List.foldl_nil, be_value]
  rw [step 0 h0 (by norm_num), step _ h1 (by omega), step _ h2 (by omega), step _ h3 (by omega)]
  omega

theorem packed_lt (p : StreamInfoPayload) : p.packed < 2 ^ 64 := by
  have b0 := p.b0.isLt
  have b1 := p.b1.isLt
  have b2 := p.b2.isLt
  have b3 := p.b3.isLt
  have b4 := p.b4.isLt
  have b5 := p.b5.isLt
  have b6 := p.b6.isLt
  have b7 := p.b7.isLt
  simp only [StreamInfoPayload.packed, be_value, List.foldl_cons, List.foldl_nil]
  omega

/-- The total-sample recombination of `parse_streaminfo_block` yields the low 36 bits. -/
theorem total_samples_bits (X : ℕ) :
    (((X >>> 4) &&& 0xFFFFFFFF) <<< 4) ||| (X &&& 0x0F) = X % 2 ^ 36 := by
  rw [and_mask _ 32 _ (by norm_num), and_mask _ 4 _ (by norm_num), Nat.shiftRight_eq_div_pow,
    Nat.shiftLeft_eq, Nat.mul_comm, ← Nat.mul_add_lt_is_or (Nat.mod_lt _ (by norm_num))]
  omega

theorem sample_rate_bits (X : ℕ) (hX : X < 2 ^ 64) :
    to_uint32 (((X >>> 44) &&& 0xFFFFF : ℕ) : ℤ) = X >>> 44 := by
  rw [and_mask _ 20 _ (by norm_num), Nat.shiftRight_eq_div_pow,
    to_uint32_of_lt (by omega)]
  omega

theorem channels_bits (X : ℕ) :
    to_uint32 ((((X >>> 41) &&& 0x07) + 1 : ℕ) : ℤ) = (X >>> 41) % 8 + 1 := by
  rw [and_mask _ 3 _ (by norm_num), to_uint32_of_lt (by omega)]
  rfl

theorem bits_per_sample_bits (X : ℕ) :
    to_uint32 ((((X >>> 36) &&& 0x1F) + 1 : ℕ) : ℤ) = (X >>> 36) % 32 + 1 := by
  rw [and_mask _ 5 _ (by norm_num), to_uint32_of_lt (by omega)]
  rfl

/-- What `parse_streaminfo_block` computes on a 34-byte payload. -/
theorem parse_streaminfo_block_eq (p : StreamInfoPayload) (hp : p.wellformed)
    (data : List Byte) (pos : ℕ) (rest : List Byte) (info : FLACInfo)
    (h : data.drop pos = p.bytes ++ rest) :
    parse_streaminfo_block ⟨data, pos⟩ info 34 =
      ({ sample_rate := p.packed >>> 44
         channels := (p.packed >>> 41) % 8 + 1
         bits_per_sample := (p.packed >>> 36) % 32 + 1
         total_samples := p.packed % 2 ^ 36
         duration :=
           if p.packed >>> 44 > 0 ∧ p.packed % 2 ^ 36 > 0 then
             roundDouble (((p.packed % 2 ^ 36 : ℕ) : ℚ) / (p.packed >>> 44 : ℕ))
           else info.duration }, ⟨data, pos + 34⟩) := by
  have hlen : p.bytes.length = 34 := by
    obtain ⟨h1, h2⟩ := hp
    simp only [StreamInfoPayload.bytes, List.length_append, List.length_cons, List.length_nil,
      h1, h2]
  unfold parse_streaminfo_block
  simp only [ne_eq, not_true_eq_false, if_false, fread_eq h hlen, hlen, packed_fold p hp,
    total_samples_bits, sample_rate_bits _ (packed_lt p), channels_bits, bits_per_sample_bits]


/-- C2: on every 34-byte STREAMINFO payload, with `X` the unsigned 64-bit big-endian value of
payload bytes 10..17, `parse_streaminfo_block` sets `sample_rate = X >> 44`,
`channels = ((X >> 41) mod 8) + 1`, `bits_per_sample = ((X >> 36) mod 32) + 1` and
`total_samples = X mod 2 ^ 36`; hence `sample_rate ≤ 1048575`, `channels` lies in `1..8`,
`bits_per_sample` in `1..32` and `total_samples ≤ 2 ^ 36 - 1`. -/
theorem streaminfo_decode (p : StreamInfoPayload) (hp : p.wellformed)
    (data : List Byte) (pos : ℕ) (rest : List Byte) (info : FLACInfo)
    (h : data.drop pos = p.bytes ++ rest) :
    (parse_streaminfo_block ⟨data, pos⟩ info 34).1.sample_rate = p.packed >>> 44 ∧
    (parse_streaminfo_block ⟨data, pos⟩ info 34).1.channels = (p.packed >>> 41) % 8 + 1 ∧
    (parse_streaminfo_block ⟨data, pos⟩ info 34).1.bits_per_sample =
      (p.packed >>> 36) % 32 + 1 ∧
    (parse_streaminfo_block ⟨data, pos⟩ info 34).1.total_samples = p.packed % 2 ^ 36 ∧
    (parse_streaminfo_block ⟨data, pos⟩ info 34).1.sample_rate ≤ 1048575 ∧
    1 ≤ (parse_streaminfo_block ⟨data, pos⟩ info 34).1.channels ∧
    (parse_streaminfo_block ⟨data, pos⟩ info 34).1.channels ≤ 8 ∧
    1 ≤ (parse_streaminfo_block ⟨data, pos⟩ info 34).1.bits_per_sample ∧
    (parse_streaminfo_block ⟨data, pos⟩ info 34).1.bits_per_sample ≤ 32 ∧
    (parse_streaminfo_block ⟨data, pos⟩ info 34).1.total_samples ≤ 2 ^ 36 - 1 := by
  have hX := packed_lt p
  rw [parse_streaminfo_block_eq p hp data pos rest info h]
  simp only [Nat.shiftRight_eq_div_pow]
  refine ⟨trivial, trivial, trivial, trivial, ?_, ?_, ?_, ?_, ?_, ?_⟩ <;> omega

/-- Witness for `streaminfo_decode`: with every bit of the packed field set, the decoded
sample rate is `1048575` and the decoded sample count is `2 ^ 36 - 1 = 68719476735`. -/
theorem streaminfo_decode_witness :
    streaminfo_all_ones.wellformed ∧
    (parse_streaminfo_block ⟨streaminfo_all_ones.bytes, 0⟩ ⟨0, 0, 0, 0, 0⟩ 34).1.sample_rate =
      1048575 ∧
    (parse_streaminfo_block ⟨streaminfo_all_ones.bytes, 0⟩ ⟨0, 0, 0, 0, 0⟩ 34).1.total_samples =
      68719476735 := by
  have h := streaminfo_decode streaminfo_all_ones (by decide!) streaminfo_all_ones.bytes 0 []
    ⟨0, 0, 0, 0, 0⟩ (by simp)
  refine ⟨by decide!, ?_, ?_⟩
  · rw [h.1]; decide!
  · rw [h.2.2.2.1]; decide!


theorem word_lt (b : MetaBlock) : b.word < 2 ^ 32 := by
  have b0 := b.h0.isLt
  have b1 := b.h1.isLt
  have b2 := b.h2.isLt
  have b3 := b.h3.isLt
  simp only [MetaBlock.word, be_value, List.foldl_cons, List.foldl_nil]
  omega

theorem flac_loop_skip (bs : List MetaBlock) (hbs : ∀ b ∈ bs, b.skipped) :
    ∀ (fuel : ℕ) (data : List Byte) (pos : ℕ) (rest : List Byte) (info : FLACInfo),
      data.drop pos = blocks_bytes bs ++ rest →
      parse_flac_metadata_loop (bs.length + fuel) ⟨data, pos⟩ info =
        parse_flac_metadata_loop fuel ⟨data, pos + (blocks_bytes bs).length⟩ info := by
  induction bs with
  | nil => intro fuel data pos rest info _; simp [blocks_bytes]
  | cons b bs ih =>
    intro fuel data pos rest info h
    obtain ⟨hlast, htype, hpl⟩ := hbs b (List.mem_cons_self _ _)
    have h1 : data.drop pos = [b.h0, b.h1, b.h2, b.h3] ++ (b.payload ++ (blocks_bytes bs ++ rest)) := by
      rw [h]; simp [blocks_bytes, MetaBlock.bytes, List.append_assoc]
    have h4 : [b.h0, b.h1, b.h2, b.h3].length = 4 := rfl
    have h2 := drop_step h1 h4
    have h3 := drop_step h2 hpl
    have hw := word_lt b
    have hlen : (b :: bs).length + fuel = (bs.length + fuel) + 1 := by
      simp only [List.length_cons]; omega
    have hfold := header_fold b.h0 b.h1 b.h2 b.h3
    have e1 : (b.word >>> 31) &&& 0x01 = 0 := by
      rw [and_mask _ 1 _ (by norm_num), Nat.shiftRight_eq_div_pow, hlast]
      norm_num
    have e2 : (b.word >>> 24) &&& 0x7F = b.word / 2 ^ 24 % 128 := by
      rw [and_mask _ 7 _ (by norm_num), Nat.shiftRight_eq_div_pow]
      norm_num
    have e3 : b.word &&& 0xFFFFFF = b.word % 2 ^ 24 := and_mask _ 24 _ (by norm_num)
    rw [hlen]
    conv_lhs => unfold parse_flac_metadata_loop
    simp only [fread_eq h1 h4, h4, lt_self_iff_false, if_false, hfold]
    rw [show be_value [b.h0, b.h1, b.h2, b.h3] = b.word from rfl]
    simp only [e1, e2, e3, htype, if_false, fseek_cur_natCast, zero_ne_one, decide_False,
      Bool.false_eq_true]
    rw [ih (fun c hc => hbs c (List.mem_cons_of_mem _ hc)) fuel data _ rest info h3]
    congr 2
    simp only [blocks_bytes, MetaBlock.bytes, List.length_append, List.length_cons,
      List.length_nil, hpl]
    omega


theorem blocks_length_le (bs : List MetaBlock) : bs.length ≤ (blocks_bytes bs).length := by
  induction bs with
  | nil => simp
  | cons b bs ih =>
    simp only [blocks_bytes, MetaBlock.bytes, List.length_append, List.length_cons,
      List.length_nil]
    omega

theorem flac_loop_streaminfo (flag : Bool) (fuel : ℕ) (data : List Byte) (pos : ℕ)
    (rest : List Byte) (info : FLACInfo)
    (h : data.drop pos = streaminfo_header flag ++ rest) :
    parse_flac_metadata_loop (fuel + 1) ⟨data, pos⟩ info =
      (parse_streaminfo_block ⟨data, pos + 4⟩ info 34).1 := by
  have h4 : (streaminfo_header flag).length = 4 := rfl
  have hfold : (streaminfo_header flag).foldl
      (fun acc b => to_uint32 ((acc <<< 8 : ℕ) : ℤ) ||| b.val) 0 =
        be_value (streaminfo_header flag) := header_fold _ _ _ _
  have e2 : (be_value (streaminfo_header flag) >>> 24) &&& 0x7F = 0 := by
    cases flag <;> rfl
  have e3 : be_value (streaminfo_header flag) &&& 0xFFFFFF = 34 := by
    cases flag <;> rfl
  conv_lhs => unfold parse_flac_metadata_loop
  simp only [fread_eq h h4, h4, lt_self_iff_false, if_false, hfold, e2, e3, if_true]

theorem roundDouble_pos {q : ℚ} (hq : 0 < q) : 0 < roundDouble q := by
  have h := roundDouble_sub_le hq
  rw [abs_le] at h
  have h2 : q / 2 ^ 53 < q := div_lt_self hq (by norm_num)
  linarith [h.1]

/-- C3: for a FLAC stream `fLaC`, skipped metadata blocks, a type-0 block header of length
34 and a 34-byte payload encoding sample rate `s > 0` and total samples `t > 0`,
`get_flac_duration` returns `⌊t / s⌋` when that fits in an `int`, whatever follows. -/
theorem flac_duration_formula (l : FlacLayout) (hl : l.wellformed)
    (hs : 0 < l.info.packed >>> 44) (ht : 0 < l.info.packed % 2 ^ 36)
    (hfit : l.info.packed % 2 ^ 36 / (l.info.packed >>> 44) < 2 ^ 31) :
    get_flac_duration (some l.bytes) =
      some ((l.info.packed % 2 ^ 36 / (l.info.packed >>> 44) : ℕ) : ℤ) := by
  obtain ⟨hb, hp⟩ := hl
  have hsig : FLAC_SIGNATURE.length = 4 := rfl
  have d0 : l.bytes.drop 0 = l.bytes := List.drop_zero _
  conv at d0 => rhs; unfold FlacLayout.bytes
  have d1 := drop_step d0 hsig
  have d2 := drop_step d1 (rfl : (blocks_bytes l.before).length = _)
  have d3 := drop_step (n := 4) d2 rfl
  have hlen : (blocks_bytes l.before).length ≤ l.bytes.length := by
    simp only [FlacLayout.bytes, List.length_append]; omega
  obtain ⟨m, hm⟩ : ∃ m, l.bytes.length + 1 = l.before.length + (m + 1) :=
    ⟨l.bytes.length - l.before.length, by have := blocks_length_le l.before; omega⟩
  have s1 := flac_loop_skip _ hb (m + 1) _ _ _ ⟨0, 0, 0, 0, 0⟩ d1
  have s2 := flac_loop_streaminfo l.last_flag m _ _ _ ⟨0, 0, 0, 0, 0⟩ d2
  have s3 := parse_streaminfo_block_eq l.info hp _ _ _ ⟨0, 0, 0, 0, 0⟩ d3
  rw [← hm] at s1
  have hcond : l.info.packed >>> 44 > 0 ∧ l.info.packed % 2 ^ 36 > 0 := ⟨hs, ht⟩
  have hq : (0 : ℚ) < ((l.info.packed % 2 ^ 36 : ℕ) : ℚ) / (l.info.packed >>> 44 : ℕ) :=
    div_pos (by exact_mod_cast ht) (by exact_mod_cast hs)
  have hpos := roundDouble_pos hq
  have ht53 : l.info.packed % 2 ^ 36 < 2 ^ 53 := by omega
  unfold get_flac_duration parse_flac_file check_flac_signature parse_flac_metadata
  simp only [fopen, fread_eq d0 hsig, hsig, lt_self_iff_false, if_false, decide_True,
    not_true_eq_false, s1, s2]
  rw [s3]
  simp only [if_pos hcond, gt_iff_lt, hpos, decide_True, if_true]
  exact double_to_int_roundDouble_div _ _ hs ht53 hfit

/-- Witness for `flac_duration_formula`: sample rate 48000, 2 channels, 16 bits, 48000
samples give 1 second. -/
theorem flac_duration_formula_witness :
    flac_one_second.wellformed ∧ flac_one_second.info.packed >>> 44 = 48000 ∧
      flac_one_second.info.packed % 2 ^ 36 = 48000 ∧
      get_flac_duration (some flac_one_second.bytes) = some 1 :=
  ⟨by decide!, by decide!, by decide!,
    flac_duration_formula flac_one_second (by decide!) (by decide!) (by decide!) (by decide!)⟩

theorem le_or_byte (acc i : ℕ) (b : Byte) (h : acc < 2 ^ i) :
    acc ||| (b.val <<< i) = acc + 2 ^ i * b.val := by
  rw [Nat.shiftLeft_eq, Nat.lor_comm, Nat.mul_comm, ← Nat.mul_add_lt_is_or h]
  omega

theorem granule_fold (p : OggPage) (tl : List Byte) :
    [0, 1, 2, 3, 4, 5, 6, 7].foldl
      (fun acc i => acc ||| (((OGG_PAGE_HEADER ++ [p.version, p.header_type] ++
        [p.g0, p.g1, p.g2, p.g3, p.g4, p.g5, p.g6, p.g7] ++ tl).getD (6 + i) 0).val <<< (i * 8)))
      0 = p.granule := by
  have b0 := p.g0.isLt
  have b1 := p.g1.isLt
  have b2 := p.g2.isLt
  have b3 := p.g3.isLt
  have b4 := p.g4.isLt
  have b5 := p.g5.isLt
  have b6 := p.g6.isLt
  have b7 := p.g7.isLt
  simp only [OGG_PAGE_HEADER, List.foldl_cons, List.foldl_nil, List.cons_append,
    List.nil_append, List.getD_cons_succ, List.getD_cons_zero, Nat.reduceAdd, Nat.reduceMul,
    OggPage.granule, le_value, List.foldr_cons, List.foldr_nil]
  rw [le_or_byte 0 0 p.g0 (by norm_num), le_or_byte _ 8 p.g1 (by omega),
    le_or_byte _ 16 p.g2 (by omega), le_or_byte _ 24 p.g3 (by omega),
    le_or_byte _ 32 p.g4 (by omega), le_or_byte _ 40 p.g5 (by omega),
    le_or_byte _ 48 p.g6 (by omega), le_or_byte _ 56 p.g7 (by omega)]
  omega


/-- What `read_ogg_page_header` computes on a well-formed page. -/
theorem read_ogg_page_header_eq (p : OggPage) (hp : p.wellformed)
    (data : List Byte) (pos : ℕ) (rest : List Byte) (h : data.drop pos = p.bytes ++ rest) :
    ∃ hdr : OGGPageHeader,
      read_ogg_page_header ⟨data, pos⟩ =
        some ⟨hdr, p.payload.length, ⟨data, pos + 27 + p.segments.length⟩⟩ ∧
      hdr.granule_position = p.granule := by
  obtain ⟨hs, hq, hc, hn, hpl⟩ := hp
  have hH : (OGG_PAGE_HEADER ++ [p.version, p.header_type] ++
      [p.g0, p.g1, p.g2, p.g3, p.g4, p.g5, p.g6, p.g7] ++
      (p.serial ++ (p.sequence ++ (p.checksum ++ [Fin.ofNat p.segments.length])))).length
        = 27 := by
    simp only [OGG_PAGE_HEADER, List.length_append, List.length_cons, List.length_nil, hs, hq, hc]
  have h1 : data.drop pos = (OGG_PAGE_HEADER ++ [p.version, p.header_type] ++
      [p.g0, p.g1, p.g2, p.g3, p.g4, p.g5, p.g6, p.g7] ++
      (p.serial ++ (p.sequence ++ (p.checksum ++ [Fin.ofNat p.segments.length])))) ++
        (p.segments ++ (p.payload ++ rest)) := by
    rw [h]
    simp only [OggPage.bytes, List.append_assoc]
  have h2 := drop_step h1 hH
  have h3 : data.drop (pos + 27) = p.segments ++ (p.payload ++ rest) := h2
  have htake : (OGG_PAGE_HEADER ++ [p.version, p.header_type] ++
      [p.g0, p.g1, p.g2, p.g3, p.g4, p.g5, p.g6, p.g7] ++
      (p.serial ++ (p.sequence ++ (p.checksum ++ [Fin.ofNat p.segments.length])))).take 4
        = OGG_PAGE_HEADER := by
    simp [OGG_PAGE_HEADER]
  have h26 : ((OGG_PAGE_HEADER ++ [p.version, p.header_type] ++
      [p.g0, p.g1, p.g2, p.g3, p.g4, p.g5, p.g6, p.g7] ++
      (p.serial ++ (p.sequence ++ (p.checksum ++ [Fin.ofNat p.segments.length])))).getD 26 0).val
        = p.segments.length := by
    have e : OGG_PAGE_HEADER ++ [p.version, p.header_type] ++
      [p.g0, p.g1, p.g2, p.g3, p.g4, p.g5, p.g6, p.g7] ++
      (p.serial ++ (p.sequence ++ (p.checksum ++ [Fin.ofNat p.segments.length]))) =
      (OGG_PAGE_HEADER ++ [p.version, p.header_type] ++
      [p.g0, p.g1, p.g2, p.g3, p.g4, p.g5, p.g6, p.g7] ++
      p.serial ++ p.sequence ++ p.checksum) ++ [Fin.ofNat p.segments.length] := by
      simp only [List.append_assoc]
    rw [e, List.getD_append_right _ _ _ _ (by
      simp only [OGG_PAGE_HEADER, List.length_append, List.length_cons, List.length_nil, hs,
        hq, hc]; omega)]
    simp only [OGG_PAGE_HEADER, List.length_append, List.length_cons, List.length_nil, hs, hq,
      hc, Nat.reduceAdd, Nat.sub_self, List.getD_cons_zero]
    show p.segments.length % 256 = p.segments.length
    exact Nat.mod_eq_of_lt hn
  unfold read_ogg_page_header
  simp only [fread_eq h1 hH, hH, lt_self_iff_false, if_false, htake, ne_eq, not_true_eq_false,
    h26, fread_eq h3 rfl, granule_fold, ← hpl]
  exact ⟨_, rfl, rfl⟩

theorem read_ogg_page_header_eof (data : List Byte) (pos : ℕ) (h : data.drop pos = []) :
    read_ogg_page_header ⟨data, pos⟩ = none := by
  unfold read_ogg_page_header
  simp [fread, h]

theorem page_bytes_length (p : OggPage) (hp : p.wellformed) :
    p.bytes.length = 27 + p.segments.length + p.payload.length := by
  obtain ⟨hs, hq, hc, _, _⟩ := hp
  simp only [OggPage.bytes, OGG_PAGE_HEADER, List.length_append, List.length_cons,
    List.length_nil, hs, hq, hc]
  omega

theorem ogg_sweep_eq (ps : List OggPage) (hps : ∀ p ∈ ps, p.wellformed) :
    ∀ (fuel : ℕ) (data : List Byte) (pos : ℕ) (st : GranuleState),
      data.drop pos = pages_bytes ps →
      ogg_sweep (ps.length + (fuel + 1)) ⟨data, pos⟩ st = sweep_pages ps st := by
  induction ps with
  | nil =>
    intro fuel data pos st h
    have := read_ogg_page_header_eof data pos (by simpa [pages_bytes] using h)
    simp only [List.length_nil, Nat.zero_add, ogg_sweep, this, sweep_pages, List.foldl_nil]
  | cons p ps ih =>
    intro fuel data pos st h
    have hp := hps p (List.mem_cons_self _ _)
    have h1 : data.drop pos = p.bytes ++ pages_bytes ps := by rw [h]; rfl
    obtain ⟨hdr, hrd, hg⟩ := read_ogg_page_header_eq p hp data pos _ h1
    have hlen := page_bytes_length p hp
    have h2 : data.drop (pos + 27 + p.segments.length + p.payload.length) = pages_bytes ps := by
      have := drop_step h1 hlen
      rw [← this]
      congr 1
      omega
    have hl : (p :: ps).length + (fuel + 1) = (ps.length + (fuel + 1)) + 1 := by
      simp only [List.length_cons]; omega
    rw [hl]
    conv_lhs => unfold ogg_sweep
    simp only [hrd, hg, fseek_cur_natCast]
    rw [ih (fun q hq => hps q (List.mem_cons_of_mem _ hq)) fuel data _ _ h2]
    simp only [sweep_pages, List.foldl_cons, page_update]

theorem sweep_pages_eq (ps : List OggPage) :
    ∀ st : GranuleState, sweep_pages ps st =
      if nonzero_granules ps = [] then st
      else
        { first_granule_found := true
          first_granule :=
            if st.first_granule_found then st.first_granule
            else to_int64 ((nonzero_granules ps).headD 0)
          last_granule := to_int64 ((nonzero_granules ps).getLastD 0) } := by
  induction ps with
  | nil => intro st; simp [sweep_pages, nonzero_granules]
  | cons p ps ih =>
    intro st
    have hfold : sweep_pages (p :: ps) st = sweep_pages ps (page_update st p.granule) := by
      simp only [sweep_pages, List.foldl_cons]
    rw [hfold, ih]
    by_cases hg : 0 < p.granule
    · have hnz : nonzero_granules (p :: ps) = p.granule :: nonzero_granules ps := by
        simp [nonzero_granules, hg]
      rw [hnz]
      by_cases hrest : nonzero_granules ps = []
      · simp [hrest, page_update, hg]
        cases hf : st.first_granule_found <;> simp [hf]
      · obtain ⟨g, gs, hgs⟩ := List.exists_cons_of_ne_nil hrest
        simp [hgs, page_update, hg]
        cases hf : st.first_granule_found <;> simp [hf]
    · have hnz : nonzero_granules (p :: ps) = nonzero_granules ps := by
        simp [nonzero_granules, hg]
      have hup : page_update st p.granule = st := by
        simp [page_update, hg]
      rw [hnz, hup]

theorem getD_add_eq_drop (l : List Byte) (k i : ℕ) :
    l.getD (k + i) 0 = (l.drop k).getD i 0 := by
  simp [List.getD_eq_getElem?_getD, List.getElem?_drop]

theorem le32_or (l : List Byte) (k : ℕ) (h : k + 4 ≤ l.length) :
    (l.getD k 0).val ||| ((l.getD (k + 1) 0).val <<< 8) ||| ((l.getD (k + 2) 0).val <<< 16) |||
      ((l.getD (k + 3) 0).val <<< 24) = le_value ((l.drop k).take 4) := by
  have hlen : 4 ≤ (l.drop k).length := by rw [List.length_drop]; omega
  have e0 : l.getD k 0 = (l.drop k).getD 0 0 := getD_add_eq_drop l k 0
  rw [e0, getD_add_eq_drop l k 1, getD_add_eq_drop l k 2, getD_add_eq_drop l k 3]
  generalize l.drop k = m at hlen
  match m, hlen with
  | a :: b :: c :: d :: tl, _ =>
    have ha := a.isLt
    have hb := b.isLt
    have hc := c.isLt
    have hd := d.isLt
    simp only [List.getD_cons_zero, List.getD_cons_succ, List.take_succ_cons, List.take_zero,
      le_value, List.foldr_cons, List.foldr_nil]
    rw [le_or_byte _ 8 b (by omega), le_or_byte _ 16 c (by omega), le_or_byte _ 24 d (by omega)]
    omega


theorem take_min_length (l : List Byte) :
    (l.take (if l.length < 100 then l.length else 100)).length =
      if l.length < 100 then l.length else 100 := by
  rw [List.length_take]
  split_ifs <;> omega

theorem probe_skip (p : OggPage) (hp : p.wellformed) (hr : ¬ p.recognised) (n : ℕ)
    (data : List Byte) (pos : ℕ) (rest : List Byte) (h : data.drop pos = p.bytes ++ rest) :
    find_first_audio_page_loop (n + 1) ⟨data, pos⟩ =
      find_first_audio_page_loop n ⟨data, pos + p.bytes.length⟩ := by
  obtain ⟨hdr, hrd, _⟩ := read_ogg_page_header_eq p hp data pos rest h
  have hlen := page_bytes_length p hp
  have hpay : data.drop (pos + 27 + p.segments.length) = p.payload ++ rest := by
    have h1 : data.drop pos =
        (p.bytes.take (27 + p.segments.length)) ++ (p.payload ++ rest) := by
      rw [h]
      have : p.bytes = p.bytes.take (27 + p.segments.length) ++ p.payload := by
        conv_lhs => rw [← List.take_append_drop (27 + p.segments.length) p.bytes]
        congr 1
        obtain ⟨hs, hq, hc, _, _⟩ := hp
        simp only [OggPage.bytes, ← List.append_assoc]
        rw [List.drop_left']
        simp only [OGG_PAGE_HEADER, List.length_append, List.length_cons, List.length_nil, hs,
          hq, hc]
      conv_lhs => rw [this]
      simp only [List.append_assoc]
    have h2 := drop_step (n := 27 + p.segments.length) h1 (by
      rw [List.length_take]; omega)
    rw [← h2]
    congr 1
    omega
  have hsplit : data.drop (pos + 27 + p.segments.length) =
      p.payload.take (if p.payload.length < 100 then p.payload.length else 100) ++
        (p.payload.drop (if p.payload.length < 100 then p.payload.length else 100) ++ rest) := by
    rw [hpay, ← List.append_assoc, List.take_append_drop]
  have hfr := fread_eq hsplit (take_min_length p.payload)
  have c1 : ¬ ((p.payload.take (if p.payload.length < 100 then p.payload.length else 100)).length
        = (if p.payload.length < 100 then p.payload.length else 100) ∧
      (p.payload.take (if p.payload.length < 100 then p.payload.length else 100)).take 7
        = VORBIS_ID_MAGIC ∧
      (if p.payload.length < 100 then p.payload.length else 100) ≥ 23) := by
    rintro ⟨_, h7, h23⟩
    apply hr
    left
    rw [List.take_take] at h7
    have hmin : min 7 (if p.payload.length < 100 then p.payload.length else 100) = 7 := by
      omega
    rw [hmin] at h7
    exact ⟨h7, by split_ifs at h23 <;> omega⟩
  have c2 : ¬ ((p.payload.take (if p.payload.length < 100 then p.payload.length else 100)).length
        = (if p.payload.length < 100 then p.payload.length else 100) ∧
      (p.payload.take (if p.payload.length < 100 then p.payload.length else 100)).take 8
        = OPUS_HEAD_MAGIC ∧
      (if p.payload.length < 100 then p.payload.length else 100) ≥ 12) := by
    rintro ⟨_, h8, h12⟩
    apply hr
    right
    rw [List.take_take] at h8
    have hmin : min 8 (if p.payload.length < 100 then p.payload.length else 100) = 8 := by
      omega
    rw [hmin] at h8
    exact ⟨h8, by split_ifs at h12 <;> omega⟩
  conv_lhs => unfold find_first_audio_page_loop
  simp only [hrd, hfr, c1, c2, if_false, fseek_cur_natCast]
  congr 1
  split_ifs <;> simp only [FILE.mk.injEq, true_and] <;> omega

theorem probe_hit (p : OggPage) (hp : p.wellformed) (r : ℕ) (hd : p.declares r) (n : ℕ)
    (data : List Byte) (pos : ℕ) (rest : List Byte) (h : data.drop pos = p.bytes ++ rest) :
    find_first_audio_page_loop (n + 1) ⟨data, pos⟩ = some r := by
  obtain ⟨hdr, hrd, _⟩ := read_ogg_page_header_eq p hp data pos rest h
  have hlen := page_bytes_length p hp
  have hpay : data.drop (pos + 27 + p.segments.length) = p.payload ++ rest := by
    have h1 : data.drop pos =
        (p.bytes.take (27 + p.segments.length)) ++ (p.payload ++ rest) := by
      rw [h]
      have : p.bytes = p.bytes.take (27 + p.segments.length) ++ p.payload := by
        conv_lhs => rw [← List.take_append_drop (27 + p.segments.length) p.bytes]
        congr 1
        obtain ⟨hs, hq, hc, _, _⟩ := hp
        simp only [OggPage.bytes, ← List.append_assoc]
        rw [List.drop_left']
        simp only [OGG_PAGE_HEADER, List.length_append, List.length_cons, List.length_nil, hs,
          hq, hc]
      conv_lhs => rw [this]
      simp only [List.append_assoc]
    have h2 := drop_step (n := 27 + p.segments.length) h1 (by
      rw [List.length_take]; omega)
    rw [← h2]
    congr 1
    omega
  have hsplit : data.drop (pos + 27 + p.segments.length) =
      p.payload.take (if p.payload.length < 100 then p.payload.length else 100) ++
        (p.payload.drop (if p.payload.length < 100 then p.payload.length else 100) ++ rest) := by
    rw [hpay, ← List.append_assoc, List.take_append_drop]
  have hfr := fread_eq hsplit (take_min_length p.payload)
  have hlt := take_min_length p.payload
  conv_lhs => unfold find_first_audio_page_loop
  simp only [hrd, hfr, hlt, true_and]
  rcases hd with ⟨h7, h30, hv⟩ | ⟨h8, h12, hv⟩
  · have hrs : (if p.payload.length < 100 then p.payload.length else 100) = 30 := by
      rw [h30]; rfl
    have htk : p.payload.take 30 = p.payload := List.take_of_length_le (by omega)
    have hc : (p.payload.take 7 = VORBIS_ID_MAGIC ∧ 30 ≥ 23) := ⟨h7, by norm_num⟩
    simp only [hrs, htk, hc, and_self, if_true]
    rw [le32_or p.payload 12 (by omega), hv]
  · have hrs12 : 12 ≤ (if p.payload.length < 100 then p.payload.length else 100) := by
      split_ifs <;> omega
    have h7 : ¬ ((p.payload.take (if p.payload.length < 100 then p.payload.length else 100)).take 7
        = VORBIS_ID_MAGIC ∧
        (if p.payload.length < 100 then p.payload.length else 100) ≥ 23) := by
      rintro ⟨h7, _⟩
      rw [List.take_take] at h7
      have hmin : min 7 (if p.payload.length < 100 then p.payload.length else 100) = 7 := by
        omega
      rw [hmin] at h7
      have : (p.payload.take 8).take 7 = p.payload.take 7 := by
        rw [List.take_take]; rfl
      rw [h8, h7] at this
      exact absurd this (by decide)
    have h8' : ((p.payload.take (if p.payload.length < 100 then p.payload.length else 100)).take 8
        = OPUS_HEAD_MAGIC ∧
        (if p.payload.length < 100 then p.payload.length else 100) ≥ 12) := by
      refine ⟨?_, hrs12⟩
      rw [List.take_take]
      have hmin : min 8 (if p.payload.length < 100 then p.payload.length else 100) = 8 := by
        omega
      rw [hmin]
      exact h8
    simp only [h7, h8', if_false, and_self, if_true]
    rw [le32_or _ 8 (by rw [hlt]; omega), List.drop_take, List.take_take]
    have hmin : min 4 ((if p.payload.length < 100 then p.payload.length else 100) - 8) = 4 := by
      omega
    rw [hmin, hv]

theorem probe_pages (pre : List OggPage) (p : OggPage) (post : List OggPage) (r : ℕ)
    (hpre : ∀ q ∈ pre, q.wellformed ∧ ¬ q.recognised) (hp : p.wellformed) (hd : p.declares r) :
    ∀ (n : ℕ) (data : List Byte) (pos : ℕ),
      data.drop pos = pages_bytes (pre ++ p :: post) →
      find_first_audio_page_loop (pre.length + (n + 1)) ⟨data, pos⟩ = some r := by
  induction pre with
  | nil =>
    intro n data pos h
    simp only [List.length_nil, Nat.zero_add]
    exact probe_hit p hp r hd n data pos (pages_bytes post) (by rw [h]; rfl)
  | cons q pre ih =>
    intro n data pos h
    obtain ⟨hq, hnr⟩ := hpre q (List.mem_cons_self _ _)
    have h1 : data.drop pos = q.bytes ++ pages_bytes (pre ++ p :: post) := by rw [h]; rfl
    have hl : (q :: pre).length + (n + 1) = (pre.length + (n + 1)) + 1 := by
      simp only [List.length_cons]; omega
    rw [hl, probe_skip q hq hnr _ data pos _ h1]
    exact ih (fun x hx => hpre x (List.mem_cons_of_mem _ hx)) n data _
      (drop_step h1 rfl)

theorem pages_length_le (ps : List OggPage) (hps : ∀ p ∈ ps, p.wellformed) :
    ps.length ≤ (pages_bytes ps).length := by
  induction ps with
  | nil => simp
  | cons p ps ih =>
    have := page_bytes_length p (hps p (List.mem_cons_self _ _))
    have := ih (fun q hq => hps q (List.mem_cons_of_mem _ hq))
    simp only [pages_bytes, List.length_append, List.length_cons]
    omega

theorem fseek_set_zero (data : List Byte) (pos : ℕ) : fseek_set 0 ⟨data, pos⟩ = ⟨data, 0⟩ := by
  simp [fseek_set]

theorem to_int32_of_lt {n : ℕ} (h : n < 2 ^ 31) : to_int32 (n : ℤ) = n := by
  unfold to_int32
  omega

/-- What `get_ogg_duration` computes on a concatenation of well-formed pages in which the
first page recognised by the codec probe is among the first 10 and declares rate `r`. -/
theorem get_ogg_duration_pages (pre : List OggPage) (p : OggPage) (post : List OggPage)
    (r : ℕ) (hwf : ∀ q ∈ pre ++ p :: post, q.wellformed)
    (hpre : ∀ q ∈ pre, ¬ q.recognised) (h10 : pre.length < 10) (hd : p.declares r) :
    get_ogg_duration (some (pages_bytes (pre ++ p :: post))) =
      if r = 0 then some 0
      else if ¬ (sweep_pages (pre ++ p :: post) ⟨false, 0, 0⟩).first_granule_found ∨
          (sweep_pages (pre ++ p :: post) ⟨false, 0, 0⟩).last_granule = 0 then some 0
      else if -2 ^ 63 ≤ (sweep_pages (pre ++ p :: post) ⟨false, 0, 0⟩).last_granule -
            (sweep_pages (pre ++ p :: post) ⟨false, 0, 0⟩).first_granule ∧
          (sweep_pages (pre ++ p :: post) ⟨false, 0, 0⟩).last_granule -
            (sweep_pages (pre ++ p :: post) ⟨false, 0, 0⟩).first_granule < 2 ^ 63 then
        some (to_int32 (Int.tdiv ((sweep_pages (pre ++ p :: post) ⟨false, 0, 0⟩).last_granule -
          (sweep_pages (pre ++ p :: post) ⟨false, 0, 0⟩).first_granule) (r : ℤ)))
      else none := by
  have hpre2 : ∀ q ∈ pre, q.wellformed ∧ ¬ q.recognised := fun q hq =>
    ⟨hwf q (List.mem_append_left _ hq), hpre q hq⟩
  have hp : p.wellformed := hwf p (by simp)
  obtain ⟨n, hn⟩ : ∃ n, 10 = pre.length + (n + 1) := ⟨9 - pre.length, by omega⟩
  have hprobe := probe_pages pre p post r hpre2 hp hd n (pages_bytes (pre ++ p :: post)) 0
    (List.drop_zero _)
  rw [← hn] at hprobe
  have hlen := pages_length_le _ hwf
  obtain ⟨m, hm⟩ : ∃ m, (pages_bytes (pre ++ p :: post)).length + 1 =
      (pre ++ p :: post).length + (m + 1) :=
    ⟨(pages_bytes (pre ++ p :: post)).length - (pre ++ p :: post).length, by omega⟩
  have hsweep := ogg_sweep_eq _ hwf m (pages_bytes (pre ++ p :: post)) 0 ⟨false, 0, 0⟩
    (List.drop_zero _)
  rw [← hm] at hsweep
  unfold get_ogg_duration find_first_audio_page
  simp only [fopen, fseek_set_zero, hprobe, hsweep, ftell, Nat.cast_zero]

theorem to_int64_ne_zero {g : ℕ} (h0 : 0 < g) (h : g < 2 ^ 64) : to_int64 (g : ℤ) ≠ 0 := by
  unfold to_int64
  omega

/-- C10 (as amended): for an OGG stream made of a Vorbis identification page with granule
position 0 declaring sample rate `r`, followed by exactly one further page with granule
position `g > 0`, `get_ogg_duration` returns 0: the first and the last granule position
greater than zero are both `g`. -/
theorem ogg_two_pages_zero (p0 p1 : OggPage) (r : ℕ) (h0 : p0.wellformed)
    (h1 : p1.wellformed)
    (hv : p0.payload.take 7 = VORBIS_ID_MAGIC ∧ p0.payload.length = 30 ∧
      le_value ((p0.payload.drop 12).take 4) = r)
    (hg0 : p0.granule = 0) (hg1 : 0 < p1.granule) :
    get_ogg_duration (some (pages_bytes [p0, p1])) = some 0 := by
  have hwf : ∀ q ∈ [] ++ p0 :: [p1], q.wellformed := by
    intro q hq
    simp only [List.nil_append, List.mem_cons, List.mem_singleton, List.not_mem_nil,
      or_false] at hq
    rcases hq with rfl | rfl
    · exact h0
    · exact h1
  have hnz : nonzero_granules ([] ++ p0 :: [p1]) = [p1.granule] := by
    simp [nonzero_granules, hg0, hg1]
  have hlt : p1.granule < 2 ^ 64 := by
    have := le_value_lt [p1.g0, p1.g1, p1.g2, p1.g3, p1.g4, p1.g5, p1.g6, p1.g7]
    have e : (256 : ℕ) ^ [p1.g0, p1.g1, p1.g2, p1.g3, p1.g4, p1.g5, p1.g6, p1.g7].length
        = 2 ^ 64 := by norm_num
    rw [e] at this
    exact this
  have hne := to_int64_ne_zero hg1 hlt
  have key := get_ogg_duration_pages [] p0 [p1] r hwf (by simp) (by simp) (Or.inl hv)
  rw [sweep_pages_eq, hnz] at key
  simp only [List.nil_append] at key
  rw [key]
  by_cases hr : r = 0
  · rw [if_pos hr]
  · have hrange : (-2 ^ 63 : ℤ) ≤ 0 ∧ (0 : ℤ) < 2 ^ 63 := by constructor <;> norm_num
    have hz : to_int32 (((0 : ℕ) : ℤ)) = ((0 : ℕ) : ℤ) := to_int32_of_lt (by norm_num)
    simp only [Nat.cast_zero] at hz
    have hnil : ¬ [p1.granule] = [] := List.cons_ne_nil _ _
    rw [if_neg hr]
    simp only [hnil, List.headD_cons, List.getLastD_cons, List.getLastD_nil,
      Bool.false_eq_true, if_false, not_true_eq_false, false_or, hne, sub_self, Int.zero_tdiv,
      hz, hrange, and_self, if_true]

/-- Witness for `ogg_two_pages_zero`, which is also the counterexample to C10 as stated:
granule positions 0 and 48000 with `r = 48000` give 0, not 1. -/
theorem ogg_two_pages_zero_witness :
    nonzero_granules ogg_two_pages = [48000] ∧
      get_ogg_duration (some (pages_bytes ogg_two_pages)) = some 0 :=
  ⟨by decide!,
    ogg_two_pages_zero (ogg_page 0 0 0 0 0 0 (vorbis_id_payload 0x80 0xBB 0 0))
      (ogg_page 0x80 0xBB 0 0 0 1 [1, 2, 3]) 48000 (by decide!) (by decide!) (by decide!)
      (by decide!) (by decide!)⟩

/-- C10 as stated fails: for the Vorbis identification page with granule position 0 declaring
48000 Hz followed by one page with granule position 48000, the claimed result is
`(48000 - 0) / 48000 = 1`, but `get_ogg_duration` returns 0. -/
theorem ogg_two_pages_counterexample :
    (∀ q ∈ ogg_two_pages, q.wellformed) ∧
      ogg_two_pages.map OggPage.granule = [0, 48000] ∧
      (ogg_two_pages.getD 0 (ogg_page 0 0 0 0 0 0 [])).declares 48000 ∧
      (48000 - 0) / 48000 = 1 ∧
      get_ogg_duration (some (pages_bytes ogg_two_pages)) = some 0 := by
  decide!

theorem and_high_mask (v : ℕ) :
    v &&& (2 ^ 21 * (2 ^ 11 - 1)) = 2 ^ 21 * (v / 2 ^ 21 % 2 ^ 11) := by
  apply Nat.eq_of_testBit_eq
  intro j
  rw [Nat.testBit_and, Nat.testBit_mul_pow_two, Nat.testBit_mul_pow_two, Nat.testBit_mod_two_pow,
    Nat.testBit_two_pow_sub_one, ← Nat.shiftRight_eq_div_pow, Nat.testBit_shiftRight]
  by_cases hj : 21 ≤ j
  · rw [Nat.add_sub_cancel' hj]
    cases v.testBit j <;> simp [hj]
  · simp [hj]

theorem sync_iff (v : ℕ) (hv : v < 2 ^ 32) :
    v &&& 0xFFE00000 ≠ 0xFFE00000 ↔ v / 2 ^ 21 ≠ 2047 := by
  have h := and_high_mask v
  norm_num at h
  rw [h]
  omega

theorem be_value_four_lt (b0 b1 b2 b3 : Byte) : be_value [b0, b1, b2, b3] < 2 ^ 32 := by
  have h0 := b0.isLt
  have h1 := b1.isLt
  have h2 := b2.isLt
  have h3 := b3.isLt
  simp only [be_value, List.foldl_cons, List.foldl_nil]
  omega

theorem header_val_eq (b0 b1 b2 b3 : Byte) :
    to_uint32 ((((b0.val <<< 24) ||| (b1.val <<< 16) ||| (b2.val <<< 8) ||| b3.val : ℕ)) : ℤ) =
      be_value [b0, b1, b2, b3] := by
  have e0 : b0.val <<< 24 = 2 ^ (16 + 8) * b0.val := by
    rw [Nat.shiftLeft_eq]; ring
  have e3 : ∀ x : ℕ, x ||| b3.val = x ||| (b3.val <<< 0) := fun x => rfl
  have hv : (b0.val <<< 24) ||| (b1.val <<< 16) ||| (b2.val <<< 8) ||| b3.val =
      be_value [b0, b1, b2, b3] := by
    rw [e3, e0, shl_or_byte _ b1 16, shl_or_byte _ b2 8, shl_or_byte _ b3 0]
    simp only [be_value, List.foldl_cons, List.foldl_nil]
    omega
  rw [hv, to_uint32_of_lt (be_value_four_lt b0 b1 b2 b3)]

/-- The code of `parse_mp3_header` is the sync check followed by the decoding of the six bit
fields of the big-endian header word. -/
theorem parse_mp3_header_eq (b0 b1 b2 b3 : Byte) :
    parse_mp3_header [b0, b1, b2, b3] =
      if be_value [b0, b1, b2, b3] / 2 ^ 21 ≠ 2047 then none
      else decode_fields (be_value [b0, b1, b2, b3] / 2 ^ 19 % 4)
        (be_value [b0, b1, b2, b3] / 2 ^ 17 % 4) (be_value [b0, b1, b2, b3] / 2 ^ 16 % 2)
        (be_value [b0, b1, b2, b3] / 2 ^ 12 % 16) (be_value [b0, b1, b2, b3] / 2 ^ 10 % 4)
        (be_value [b0, b1, b2, b3] / 2 ^ 9 % 2) := by
  have hlt := be_value_four_lt b0 b1 b2 b3
  unfold parse_mp3_header decode_fields
  simp only [List.getD_cons_zero, List.getD_cons_succ, header_val_eq]
  simp only [sync_iff _ hlt, Nat.shiftRight_eq_div_pow, and_mask _ 2 0x3 (by norm_num),
    and_mask _ 1 0x1 (by norm_num), and_mask _ 4 0xF (by norm_num)]
  norm_num

theorem decode_fields_all : ∀ (vb : Fin 4) (lb : Fin 4) (prot : Fin 2) (bi : Fin 16)
    (si : Fin 4) (pad : Fin 2),
    ∀ h ∈ decode_fields vb lb prot bi si pad,
      fields_spec vb lb prot bi si pad h ∧ h.in_range := by
  decide!

theorem decode_fields_spec (v : ℕ) (h : MP3FrameHeader)
    (hd : decode_fields (v / 2 ^ 19 % 4) (v / 2 ^ 17 % 4) (v / 2 ^ 16 % 2) (v / 2 ^ 12 % 16)
      (v / 2 ^ 10 % 4) (v / 2 ^ 9 % 2) = some h) :
    fields_spec (v / 2 ^ 19 % 4) (v / 2 ^ 17 % 4) (v / 2 ^ 16 % 2) (v / 2 ^ 12 % 16)
      (v / 2 ^ 10 % 4) (v / 2 ^ 9 % 2) h ∧ h.in_range :=
  decode_fields_all ⟨v / 2 ^ 19 % 4, Nat.mod_lt _ (by norm_num)⟩
    ⟨v / 2 ^ 17 % 4, Nat.mod_lt _ (by norm_num)⟩ ⟨v / 2 ^ 16 % 2, Nat.mod_lt _ (by norm_num)⟩
    ⟨v / 2 ^ 12 % 16, Nat.mod_lt _ (by norm_num)⟩ ⟨v / 2 ^ 10 % 4, Nat.mod_lt _ (by norm_num)⟩
    ⟨v / 2 ^ 9 % 2, Nat.mod_lt _ (by norm_num)⟩ h hd

theorem parse_mp3_header_decode (b0 b1 b2 b3 : Byte) (h : MP3FrameHeader)
    (hacc : parse_mp3_header [b0, b1, b2, b3] = some h) :
    decode_fields (be_value [b0, b1, b2, b3] / 2 ^ 19 % 4)
      (be_value [b0, b1, b2, b3] / 2 ^ 17 % 4) (be_value [b0, b1, b2, b3] / 2 ^ 16 % 2)
      (be_value [b0, b1, b2, b3] / 2 ^ 12 % 16) (be_value [b0, b1, b2, b3] / 2 ^ 10 % 4)
      (be_value [b0, b1, b2, b3] / 2 ^ 9 % 2) = some h := by
  rw [parse_mp3_header_eq] at hacc
  split at hacc
  · exact absurd hacc (by simp)
  · exact hacc

theorem parse_mp3_header_in_range (b0 b1 b2 b3 : Byte) (h : MP3FrameHeader)
    (hacc : parse_mp3_header [b0, b1, b2, b3] = some h) : h.in_range :=
  (decode_fields_spec _ h (parse_mp3_header_decode b0 b1 b2 b3 h hacc)).2

/-- C5: for every 4-byte sequence `b0 b1 b2 b3` that `parse_mp3_header` accepts, with `v`
the big-endian value of the four bytes: the version is 2.5 / 2.0 / 1.0 for version bits
(`v / 2 ^ 19 % 4`) 0 / 2 / 3; the layer is 3 / 2 / 1 for layer bits (`v / 2 ^ 17 % 4`)
1 / 2 / 3; the bitrate is 1000 times the bitrate-table entry for (version 1 against version
2 or 2.5, layer, index `v / 2 ^ 12 % 16`); the sample rate is the sample-rate-table entry for
(version, index `v / 2 ^ 10 % 4`); padding is bit 9 and protection is bit 16; and the frame
size is `(⌊12 * bitrate / sample_rate⌋ + padding) * 4` for layer 1 and
`⌊144 * bitrate / sample_rate⌋ + padding` for layers 2 and 3. -/
theorem mp3_header_fields (b0 b1 b2 b3 : Byte) (h : MP3FrameHeader)
    (hacc : parse_mp3_header [b0, b1, b2, b3] = some h) :
    (h.mpeg_version =
      if be_value [b0, b1, b2, b3] / 2 ^ 19 % 4 = 0 then 5 / 2
      else if be_value [b0, b1, b2, b3] / 2 ^ 19 % 4 = 2 then 2 else 1) ∧
    be_value [b0, b1, b2, b3] / 2 ^ 19 % 4 ≠ 1 ∧
    (h.layer =
      if be_value [b0, b1, b2, b3] / 2 ^ 17 % 4 = 1 then 3
      else if be_value [b0, b1, b2, b3] / 2 ^ 17 % 4 = 2 then 2 else 1) ∧
    be_value [b0, b1, b2, b3] / 2 ^ 17 % 4 ≠ 0 ∧
    h.bitrate = 1000 * ((bitrate_table.getD (if h.mpeg_version = 1 then 0 else 1) []).getD
      (h.layer - 1).toNat []).getD (be_value [b0, b1, b2, b3] / 2 ^ 12 % 16) 0 ∧
    h.sample_rate = (sample_rate_table.getD
      (if h.mpeg_version = 1 then 0 else if h.mpeg_version = 2 then 1 else 2) []).getD
        (be_value [b0, b1, b2, b3] / 2 ^ 10 % 4) 0 ∧
    h.padding = (be_value [b0, b1, b2, b3] / 2 ^ 9 % 2 : ℕ) ∧
    h.protection = (be_value [b0, b1, b2, b3] / 2 ^ 16 % 2 : ℕ) ∧
    h.frame_size =
      if h.layer = 1 then (12 * h.bitrate / h.sample_rate + h.padding) * 4
      else 144 * h.bitrate / h.sample_rate + h.padding :=
  (decode_fields_spec _ h (parse_mp3_header_decode b0 b1 b2 b3 h hacc)).1

/-- Witness for `mp3_header_fields`: the header `FF FB 90 00` (MPEG-1 layer 3, 128 kbps,
44100 Hz, no padding) is accepted with frame size 417. -/
theorem mp3_header_fields_witness :
    parse_mp3_header [0xFF, 0xFB, 0x90, 0x00] = some ⟨1, 3, 128000, 44100, 417, 0, 1⟩ ∧
    (417 : ℤ) = if (3 : ℤ) = 1 then (12 * 128000 / 44100 + 0) * 4
      else 144 * 128000 / 44100 + 0 :=
  ⟨by decide!, (mp3_header_fields 0xFF 0xFB 0x90 0x00 ⟨1, 3, 128000, 44100, 417, 0, 1⟩
    (by decide!)).2.2.2.2.2.2.2.2⟩

theorem fseek_set_natCast (n : ℕ) (file : FILE) : fseek_set (n : ℤ) file = ⟨file.data, n⟩ := by
  have h : (0 : ℤ) ≤ n := by positivity
  simp only [fseek_set, h, if_true, Int.toNat_ofNat]

theorem fseek_set_data (off : ℤ) (file : FILE) : (fseek_set off file).data = file.data := by
  unfold fseek_set
  split <;> rfl

theorem fseek_cur_data (off : ℤ) (file : FILE) : (fseek_cur off file).data = file.data := by
  unfold fseek_cur
  split <;> rfl

theorem fread_data (n : ℕ) (file : FILE) : (fread n file).2.data = file.data := by
  simp only [fread]

theorem skip_xing_header_data (file : FILE) (n : ℤ) :
    (skip_xing_header file n).2.data = file.data := by
  unfold skip_xing_header
  simp only
  split_ifs <;> simp only [fseek_set_data, fseek_cur_data, fread_data]

theorem parse_mp3_header_getD (l : List Byte) :
    parse_mp3_header l = parse_mp3_header [l.getD 0 0, l.getD 1 0, l.getD 2 0, l.getD 3 0] := by
  unfold parse_mp3_header
  simp only [List.getD_cons_zero, List.getD_cons_succ]

theorem parse_in_range {l : List Byte} {h : MP3FrameHeader} (hh : parse_mp3_header l = some h) :
    h.in_range := by
  rw [parse_mp3_header_getD] at hh
  exact parse_mp3_header_in_range _ _ _ _ h hh

theorem trace_end_append : ∀ (tr tr2 : List (ℕ × MP3FrameHeader)) (pos : ℕ),
    trace_end (tr ++ tr2) pos = trace_end tr2 (trace_end tr pos) := by
  intro tr
  induction tr with
  | nil => intro tr2 pos; rfl
  | cons x tr ih =>
    intro tr2 pos
    rw [List.cons_append]
    simp only [trace_end, ih]

theorem scan_finds_le_end (data : List Byte) : ∀ (tr : List (ℕ × MP3FrameHeader)) (pos : ℕ),
    scan_finds data pos tr → pos ≤ trace_end tr pos := by
  intro tr
  induction tr with
  | nil => intro pos _; exact le_refl _
  | cons x tr ih =>
    intro pos hf
    have := ih _ hf.2.2.2.2
    have := hf.1
    simp only [trace_end]
    omega

/-- C8 (defect in the code): `get_mp3_duration_optimized` calls `skip_id3v2_tag`, which
leaves the stream at offset `10 + S`, and then rewinds the stream to offset 0 after measuring
the file size, so the frame scan starts inside the tag.  `id3_file` begins with `ID3` and
declares `S = 144`: the skip leaves the stream at offset 154, the scan starts at offset 0 and
takes the tag bytes at offset 10 for a frame header (8000 Hz), and the result is 1; a scan
started at offset 154 counts 10 frames at 48000 Hz and 9528 samples (0 seconds). -/
theorem id3_tag_scanned :
    id3_file.take 3 = ID3_MAGIC ∧
    (skip_id3v2_tag (fopen id3_file)).2.pos = 154 ∧
    (mp3_prologue id3_file).1.pos = 0 ∧
    scan_finds id3_file 0 [(10, ⟨5 / 2, 3, 8000, 8000, 144, 0, 1⟩)] ∧
    get_mp3_duration_export (some id3_file) = some 1 ∧
    (mp3_scan (id3_file.length + 1) id3_file.length
      { scan_init id3_file with file := ⟨id3_file, 154⟩ }).map
        (fun st => (st.total_frames, st.total_samples, st.sample_rate)) =
      some (10, 9528, 48000) := by
  refine ⟨by decide!, by decide!, by decide!, by decide!, by decide!, by decide!⟩

/-- C12 (defect in the code): the guard before the division tests `bits_per_sample > 0`,
but the divisor is `(bits_per_sample / 8) * num_channels`, which is 0 for
`bits_per_sample` in `1..7`.  `wav_four_bit` is a well-formed stream with sample rate 44100,
2 channels, 4 bits per sample and a non-empty data chunk: the division is reached with
divisor 0 (the model's undefined outcome `none`). -/
theorem wav_division_by_zero :
    wav_four_bit.wellformed ∧ le_value wav_four_bit.bits_per_sample = 4 ∧
    le_value wav_four_bit.num_channels = 2 ∧ le_value wav_four_bit.sample_rate = 44100 ∧
    le_value wav_four_bit.data_size = 176400 ∧
    to_uint32 ((le_value wav_four_bit.bits_per_sample / 8 *
      le_value wav_four_bit.num_channels : ℕ) : ℤ) = 0 ∧
    parse_wav_file (some wav_four_bit.bytes) = none ∧
    get_wav_duration (some wav_four_bit.bytes) = none := by
  refine ⟨by decide!, by decide!, by decide!, by decide!, by decide!, by decide!, by decide!,
    by decide!⟩

/-- C13: for every stream made of `RIFF`, 4 size bytes, `WAVE`, any complete chunks other
than `fmt `, then a `fmt ` chunk header whose payload starts with an audio-format field
different from 1, `parse_wav_file` returns 0 and `get_wav_duration` returns 0, whatever
bytes follow. -/
theorem wav_non_pcm_rejected (riff_size : List Byte) (before_fmt : List Chunk)
    (fmt_size audio_format rest : List Byte)
    (hrs : riff_size.length = 4)
    (hpre : ∀ c ∈ before_fmt, c.complete ∧ c.id ≠ WAV_FMT_HEADER)
    (hfs : fmt_size.length = 4) (haf : audio_format.length = 2)
    (hfmt : le_value audio_format ≠ 1) :
    parse_wav_file (some (WAV_RIFF_HEADER ++ (riff_size ++ (WAV_WAVE_HEADER ++
      (chunks_bytes before_fmt ++ (WAV_FMT_HEADER ++ (fmt_size ++
        (audio_format ++ rest)))))))) = some none ∧
    get_wav_duration (some (WAV_RIFF_HEADER ++ (riff_size ++ (WAV_WAVE_HEADER ++
      (chunks_bytes before_fmt ++ (WAV_FMT_HEADER ++ (fmt_size ++
        (audio_format ++ rest)))))))) = some 0 := by
  obtain ⟨data, hdata⟩ : ∃ data, data = WAV_RIFF_HEADER ++ (riff_size ++ (WAV_WAVE_HEADER ++
      (chunks_bytes before_fmt ++ (WAV_FMT_HEADER ++ (fmt_size ++
        (audio_format ++ rest)))))) := ⟨_, rfl⟩
  rw [← hdata]
  have hRIFF : WAV_RIFF_HEADER.length = 4 := rfl
  have hWAVE : WAV_WAVE_HEADER.length = 4 := rfl
  have hFMT : WAV_FMT_HEADER.length = 4 := rfl
  have d0 : data.drop 0 = _ := (List.drop_zero _).trans hdata
  have d1 := drop_step d0 hRIFF
  have d2 := drop_step d1 hrs
  have d3 := drop_step d2 hWAVE
  have d4 := drop_step d3 (rfl : (chunks_bytes before_fmt).length = _)
  have d5 := drop_step d4 hFMT
  have d6 := drop_step d5 hfs
  obtain ⟨m1, hm1⟩ : ∃ m, data.length + 1 = before_fmt.length + (m + 1) :=
    ⟨data.length - before_fmt.length, by
      have := chunks_length_le _ _ hpre
      have : (chunks_bytes before_fmt).length ≤ data.length := by
        rw [hdata]; simp only [List.length_append]; omega
      omega⟩
  have s1 := scan_chunks_skip _ _ hpre (m1 + 1) _ _ _ d3
  have s2 := scan_chunks_found m1 hFMT hfs d4
  rw [← hm1] at s1
  have hp : parse_wav_file (some data) = some none := by
    unfold parse_wav_file
    simp only [fopen, fread_eq d0 hRIFF]
    simp only [fread_eq d2 hWAVE, fseek_cur_four, hRIFF, hWAVE, ne_eq, not_true_eq_false,
      if_false]
    simp only [s1, s2]
    simp only [fread_eq d6 haf, haf, hfmt, ne_eq, not_true_eq_false, not_false_eq_true,
      if_false, if_true]
  refine ⟨hp, ?_⟩
  unfold get_wav_duration
  rw [hp]

/-- Witness for `wav_non_pcm_rejected`: a stream with a `LIST` chunk before the `fmt ` chunk
and audio format 3, followed by what would be a complete PCM description, gives 0. -/
theorem wav_non_pcm_rejected_witness :
    le_value ([3, 0] : List Byte) ≠ 1 ∧ get_wav_duration (some wav_float_bytes) = some 0 :=
  ⟨by decide!, (wav_non_pcm_rejected [0x24, 0xB1, 0x02, 0x00]
    [⟨[0x4C, 0x49, 0x53, 0x54], [2, 0, 0, 0], [7, 7]⟩] [16, 0, 0, 0] [3, 0]
    [2, 0, 0x44, 0xAC, 0, 0, 0x10, 0xB1, 2, 0, 4, 0, 16, 0,
      0x64, 0x61, 0x74, 0x61, 0x10, 0xB1, 0x02, 0x00, 1, 2, 3, 4]
    (by decide!) (by decide!) (by decide!) (by decide!) (by decide!)).2⟩


theorem decode_fields_none_iff : ∀ (vb : Fin 4) (lb : Fin 4) (prot : Fin 2) (bi : Fin 16)
    (si : Fin 4) (pad : Fin 2),
    decode_fields vb lb prot bi si pad = none ↔
      (vb.val = 1 ∨ lb.val = 0 ∨ bi.val = 0 ∨ bi.val = 15 ∨ si.val = 3) := by
  decide!

/-- C18: `parse_mp3_header` rejects a 4-byte sequence (with big-endian value `v`) if and only
if its top 11 bits are not all ones (`v / 2 ^ 21 ≠ 2047`), or its version bits
(`v / 2 ^ 19 % 4`) are 01, or its layer bits (`v / 2 ^ 17 % 4`) are 00, or its bitrate index
(`v / 2 ^ 12 % 16`) is 0 or 15, or its sample-rate index (`v / 2 ^ 10 % 4`) is 3; in every
other case it accepts. -/
theorem mp3_header_reject_iff (b0 b1 b2 b3 : Byte) :
    parse_mp3_header [b0, b1, b2, b3] = none ↔
      (be_value [b0, b1, b2, b3] / 2 ^ 21 ≠ 2047 ∨
        be_value [b0, b1, b2, b3] / 2 ^ 19 % 4 = 1 ∨
        be_value [b0, b1, b2, b3] / 2 ^ 17 % 4 = 0 ∨
        be_value [b0, b1, b2, b3] / 2 ^ 12 % 16 = 0 ∨
        be_value [b0, b1, b2, b3] / 2 ^ 12 % 16 = 15 ∨
        be_value [b0, b1, b2, b3] / 2 ^ 10 % 4 = 3) := by
  have h := decode_fields_none_iff
    ⟨be_value [b0, b1, b2, b3] / 2 ^ 19 % 4, Nat.mod_lt _ (by norm_num)⟩
    ⟨be_value [b0, b1, b2, b3] / 2 ^ 17 % 4, Nat.mod_lt _ (by norm_num)⟩
    ⟨be_value [b0, b1, b2, b3] / 2 ^ 16 % 2, Nat.mod_lt _ (by norm_num)⟩
    ⟨be_value [b0, b1, b2, b3] / 2 ^ 12 % 16, Nat.mod_lt _ (by norm_num)⟩
    ⟨be_value [b0, b1, b2, b3] / 2 ^ 10 % 4, Nat.mod_lt _ (by norm_num)⟩
    ⟨be_value [b0, b1, b2, b3] / 2 ^ 9 % 2, Nat.mod_lt _ (by norm_num)⟩
  rw [parse_mp3_header_eq]
  by_cases hs : be_value [b0, b1, b2, b3] / 2 ^ 21 ≠ 2047
  · simp only [if_pos hs, true_iff]
    exact Or.inl hs
  · rw [if_neg hs]
    exact h.trans ⟨Or.inr, fun h2 => h2.resolve_left hs⟩

/-- The frame size computed for every combination of fields that passes the version, layer,
bitrate-table and sample-rate-table checks of `parse_mp3_header`. -/
theorem frame_size_all : ∀ (vb : Fin 4) (lb : Fin 4) (bi : Fin 16) (si : Fin 4) (pad : Fin 2),
    vb.val ≠ 1 → lb.val ≠ 0 →
    get_mp3_bitrate (c_trunc (if vb.val = 0 then 5 / 2 else if vb.val = 2 then 2 else 1))
      (if lb.val = 1 then 3 else if lb.val = 2 then 2 else 1) bi.val ≠ 0 →
    get_mp3_sample_rate (if vb.val = 0 then 5 / 2 else if vb.val = 2 then 2 else 1) si.val ≠ 0 →
    32 ≤ get_mp3_frame_size (if lb.val = 1 then 3 else if lb.val = 2 then 2 else 1)
      (get_mp3_bitrate (c_trunc (if vb.val = 0 then 5 / 2 else if vb.val = 2 then 2 else 1))
        (if lb.val = 1 then 3 else if lb.val = 2 then 2 else 1) bi.val)
      (get_mp3_sample_rate (if vb.val = 0 then 5 / 2 else if vb.val = 2 then 2 else 1) si.val)
      pad.val := by
  decide!

/-- Every combination of fields that passes the four checks is accepted, with the computed
frame size. -/
theorem decode_frame_size_all : ∀ (vb : Fin 4) (lb : Fin 4) (prot : Fin 2) (bi : Fin 16)
    (si : Fin 4) (pad : Fin 2),
    vb.val ≠ 1 → lb.val ≠ 0 →
    get_mp3_bitrate (c_trunc (if vb.val = 0 then 5 / 2 else if vb.val = 2 then 2 else 1))
      (if lb.val = 1 then 3 else if lb.val = 2 then 2 else 1) bi.val ≠ 0 →
    get_mp3_sample_rate (if vb.val = 0 then 5 / 2 else if vb.val = 2 then 2 else 1) si.val ≠ 0 →
    (decode_fields vb lb prot bi si pad).isSome = true ∧
    ∀ h ∈ decode_fields vb lb prot bi si pad, h.frame_size =
      get_mp3_frame_size (if lb.val = 1 then 3 else if lb.val = 2 then 2 else 1)
        (get_mp3_bitrate (c_trunc (if vb.val = 0 then 5 / 2 else if vb.val = 2 then 2 else 1))
          (if lb.val = 1 then 3 else if lb.val = 2 then 2 else 1) bi.val)
        (get_mp3_sample_rate (if vb.val = 0 then 5 / 2 else if vb.val = 2 then 2 else 1) si.val)
        pad.val := by
  decide!

/-- C20: for every combination of header fields that passes the version check (version bits
not 01), the layer check (layer bits not 00), the bitrate-table lookup and the
sample-rate-table lookup of `parse_mp3_header`, the frame size computed by
`get_mp3_frame_size` is at least 32, hence greater than 4 (the guard of the scanner's seek to
frame start + `frame_size`), and the header is accepted with that frame size. -/
theorem mp3_frame_size_min (vb lb prot bi si pad : ℕ) (hvb : vb < 4) (hlb : lb < 4)
    (hprot : prot < 2) (hbi : bi < 16) (hsi : si < 4) (hpad : pad < 2)
    (hv : vb ≠ 1) (hl : lb ≠ 0)
    (hb : get_mp3_bitrate (c_trunc (if vb = 0 then 5 / 2 else if vb = 2 then 2 else 1))
      (if lb = 1 then 3 else if lb = 2 then 2 else 1) bi ≠ 0)
    (hs : get_mp3_sample_rate (if vb = 0 then 5 / 2 else if vb = 2 then 2 else 1) si ≠ 0) :
    32 ≤ get_mp3_frame_size (if lb = 1 then 3 else if lb = 2 then 2 else 1)
      (get_mp3_bitrate (c_trunc (if vb = 0 then 5 / 2 else if vb = 2 then 2 else 1))
        (if lb = 1 then 3 else if lb = 2 then 2 else 1) bi)
      (get_mp3_sample_rate (if vb = 0 then 5 / 2 else if vb = 2 then 2 else 1) si) pad ∧
    get_mp3_frame_size (if lb = 1 then 3 else if lb = 2 then 2 else 1)
      (get_mp3_bitrate (c_trunc (if vb = 0 then 5 / 2 else if vb = 2 then 2 else 1))
        (if lb = 1 then 3 else if lb = 2 then 2 else 1) bi)
      (get_mp3_sample_rate (if vb = 0 then 5 / 2 else if vb = 2 then 2 else 1) si) pad > 4 ∧
    ∃ h, decode_fields vb lb prot bi si pad = some h ∧
      h.frame_size = get_mp3_frame_size (if lb = 1 then 3 else if lb = 2 then 2 else 1)
        (get_mp3_bitrate (c_trunc (if vb = 0 then 5 / 2 else if vb = 2 then 2 else 1))
          (if lb = 1 then 3 else if lb = 2 then 2 else 1) bi)
        (get_mp3_sample_rate (if vb = 0 then 5 / 2 else if vb = 2 then 2 else 1) si) pad := by
  have h32 := frame_size_all ⟨vb, hvb⟩ ⟨lb, hlb⟩ ⟨bi, hbi⟩ ⟨si, hsi⟩ ⟨pad, hpad⟩ hv hl hb hs
  simp only at h32
  refine ⟨h32, by omega, ?_⟩
  have hd := decode_frame_size_all ⟨vb, hvb⟩ ⟨lb, hlb⟩ ⟨prot, hprot⟩ ⟨bi, hbi⟩ ⟨si, hsi⟩
    ⟨pad, hpad⟩ hv hl hb hs
  obtain ⟨h, hh⟩ := Option.isSome_iff_exists.mp hd.1
  exact ⟨h, hh, hd.2 h hh⟩

/-- Witness for `mp3_frame_size_min`: the minimum 32 is reached by MPEG-1 (version bits 11)
layer 1 (layer bits 11) at 32 kbps (index 1) and 48000 Hz (index 1) without padding. -/
theorem mp3_frame_size_min_witness :
    get_mp3_frame_size 1 32000 48000 0 = 32 ∧
    32 ≤ get_mp3_frame_size (if 3 = 1 then 3 else if 3 = 2 then 2 else 1)
      (get_mp3_bitrate (c_trunc (if 3 = 0 then 5 / 2 else if 3 = 2 then 2 else 1))
        (if 3 = 1 then 3 else if 3 = 2 then 2 else 1) (1 : ℕ))
      (get_mp3_sample_rate (if 3 = 0 then 5 / 2 else if 3 = 2 then 2 else 1) (1 : ℕ)) (0 : ℕ) :=
  ⟨by decide!, (mp3_frame_size_min 3 3 1 1 1 0 (by decide!) (by decide!) (by decide!)
    (by decide!) (by decide!) (by decide!) (by decide!) (by decide!) (by decide!)
    (by decide!)).1⟩


/-- The metadata loop stops without decoding at a type-0 header of length other than 34, and
at a header of another type with the last-block flag set. -/
theorem flac_loop_stop (h0 h1 h2 h3 : Byte) (fuel : ℕ) (data : List Byte) (pos : ℕ)
    (rest : List Byte) (info : FLACInfo)
    (h : data.drop pos = [h0, h1, h2, h3] ++ rest)
    (hcase : (be_value [h0, h1, h2, h3] / 2 ^ 24 % 128 = 0 ∧
        be_value [h0, h1, h2, h3] % 2 ^ 24 ≠ 34) ∨
      (be_value [h0, h1, h2, h3] / 2 ^ 31 = 1 ∧ be_value [h0, h1, h2, h3] / 2 ^ 24 % 128 ≠ 0)) :
    parse_flac_metadata_loop (fuel + 1) ⟨data, pos⟩ info = info := by
  have h4 : [h0, h1, h2, h3].length = 4 := rfl
  have hfold := header_fold h0 h1 h2 h3
  obtain ⟨w, hw⟩ : ∃ w, w = be_value [h0, h1, h2, h3] := ⟨_, rfl⟩
  have hlt : w < 2 ^ 32 := by rw [hw]; exact word_lt ⟨h0, h1, h2, h3, []⟩
  rw [← hw] at hcase hfold
  have e1 : (w >>> 31) &&& 0x01 = w / 2 ^ 31 := by
    rw [and_mask _ 1 _ (by norm_num), Nat.shiftRight_eq_div_pow]
    omega
  have e2 : (w >>> 24) &&& 0x7F = w / 2 ^ 24 % 128 := by
    rw [and_mask _ 7 _ (by norm_num), Nat.shiftRight_eq_div_pow]
    norm_num
  have e3 : w &&& 0xFFFFFF = w % 2 ^ 24 := and_mask _ 24 _ (by norm_num)
  conv_lhs => unfold parse_flac_metadata_loop
  simp only [fread_eq h h4, h4, lt_self_iff_false, if_false, hfold]
  simp only [e1, e2, e3]
  rcases hcase with ⟨ht, hl⟩ | ⟨hf, ht⟩
  · simp only [ht, if_true, parse_streaminfo_block, hl, ne_eq, not_false_eq_true]
  · simp only [ht, if_false, hf, decide_True, if_true]

/-- C14: for every FLAC stream made of `fLaC`, skipped metadata blocks, and then a block
header (with big-endian value `w`) that either has type 0 (`w / 2 ^ 24 % 128 = 0`) and a
declared length `w % 2 ^ 24` other than 34, or has the last-block flag set (`w / 2 ^ 31 = 1`)
and a type other than 0: no field is decoded (`info` stays zeroed), `parse_flac_file` returns
0 and `get_flac_duration` returns 0, whatever bytes follow. -/
theorem flac_bad_streaminfo_zero (before : List MetaBlock) (h0 h1 h2 h3 : Byte)
    (rest : List Byte) (hb : ∀ b ∈ before, b.skipped)
    (hcase : (be_value [h0, h1, h2, h3] / 2 ^ 24 % 128 = 0 ∧
        be_value [h0, h1, h2, h3] % 2 ^ 24 ≠ 34) ∨
      (be_value [h0, h1, h2, h3] / 2 ^ 31 = 1 ∧ be_value [h0, h1, h2, h3] / 2 ^ 24 % 128 ≠ 0)) :
    parse_flac_file (some (FLAC_SIGNATURE ++ (blocks_bytes before ++
      ([h0, h1, h2, h3] ++ rest)))) = (false, ⟨0, 0, 0, 0, 0⟩) ∧
    get_flac_duration (some (FLAC_SIGNATURE ++ (blocks_bytes before ++
      ([h0, h1, h2, h3] ++ rest)))) = some 0 := by
  obtain ⟨data, hdata⟩ : ∃ data, data = FLAC_SIGNATURE ++ (blocks_bytes before ++
      ([h0, h1, h2, h3] ++ rest)) := ⟨_, rfl⟩
  rw [← hdata]
  have hsig : FLAC_SIGNATURE.length = 4 := rfl
  have d0 : data.drop 0 = _ := (List.drop_zero _).trans hdata
  have d1 := drop_step d0 hsig
  have d2 := drop_step d1 (rfl : (blocks_bytes before).length = _)
  obtain ⟨m, hm⟩ : ∃ m, data.length + 1 = before.length + (m + 1) :=
    ⟨data.length - before.length, by
      have := blocks_length_le before
      have : (blocks_bytes before).length ≤ data.length := by
        rw [hdata]; simp only [List.length_append]; omega
      omega⟩
  have s1 := flac_loop_skip _ hb (m + 1) _ _ _ ⟨0, 0, 0, 0, 0⟩ d1
  have s2 := flac_loop_stop h0 h1 h2 h3 m _ _ _ ⟨0, 0, 0, 0, 0⟩ d2 hcase
  rw [← hm] at s1
  have hp : parse_flac_file (some data) = (false, ⟨0, 0, 0, 0, 0⟩) := by
    unfold parse_flac_file check_flac_signature parse_flac_metadata
    simp only [fopen, fread_eq d0 hsig, hsig, lt_self_iff_false, if_false, decide_True,
      not_true_eq_false, s1, s2]
    simp
  refine ⟨hp, ?_⟩
  unfold get_flac_duration
  rw [hp]
  simp

/-- Witness for `flac_bad_streaminfo_zero`: a padding block, then a type-0 header declaring
length 33, then a well-formed STREAMINFO block (header and payload of
`streaminfo_one_second`): the result is 0. -/
theorem flac_bad_streaminfo_zero_witness :
    be_value ([0, 0, 0, 33] : List Byte) % 2 ^ 24 ≠ 34 ∧
    get_flac_duration (some (FLAC_SIGNATURE ++ (blocks_bytes [⟨0x01, 0, 0, 3, [0, 0, 0]⟩] ++
      ([0, 0, 0, 33] ++ (streaminfo_header true ++ streaminfo_one_second.bytes))))) = some 0 :=
  ⟨by decide!, (flac_bad_streaminfo_zero [⟨0x01, 0, 0, 3, [0, 0, 0]⟩] 0 0 0 33
    (streaminfo_header true ++ streaminfo_one_second.bytes) (by decide!)
    (Or.inl (by decide!))).2⟩


theorem getD_take_of_lt (l : List Byte) {i n : ℕ} (h : i < n) :
    (l.take n).getD i 0 = l.getD i 0 := by
  simp [List.getD_eq_getElem?_getD, List.getElem?_take, h]

theorem le64_or (l : List Byte) (k : ℕ) (h : k + 8 ≤ l.length) :
    [0, 1, 2, 3, 4, 5, 6, 7].foldl
      (fun acc i => acc ||| ((l.getD (k + i) 0).val <<< (i * 8))) 0 =
      le_value ((l.drop k).take 8) := by
  have hlen : 8 ≤ (l.drop k).length := by rw [List.length_drop]; omega
  simp only [List.foldl_cons, List.foldl_nil, getD_add_eq_drop l k]
  generalize l.drop k = m at hlen
  match m, hlen with
  | a0 :: a1 :: a2 :: a3 :: a4 :: a5 :: a6 :: a7 :: tl, _ =>
    have b0 := a0.isLt
    have b1 := a1.isLt
    have b2 := a2.isLt
    have b3 := a3.isLt
    have b4 := a4.isLt
    have b5 := a5.isLt
    have b6 := a6.isLt
    have b7 := a7.isLt
    simp only [List.getD_cons_zero, List.getD_cons_succ, List.take_succ_cons, List.take_zero,
      le_value, List.foldr_cons, List.foldr_nil, Nat.reduceMul]
    rw [le_or_byte 0 0 a0 (by norm_num), le_or_byte _ 8 a1 (by omega),
      le_or_byte _ 16 a2 (by omega), le_or_byte _ 24 a3 (by omega),
      le_or_byte _ 32 a4 (by omega), le_or_byte _ 40 a5 (by omega),
      le_or_byte _ 48 a6 (by omega), le_or_byte _ 56 a7 (by omega)]
    omega

theorem le32_fold (l : List Byte) (k : ℕ) (h : k + 4 ≤ l.length) :
    [0, 1, 2, 3].foldl (fun acc i => acc ||| ((l.getD (k + i) 0).val <<< (i * 8))) 0 =
      le_value ((l.drop k).take 4) := by
  rw [← le32_or l k h]
  simp only [List.foldl_cons, List.foldl_nil, Nat.zero_or, Nat.zero_mul, Nat.shiftLeft_zero,
    Nat.add_zero, Nat.one_mul, Nat.reduceMul]

theorem sum_bytes_le (l : List Byte) : (l.map Fin.val).sum ≤ 255 * l.length := by
  induction l with
  | nil => simp
  | cons a l ih =>
    have := a.isLt
    simp only [List.map_cons, List.sum_cons, List.length_cons]
    omega

/-- Closed form of `read_ogg_page_header` at a position `p` of a stream. -/
theorem read_ogg_page_header_form (data : List Byte) (p : ℕ) :
    read_ogg_page_header ⟨data, p⟩ =
      if (data.drop p).length < 27 then none
      else if (data.drop p).take 4 ≠ OGG_PAGE_HEADER then none
      else if (data.drop p).length < 27 + ((data.drop p).getD 26 0).val then none
      else some
        { header :=
            { capture_pattern := (data.drop p).take 4
              version := ((data.drop p).getD 4 0).val
              header_type := ((data.drop p).getD 5 0).val
              granule_position := le_value (((data.drop p).drop 6).take 8)
              bitstream_serial := le_value (((data.drop p).drop 14).take 4)
              page_sequence := le_value (((data.drop p).drop 18).take 4)
              checksum := le_value (((data.drop p).drop 22).take 4)
              page_segments := ((data.drop p).getD 26 0).val }
          data_size := ((((data.drop p).drop 27).take
            ((data.drop p).getD 26 0).val).map Fin.val).sum
          file := ⟨data, p + 27 + ((data.drop p).getD 26 0).val⟩ } := by
  obtain ⟨av, hav⟩ : ∃ av, av = data.drop p := ⟨_, rfl⟩
  have hfr : fread 27 ⟨data, p⟩ = (av.take 27, ⟨data, p + (av.take 27).length⟩) := by
    simp only [fread, hav]
  rw [← hav]
  unfold read_ogg_page_header
  rw [hfr]
  simp only
  by_cases h27 : av.length < 27
  · have : (av.take 27).length < 27 := by rw [List.length_take]; omega
    simp only [this, h27, if_true]
  · have hl : (av.take 27).length = 27 := by rw [List.length_take]; omega
    have ht4 : (av.take 27).take 4 = av.take 4 := by
      rw [List.take_take]; rfl
    simp only [hl, lt_self_iff_false, if_false, h27, ht4]
    by_cases hmagic : av.take 4 ≠ OGG_PAGE_HEADER
    · simp only [hmagic, ne_eq, not_false_eq_true, if_true]
    · simp only [hmagic, if_false]
      have hg : ∀ i, i < 27 → (av.take 27).getD i 0 = av.getD i 0 :=
        fun i hi => getD_take_of_lt av hi
      have hl27 : 27 ≤ (av.take 27).length := by omega
      have e64 := le64_or (av.take 27) 6 (by omega)
      have e14 := le32_fold (av.take 27) 14 (by omega)
      have e18 := le32_fold (av.take 27) 18 (by omega)
      have e22 := le32_fold (av.take 27) 22 (by omega)
      have dt : ∀ k m, k + m ≤ 27 → ((av.take 27).drop k).take m = (av.drop k).take m := by
        intro k m hkm
        rw [List.drop_take, List.take_take, show min m (27 - k) = m by omega]
      rw [dt 6 8 (by omega)] at e64
      rw [dt 14 4 (by omega)] at e14
      rw [dt 18 4 (by omega)] at e18
      rw [dt 22 4 (by omega)] at e22
      rw [e64, e14, e18, e22]
      simp only [hg 26 (by omega), hg 4 (by omega), hg 5 (by omega)]
      have hfr2 : fread (av.getD 26 0).val ⟨data, p + 27⟩ =
          ((av.drop 27).take (av.getD 26 0).val,
            ⟨data, p + 27 + ((av.drop 27).take (av.getD 26 0).val).length⟩) := by
        simp only [fread, hav, List.drop_drop]
      rw [hfr2]
      simp only
      by_cases hn : av.length < 27 + (av.getD 26 0).val
      · have : ((av.drop 27).take (av.getD 26 0).val).length < (av.getD 26 0).val := by
          rw [List.length_take, List.length_drop]; omega
        simp only [this, hn, if_true]
      · have hl2 : ((av.drop 27).take (av.getD 26 0).val).length = (av.getD 26 0).val := by
          rw [List.length_take, List.length_drop]; omega
        simp only [hl2, lt_self_iff_false, if_false, hn]

/-- C15: `read_ogg_page_header` at stream position `p` succeeds if and only if at least 27
bytes are available at `p`, the first 4 of them are `OggS`, and at least `n` further bytes
are available, `n` being the byte at offset 26; on success `version` is byte 4, `header_type`
byte 5, `granule_position` the little-endian value of bytes 6..13, `bitstream_serial`,
`page_sequence`, `checksum` the little-endian values of bytes 14..17, 18..21, 22..25,
`page_segments` is `n`, the reported payload size is the sum of the `n` segment-table bytes
(at most `255 * 255`), and the stream position is `p + 27 + n`. -/
theorem ogg_page_header_spec (data : List Byte) (p : ℕ) :
    (read_ogg_page_header ⟨data, p⟩ ≠ none ↔
      (27 ≤ (data.drop p).length ∧ (data.drop p).take 4 = OGG_PAGE_HEADER ∧
        27 + ((data.drop p).getD 26 0).val ≤ (data.drop p).length)) ∧
    ∀ r, read_ogg_page_header ⟨data, p⟩ = some r →
      r.header.version = ((data.drop p).getD 4 0).val ∧
      r.header.header_type = ((data.drop p).getD 5 0).val ∧
      r.header.granule_position = le_value (((data.drop p).drop 6).take 8) ∧
      r.header.bitstream_serial = le_value (((data.drop p).drop 14).take 4) ∧
      r.header.page_sequence = le_value (((data.drop p).drop 18).take 4) ∧
      r.header.checksum = le_value (((data.drop p).drop 22).take 4) ∧
      r.header.page_segments = ((data.drop p).getD 26 0).val ∧
      r.data_size = ((((data.drop p).drop 27).take
        ((data.drop p).getD 26 0).val).map Fin.val).sum ∧
      r.data_size ≤ 255 * 255 ∧
      r.file.pos = p + 27 + ((data.drop p).getD 26 0).val := by
  rw [read_ogg_page_header_form]
  have hn := ((data.drop p).getD 26 0).isLt
  have hsum := sum_bytes_le (((data.drop p).drop 27).take ((data.drop p).getD 26 0).val)
  have hlt : (((data.drop p).drop 27).take ((data.drop p).getD 26 0).val).length ≤ 255 := by
    rw [List.length_take]
    omega
  constructor
  · split_ifs with h1 h2 h3
    · simp only [ne_eq, not_true_eq_false, false_iff]
      omega
    · simp only [ne_eq, not_true_eq_false, false_iff]
      exact fun h => h2 h.2.1
    · simp only [ne_eq, not_true_eq_false, false_iff]
      omega
    · simp only [ne_eq, not_false_eq_true, true_iff, reduceCtorEq]
      exact ⟨by omega, not_not.mp h2, by omega⟩
  · intro r hr
    split_ifs at hr with h1 h2 h3
    simp only [Option.some.injEq] at hr
    subst hr
    refine ⟨rfl, rfl, rfl, rfl, rfl, rfl, rfl, rfl, ?_, rfl⟩
    show _ ≤ 255 * 255
    calc _ ≤ 255 * (((data.drop p).drop 27).take ((data.drop p).getD 26 0).val).length := hsum
      _ ≤ 255 * 255 := Nat.mul_le_mul_left _ hlt


theorem read_ogg_page_header_file {data : List Byte} {pos : ℕ} {page : PageRead}
    (h : read_ogg_page_header ⟨data, pos⟩ = some page) :
    page.file.data = data ∧ page.file.pos ≤ data.length := by
  rw [read_ogg_page_header_form] at h
  split_ifs at h with h1 h2 h3
  simp only [Option.some.injEq] at h
  subst h
  refine ⟨rfl, ?_⟩
  show pos + 27 + _ ≤ data.length
  rw [List.length_drop] at h3
  omega

theorem probe_loop_eof (data : List Byte) (n pos : ℕ) (h : data.length ≤ pos) :
    find_first_audio_page_loop n ⟨data, pos⟩ = none := by
  cases n with
  | zero => rfl
  | succ n =>
    unfold find_first_audio_page_loop
    rw [read_ogg_page_header_eof data pos (List.drop_eq_nil_of_le h)]

theorem probe_guarded_eof (data : List Byte) (n pos : ℕ) (h : data.length ≤ pos) :
    probe_reference_guarded n data pos = none := by
  cases n with
  | zero => rfl
  | succ n =>
    unfold probe_reference_guarded
    rw [read_ogg_page_header_eof data pos (List.drop_eq_nil_of_le h)]

/-- The loop of `find_first_audio_page` computes `probe_reference_guarded`. -/
theorem probe_loop_eq (data : List Byte) : ∀ (n pos : ℕ),
    find_first_audio_page_loop n ⟨data, pos⟩ = probe_reference_guarded n data pos := by
  intro n
  induction n with
  | zero => intro pos; rfl
  | succ n ih =>
    intro pos
    unfold find_first_audio_page_loop probe_reference_guarded
    cases hrd : read_ogg_page_header ⟨data, pos⟩ with
    | none => rfl
    | some page =>
      obtain ⟨hdata, hq⟩ := read_ogg_page_header_file hrd
      obtain ⟨q, hqdef⟩ : ∃ q, q = page.file.pos := ⟨_, rfl⟩
      have hfile : page.file = ⟨data, q⟩ := by
        rw [hqdef, ← hdata]
      have hrs : (if page.data_size < 100 then page.data_size else 100) =
          min page.data_size 100 := by
        split_ifs <;> omega
      have hfr : fread (min page.data_size 100) ⟨data, q⟩ =
          ((data.drop q).take (min page.data_size 100),
            ⟨data, q + ((data.drop q).take (min page.data_size 100)).length⟩) := by
        simp only [fread]
      simp only [hrs, hfile, hfr, ← hqdef]
      obtain ⟨head, hhead⟩ : ∃ head, head = (data.drop q).take (min page.data_size 100) :=
        ⟨_, rfl⟩
      rw [← hhead]
      have h23 : min page.data_size 100 ≥ 23 ↔ 23 ≤ page.data_size := by omega
      have h12 : min page.data_size 100 ≥ 12 ↔ 12 ≤ page.data_size := by omega
      simp only [h23, h12]
      by_cases c1 : head.length = min page.data_size 100 ∧ head.take 7 = VORBIS_ID_MAGIC ∧
          23 ≤ page.data_size
      · rw [if_pos c1, if_pos c1, le32_or head 12 (by omega)]
      · rw [if_neg c1, if_neg c1]
        by_cases c2 : head.length = min page.data_size 100 ∧ head.take 8 = OPUS_HEAD_MAGIC ∧
            12 ≤ page.data_size
        · rw [if_pos c2, if_pos c2, le32_or head 8 (by omega)]
        · rw [if_neg c2, if_neg c2]
          by_cases hfull : head.length = min page.data_size 100
          · have hnext : (if page.data_size > min page.data_size 100 then
                fseek_cur ((page.data_size - min page.data_size 100 : ℕ) : ℤ)
                  ⟨data, q + head.length⟩
                else ⟨data, q + head.length⟩) = ⟨data, q + page.data_size⟩ := by
              split_ifs with hgt
              · rw [fseek_cur_natCast]
                congr 1
                omega
              · congr 1
                omega
            rw [hnext]
            exact ih _
          · have hshort : data.length ≤ q + head.length := by
              have hl : head.length = min (min page.data_size 100) (data.length - q) := by
                rw [hhead, List.length_take, List.length_drop]
              omega
            have hpos : ∀ f : FILE, f = (if page.data_size > min page.data_size 100 then
                fseek_cur ((page.data_size - min page.data_size 100 : ℕ) : ℤ)
                  ⟨data, q + head.length⟩
                else ⟨data, q + head.length⟩) → f.data = data ∧ data.length ≤ f.pos := by
              intro f hf
              split_ifs at hf with hgt
              · rw [fseek_cur_natCast] at hf
                rw [hf]
                exact ⟨rfl, by show data.length ≤ q + head.length + _; omega⟩
              · rw [hf]
                exact ⟨rfl, hshort⟩
            obtain ⟨hd2, hp2⟩ := hpos _ rfl
            have hl : head.length ≤ min page.data_size 100 := by
              rw [hhead, List.length_take]
              omega
            rw [probe_guarded_eof data n _ (by omega)]
            obtain ⟨f, hf⟩ : ∃ f : FILE, f = (if page.data_size > min page.data_size 100 then
                fseek_cur ((page.data_size - min page.data_size 100 : ℕ) : ℤ)
                  ⟨data, q + head.length⟩
                else ⟨data, q + head.length⟩) := ⟨_, rfl⟩
            rw [← hf] at hd2 hp2 ⊢
            have : f = ⟨data, f.pos⟩ := by rw [← hd2]
            rw [this]
            exact probe_loop_eof data n _ hp2

/-- C16 (as amended): the OGG codec probe equals the guarded reference: examine the first 10
pages from offset 0 in order; a page matches when the first `min size 100` bytes of its
payload (`size` the declared payload size) are present in the file and either they begin
with `\x01vorbis` and `size ≥ 23` (report the little-endian 32-bit value at payload offset
12) or they begin with `OpusHead` and `size ≥ 12` (report the value at payload offset 8);
stop at the first such page; report failure if none of the first 10 pages matches or a page
fails to decode first.  The stream position is restored. -/
theorem probe_eq_guarded_reference (data : List Byte) (pos : ℕ) :
    find_first_audio_page ⟨data, pos⟩ = (probe_reference_guarded 10 data 0, ⟨data, pos⟩) := by
  unfold find_first_audio_page
  simp only [ftell, fseek_set_zero, probe_loop_eq, fseek_set_natCast]

/-- C16 as stated fails: for the one-page stream `ogg_short_vorbis` (a 16-byte payload
beginning with `\x01vorbis`, rate 48000 at offsets 12..15) the reference of C16 reports
48000 and `find_first_audio_page` reports failure; likewise for `ogg_truncated_vorbis`,
whose page declares 200 payload bytes of which 30 are present. -/
theorem probe_reference_counterexample :
    probe_reference 10 ogg_short_vorbis 0 = some 48000 ∧
    (find_first_audio_page (fopen ogg_short_vorbis)).1 = none ∧
    probe_reference 10 ogg_truncated_vorbis 0 = some 48000 ∧
    (find_first_audio_page (fopen ogg_truncated_vorbis)).1 = none := by
  refine ⟨by decide!, by decide!, by decide!, by decide!⟩


theorem le_value_take_four_lt (l : List Byte) : le_value (l.take 4) < 2 ^ 32 := by
  have h := le_value_lt (l.take 4)
  have hl : (l.take 4).length ≤ 4 := by rw [List.length_take]; omega
  have : (256 : ℕ) ^ (l.take 4).length ≤ 256 ^ 4 := Nat.pow_le_pow_right (by norm_num) hl
  have e : (256 : ℕ) ^ 4 = 2 ^ 32 := by norm_num
  omega

theorem probe_guarded_lt (data : List Byte) : ∀ (n pos r : ℕ),
    probe_reference_guarded n data pos = some r → r < 2 ^ 32 := by
  intro n
  induction n with
  | zero => intro pos r h; exact absurd h (by simp [probe_reference_guarded])
  | succ n ih =>
    intro pos r h
    unfold probe_reference_guarded at h
    split at h
    · exact absurd h (by simp)
    · simp only at h
      split_ifs at h
      · simp only [Option.some.injEq] at h
        rw [← h]
        exact le_value_take_four_lt _
      · simp only [Option.some.injEq] at h
        rw [← h]
        exact le_value_take_four_lt _
      · exact ih _ _ h

/-- A sufficient condition for a non-negative result of `get_ogg_duration`: the sweep leaves
`first_granule ≤ last_granule` (as `long long` values) and, for the sample rate `r` found by
the probe, `(last_granule - first_granule) / r < 2 ^ 31`. -/
theorem ogg_duration_nonneg (bytes : List Byte)
    (hmono : (ogg_sweep (bytes.length + 1) ⟨bytes, 0⟩ ⟨false, 0, 0⟩).first_granule ≤
      (ogg_sweep (bytes.length + 1) ⟨bytes, 0⟩ ⟨false, 0, 0⟩).last_granule)
    (hfit : ∀ r ∈ (find_first_audio_page (fopen bytes)).1, r ≠ 0 →
      ((ogg_sweep (bytes.length + 1) ⟨bytes, 0⟩ ⟨false, 0, 0⟩).last_granule -
        (ogg_sweep (bytes.length + 1) ⟨bytes, 0⟩ ⟨false, 0, 0⟩).first_granule) / (r : ℤ)
          < 2 ^ 31) :
    ∃ d, get_ogg_duration (some bytes) = some d ∧ 0 ≤ d := by
  obtain ⟨st, hst⟩ : ∃ st, st = ogg_sweep (bytes.length + 1) ⟨bytes, 0⟩ ⟨false, 0, 0⟩ :=
    ⟨_, rfl⟩
  rw [← hst] at hmono hfit
  have hprobe := probe_eq_guarded_reference bytes 0
  unfold get_ogg_duration
  simp only [fopen] at hfit ⊢
  rw [hprobe] at hfit ⊢
  simp only [fseek_set_zero, ← hst]
  cases hp : probe_reference_guarded 10 bytes 0 with
  | none => exact ⟨0, rfl, le_refl _⟩
  | some r =>
    simp only
    have hr32 := probe_guarded_lt bytes 10 0 r hp
    by_cases hr0 : r = 0
    · rw [if_pos hr0]
      exact ⟨0, rfl, le_refl _⟩
    · rw [if_neg hr0]
      split_ifs with h1 h2
      · exact ⟨0, rfl, le_refl _⟩
      · have hq := hfit r (by rw [hp]; rfl) hr0
        have hnn : 0 ≤ st.last_granule - st.first_granule := by omega
        have hrpos : (0 : ℤ) < (r : ℤ) := by omega
        have hq0 : 0 ≤ (st.last_granule - st.first_granule) / (r : ℤ) :=
          Int.ediv_nonneg hnn (le_of_lt hrpos)
        obtain ⟨n, hn⟩ := Int.eq_ofNat_of_zero_le hq0
        refine ⟨_, rfl, ?_⟩
        rw [Int.tdiv_eq_ediv hnn (le_of_lt hrpos), hn, to_int32_of_lt (by
          rw [hn] at hq
          exact_mod_cast hq)]
        positivity
      · exfalso
        apply h2
        have hq := hfit r (by rw [hp]; rfl) hr0
        have hrpos : (0 : ℤ) < (r : ℤ) := by omega
        have hlt : st.last_granule - st.first_granule < 2 ^ 31 * (r : ℤ) := by
          have := Int.lt_mul_of_ediv_lt hrpos hq
          linarith
        have hr32z : (r : ℤ) < 2 ^ 32 := by exact_mod_cast hr32
        constructor
        · omega
        · nlinarith

/-- C11 (defect in the code): `get_ogg_duration` returns
`(int)((last_granule - first_granule) / sample_rate)` without any check of the sign.  On
`ogg_decreasing_pages` (rate 1, granule positions 2 then 1) it returns `-1`; on
`ogg_top_bit_pages` (48000 Hz, granule positions 0, 96000, `2 ^ 64 - 1`) the last granule
is `-1` as a `long long` and it returns `-2`. -/
theorem ogg_duration_negative :
    get_ogg_duration (some (pages_bytes ogg_decreasing_pages)) = some (-1) ∧
    (ogg_sweep ((pages_bytes ogg_top_bit_pages).length + 1) ⟨pages_bytes ogg_top_bit_pages, 0⟩
      ⟨false, 0, 0⟩) = ⟨true, 96000, -1⟩ ∧
    get_ogg_duration (some (pages_bytes ogg_top_bit_pages)) = some (-2) := by
  refine ⟨by decide!, by decide!, by decide!⟩


theorem tolower_ne_zero {b : Byte} (h : b ≠ 0) : tolower b ≠ 0 := by
  unfold tolower
  split_ifs with hc
  · intro h0
    have := congrArg Fin.val h0
    have hb := b.isLt
    simp only [Fin.val_add] at this
    have e32 : ((32 : Byte)).val = 32 := rfl
    have e0 : ((0 : Byte)).val = 0 := rfl
    rw [e32, e0] at this
    omega
  · exact h

theorem strcasecmp_eq_zero : ∀ (a b : List Byte), (∀ x ∈ a, x ≠ 0) → (∀ x ∈ b, x ≠ 0) →
    (strcasecmp a b = 0 ↔ a.map tolower = b.map tolower) := by
  intro a
  induction a with
  | nil =>
    intro b _ hb
    cases b with
    | nil => simp [strcasecmp]
    | cons y ys =>
      have hy := tolower_ne_zero (hb y (List.mem_cons_self _ _))
      have hv : (tolower y).val ≠ 0 := fun h => hy (Fin.ext h)
      simp only [strcasecmp, List.map_nil, List.map_cons]
      constructor
      · intro h; omega
      · intro h; exact absurd h (by simp)
  | cons x xs ih =>
    intro b ha hb
    cases b with
    | nil =>
      have hx := tolower_ne_zero (ha x (List.mem_cons_self _ _))
      have hv : (tolower x).val ≠ 0 := fun h => hx (Fin.ext h)
      simp only [strcasecmp, List.map_nil, List.map_cons]
      constructor
      · intro h; omega
      · intro h; exact absurd h (by simp)
    | cons y ys =>
      simp only [strcasecmp, List.map_cons, List.cons.injEq]
      by_cases hxy : tolower x = tolower y
      · rw [if_pos hxy]
        rw [ih ys (fun z hz => ha z (List.mem_cons_of_mem _ hz))
          (fun z hz => hb z (List.mem_cons_of_mem _ hz))]
        exact ⟨fun h => ⟨hxy, h⟩, fun h => h.2⟩
      · rw [if_neg hxy]
        have hv : (tolower x).val ≠ (tolower y).val := fun h => hxy (Fin.ext h)
        constructor
        · intro h; omega
        · intro h; exact absurd h.1 hxy

theorem strrchr_none {s : List Byte} {c : Byte} (h : c ∉ s) : strrchr s c = none := by
  induction s with
  | nil => rfl
  | cons x xs ih =>
    have h1 : c ∉ xs := fun hc => h (List.mem_cons_of_mem _ hc)
    have h2 : x ≠ c := fun hx => h (by rw [hx]; exact List.mem_cons_self _ _)
    simp only [strrchr, ih h1, h2, if_false]

theorem strrchr_last (pre suf : List Byte) (c : Byte) (h : c ∉ suf) :
    strrchr (pre ++ c :: suf) c = some (c :: suf) := by
  induction pre with
  | nil => simp only [List.nil_append, strrchr, strrchr_none h, if_true]
  | cons x xs ih =>
    rw [List.cons_append]
    simp only [strrchr, ih]

/-- C17: for every non-null file name (a C string: no zero byte), `get_audio_duration`
returns 0 if the name contains no `.`; and if the name is `pre ++ '.' :: suf` with no `.` in
`suf`, it returns the value of `get_mp3_duration_export`, `get_flac_duration`,
`get_ogg_duration`, `get_wav_duration` for the same file when the text from the last `.`
is, after `tolower`, `.mp3`, `.flac`, `.ogg`, `.wav` respectively, and 0 otherwise. -/
theorem audio_duration_dispatch (name : List Byte) (opened : Option (List Byte))
    (hname : ∀ b ∈ name, b ≠ 0) :
    ((0x2E : Byte) ∉ name → get_audio_duration (some name) opened = some 0) ∧
    ∀ pre suf : List Byte, name = pre ++ 0x2E :: suf → (0x2E : Byte) ∉ suf →
      get_audio_duration (some name) opened =
        if (0x2E :: suf).map tolower = EXT_MP3 then get_mp3_duration_export opened
        else if (0x2E :: suf).map tolower = EXT_FLAC then get_flac_duration opened
        else if (0x2E :: suf).map tolower = EXT_OGG then get_ogg_duration opened
        else if (0x2E :: suf).map tolower = EXT_WAV then get_wav_duration opened
        else some 0 := by
  constructor
  · intro h
    simp only [get_audio_duration, strrchr_none h]
  · intro pre suf hn hsuf
    have hext : ∀ b ∈ (0x2E : Byte) :: suf, b ≠ 0 := by
      intro b hb
      exact hname b (by rw [hn]; exact List.mem_append_right _ hb)
    have hlit : ∀ lit : List Byte, (∀ x ∈ lit, x ≠ 0) → lit.map tolower = lit →
        (strcasecmp (0x2E :: suf) lit = 0 ↔ (0x2E :: suf).map tolower = lit) := by
      intro lit h0 hl
      rw [strcasecmp_eq_zero _ _ hext h0, hl]
    have e1 := hlit EXT_MP3 (by decide!) (by decide!)
    have e2 := hlit EXT_FLAC (by decide!) (by decide!)
    have e3 := hlit EXT_OGG (by decide!) (by decide!)
    have e4 := hlit EXT_WAV (by decide!) (by decide!)
    rw [hn]
    simp only [get_audio_duration, strrchr_last pre suf 0x2E hsuf, e1, e2, e3, e4]
    rfl

/-- Witness for `audio_duration_dispatch`: the name `A.b.WaV` has the extension `.WaV`, so
the result is that of `get_wav_duration`, 1 second for `wav_one_second`. -/
theorem audio_duration_dispatch_witness :
    get_audio_duration (some [0x41, 0x2E, 0x62, 0x2E, 0x57, 0x61, 0x56])
      (some wav_one_second.bytes) = some 1 ∧
    get_audio_duration (some [0x41, 0x2E, 0x62, 0x2E, 0x57, 0x61, 0x56])
      (some wav_one_second.bytes) = get_wav_duration (some wav_one_second.bytes) :=
  ⟨by decide!, ((audio_duration_dispatch [0x41, 0x2E, 0x62, 0x2E, 0x57, 0x61, 0x56]
    (some wav_one_second.bytes) (by decide!)).2 [0x41, 0x2E, 0x62] [0x57, 0x61, 0x56] rfl
      (by decide!)).trans (by decide!)⟩


/-- The model `mp3_scan` of the loop is the iteration of `mp3_iteration`. -/
theorem mp3_scan_succ (fuel : ℕ) (F : ℤ) (st : ScanState) :
    mp3_scan (fuel + 1) F st =
      match mp3_iteration F st with
      | .exit r => r
      | .next st2 => mp3_scan fuel F st2 := by
  conv_lhs => unfold mp3_scan
  unfold mp3_iteration
  by_cases h1 : ftell st.file < F - 4
  · simp only [h1, not_true_eq_false, if_false]
    by_cases h2 : (fread 4 st.file).1.length = 4
    · simp only [h2, ne_eq, not_true_eq_false, if_false]
      cases hp : parse_mp3_header (fread 4 st.file).1 with
      | none => rfl
      | some header =>
        simp only
        split_ifs <;>
          first
          | rfl
          | (generalize double_to_int64 _ = d; cases d <;> rfl)
    · simp only [h2, ne_eq, not_false_eq_true, if_true]
  · simp only [h1, not_false_eq_true, if_true]


theorem fread_pos_data (n : ℕ) (file : FILE) :
    (fread n file).1 = (file.data.drop file.pos).take n ∧ (fread n file).2.data = file.data := by
  simp only [fread, and_self]

/-- A pass that runs the body to its end moves the stream forward: by 1 after a rejected
header, by `frame_size` after an accepted one. -/
theorem mp3_iteration_next (F : ℤ) (st st2 : ScanState) (h : mp3_iteration F st = .next st2) :
    st2.file.data = st.file.data ∧
    ((parse_mp3_header ((st.file.data.drop st.file.pos).take 4) = none ∧
        st2.file.pos = st.file.pos + 1) ∨
      (∃ hd, parse_mp3_header ((st.file.data.drop st.file.pos).take 4) = some hd ∧
        (st2.file.pos : ℤ) = st.file.pos + hd.frame_size)) := by
  obtain ⟨hb, hd⟩ := fread_pos_data 4 st.file
  unfold mp3_iteration at h
  by_cases h1 : ftell st.file < F - 4
  · simp only [h1, not_true_eq_false, if_false] at h
    by_cases h2 : (fread 4 st.file).1.length = 4
    · simp only [h2, ne_eq, not_true_eq_false, if_false] at h
      cases hp : parse_mp3_header (fread 4 st.file).1 with
      | none =>
        rw [hp] at h
        simp only [LoopStep.next.injEq] at h
        subst h
        have e : ftell st.file + 1 = ((st.file.pos + 1 : ℕ) : ℤ) := by
          simp only [ftell]; push_cast; rfl
        rw [hb] at hp
        refine ⟨?_, Or.inl ⟨hp, ?_⟩⟩
        · show (fseek_set (ftell st.file + 1) (fread 4 st.file).2).data = st.file.data
          rw [fseek_set_data, hd]
        · show (fseek_set (ftell st.file + 1) (fread 4 st.file).2).pos = st.file.pos + 1
          rw [e, fseek_set_natCast]
      | some header =>
        rw [hp] at h
        have hr := parse_in_range hp
        have hfs : header.frame_size > 4 := by have := hr.1; omega
        have e : ftell st.file + header.frame_size =
            ((st.file.pos + header.frame_size.toNat : ℕ) : ℤ) := by
          have := hr.1
          simp only [ftell]
          omega
        simp only [hfs, if_true, e, fseek_set_natCast] at h
        rw [hb] at hp
        split_ifs at h <;> first
          | (cases h <;> done)
          | (exfalso; revert h; generalize double_to_int64 _ = d
             cases d <;> (intro h; cases h <;> done))
          | (simp only [LoopStep.next.injEq] at h
             subst h
             refine ⟨?_, Or.inr ⟨header, hp, ?_⟩⟩
             · first
               | exact hd
               | (show (skip_xing_header (fread 4 st.file).2 header.frame_size).2.data = _
                  rw [skip_xing_header_data, hd])
             · show ((st.file.pos + header.frame_size.toNat : ℕ) : ℤ) = _
               have := hr.1
               omega)
    · simp only [h2, ne_eq, not_false_eq_true, if_true] at h
      exact absurd h (by simp)
  · simp only [h1, not_false_eq_true, if_true] at h
    exact absurd h (by simp)

theorem mp3_iteration_exit (F : ℤ) (st : ScanState) (h : ¬ ((st.file.pos : ℤ) < F - 4)) :
    mp3_iteration F st = .exit (some st) := by
  unfold mp3_iteration
  simp only [ftell, h, not_false_eq_true, if_true]

/-- The loop is left after at most `file_size - 4 - pos + 1` passes. -/
theorem mp3_iterate_terminates (F : ℤ) : ∀ (n : ℕ) (st : ScanState),
    (F - 4 - st.file.pos).toNat < n → ∃ r, mp3_iterate n F st = some r := by
  intro n
  induction n with
  | zero => intro st h; exact absurd h (Nat.not_lt_zero _)
  | succ n ih =>
    intro st h
    unfold mp3_iterate
    cases hit : mp3_iteration F st with
    | exit r => exact ⟨r, rfl⟩
    | next st2 =>
      simp only
      apply ih
      by_cases hc : (st.file.pos : ℤ) < F - 4
      · obtain ⟨_, hmove⟩ := mp3_iteration_next F st st2 hit
        rcases hmove with ⟨hp, h1⟩ | ⟨hd, hp, h1⟩
        · omega
        · have := (parse_in_range hp).1
          omega
      · rw [mp3_iteration_exit F st hc] at hit
        exact absurd hit (by simp)

theorem mp3_iterate_scan (F : ℤ) : ∀ (n : ℕ) (st : ScanState) (r : Option ScanState),
    mp3_iterate n F st = some r → ∀ k, mp3_scan (n + k) F st = r := by
  intro n
  induction n with
  | zero => intro st r h; exact absurd h (by simp [mp3_iterate])
  | succ n ih =>
    intro st r h k
    rw [show n + 1 + k = (n + k) + 1 by omega, mp3_scan_succ]
    unfold mp3_iterate at h
    cases hit : mp3_iteration F st with
    | exit r2 =>
      rw [hit] at h
      simp only [Option.some.injEq] at h
      simp only [h]
    | next st2 =>
      rw [hit] at h
      simp only at h
      exact ih st2 r h k

/-- C19: the MP3 frame-scan loop terminates on every input.  A pass through the loop either
leaves the loop or ends with the stream position greater than at its start, by exactly 1
after a rejected header and by exactly `frame_size > 0` after an accepted one; a pass started
at a position not below `file_size - 4` leaves the loop; hence the loop is left after at most
`file_size - 4 - pos + 1` passes, and its result is what `mp3_scan` returns with any larger
fuel. -/
theorem mp3_scan_terminates (file_size : ℤ) (st : ScanState) :
    (∀ st2, mp3_iteration file_size st = .next st2 →
      ((parse_mp3_header ((st.file.data.drop st.file.pos).take 4) = none ∧
          st2.file.pos = st.file.pos + 1) ∨
        (∃ hd, parse_mp3_header ((st.file.data.drop st.file.pos).take 4) = some hd ∧
          (st2.file.pos : ℤ) = st.file.pos + hd.frame_size ∧ 0 < hd.frame_size))) ∧
    (¬ ((st.file.pos : ℤ) < file_size - 4) → mp3_iteration file_size st = .exit (some st)) ∧
    ∃ r, mp3_iterate ((file_size - 4 - st.file.pos).toNat + 1) file_size st = some r ∧
      ∀ k, mp3_scan ((file_size - 4 - st.file.pos).toNat + 1 + k) file_size st = r := by
  refine ⟨?_, mp3_iteration_exit file_size st, ?_⟩
  · intro st2 h
    rcases (mp3_iteration_next file_size st st2 h).2 with h1 | ⟨hd, hp, h1⟩
    · exact Or.inl h1
    · exact Or.inr ⟨hd, hp, h1, by have := (parse_in_range hp).1; omega⟩
  · obtain ⟨r, hr⟩ := mp3_iterate_terminates file_size _ st (Nat.lt_succ_self _)
    exact ⟨r, hr, mp3_iterate_scan file_size _ st r hr⟩


theorem fseek_set_of_data (off : ℤ) (f g : FILE) (hd : f.data = g.data) (h0 : 0 ≤ off) :
    fseek_set off f = fseek_set off g := by
  simp only [fseek_set, h0, if_true, hd]

/-- The frame-scan loop with and without the `skip_xing_header` call computes the same
state. -/
theorem mp3_scan_eq_no_xing (F : ℤ) : ∀ (fuel : ℕ) (st : ScanState),
    mp3_scan fuel F st = mp3_scan_no_xing fuel F st := by
  intro fuel
  induction fuel with
  | zero => intro st; rfl
  | succ fuel ih =>
    intro st
    conv_lhs => unfold mp3_scan
    conv_rhs => unfold mp3_scan_no_xing
    by_cases h1 : ftell st.file < F - 4
    · simp only [h1, not_true_eq_false, if_false]
      by_cases h2 : (fread 4 st.file).1.length = 4
      · simp only [h2, ne_eq, not_true_eq_false, if_false]
        cases hp : parse_mp3_header (fread 4 st.file).1 with
        | none =>
          simp only
          exact ih _
        | some header =>
          have hr := parse_in_range hp
          have hfs : header.frame_size > 4 := by have := hr.1; omega
          have h0 : 0 ≤ ftell st.file + header.frame_size := by
            have := hr.1
            simp only [ftell]
            omega
          have key : fseek_set (ftell st.file + header.frame_size)
              (if st.total_frames + 1 = 1 then
                (skip_xing_header (fread 4 st.file).2 header.frame_size).2
              else (fread 4 st.file).2) =
              fseek_set (ftell st.file + header.frame_size) (fread 4 st.file).2 := by
            apply fseek_set_of_data _ _ _ _ h0
            split
            · exact skip_xing_header_data _ _
            · rfl
          simp only [hfs, if_true, key, ih]
      · simp only [h2, ne_eq, not_false_eq_true, if_true]
    · simp only [h1, not_false_eq_true, if_true]

/-- C21: the VBR-tag check has no effect on the result.  For every input,
`get_mp3_duration_optimized` (and `get_mp3_duration_export`) returns the same value as the
same scanner with the `skip_xing_header` call removed; the two loops agree from every state;
and after a valid frame header `hd` read at offset `p` the seek to `p + frame_size` leaves
the stream at that offset whatever `skip_xing_header` did before. -/
theorem xing_check_no_effect (opened : Option (List Byte)) :
    get_mp3_duration_optimized opened = get_mp3_duration_no_xing opened ∧
    get_mp3_duration_export opened = get_mp3_duration_no_xing opened ∧
    (∀ (fuel : ℕ) (file_size : ℤ) (st : ScanState),
      mp3_scan fuel file_size st = mp3_scan_no_xing fuel file_size st) ∧
    ∀ (data : List Byte) (p : ℕ) (hd : MP3FrameHeader),
      parse_mp3_header ((data.drop p).take 4) = some hd →
      fseek_set ((p : ℤ) + hd.frame_size) (skip_xing_header ⟨data, p + 4⟩ hd.frame_size).2 =
        ⟨data, p + hd.frame_size.toNat⟩ := by
  have h1 : get_mp3_duration_optimized opened = get_mp3_duration_no_xing opened := by
    unfold get_mp3_duration_optimized get_mp3_duration_no_xing
    simp only [mp3_scan_eq_no_xing]
  refine ⟨h1, h1, fun fuel F st => mp3_scan_eq_no_xing F fuel st, ?_⟩
  intro data p hd hp
  have hr := parse_in_range hp
  have e : (p : ℤ) + hd.frame_size = ((p + hd.frame_size.toNat : ℕ) : ℤ) := by
    have := hr.1
    omega
  rw [e, fseek_set_natCast, skip_xing_header_data]

end AudioParser

